import Mathlib

/-!
The RESP codec of belfinor/resp, embedded in Lean.

A shallow embedding of `decode.go`, `encode.go`, `message.go` and `resp.go`.

* A byte is a natural number; a Go `string` and a `[]byte` are both lists of bytes.
  No operation below depends on a byte being smaller than 256.
* A `[]byte` or `[]*Message` that may be `nil` is an `Option` of a list, `none` being `nil`;
  a `*Message` that may be `nil` is an `Option Message`.
* The `bufio.Reader` that `DecodeBufio` is given is the list of bytes not yet read; the
  underlying stream ends with `io.EOF` after them. The reader of a connection is
  modelled with its buffer, over a stream that may be closed.
* `int` is 64 bits wide. Memory is taken to be sufficient: `make` succeeds for every
  length that is a non-negative `int`, and panics for a negative one.
* The functions of `strconv`, `io`, `bufio` and `net` that the code calls are modelled
  after their documented behaviour.
-/

namespace Resp

/-- A Go `string` or `[]byte`: its bytes, each a natural number. -/
abbrev ByteStr := List Nat

/-- The bytes of an ASCII string literal. -/
def str (s : String) : ByteStr := s.toList.map Char.toNat

/-- The smallest `int64`. -/
def minInt64 : Int := -9223372036854775808

/-- The largest `int64`. -/
def maxInt64 : Int := 9223372036854775807

/-- The `int64` an integer wraps to (two's complement). -/
def wrapInt64 (x : Int) : Int :=
  (x + 9223372036854775808) % 18446744073709551616 - 9223372036854775808

/-! ## Errors -/

/-- The two causes of a `*strconv.NumError`: `strconv.ErrSyntax` and `strconv.ErrRange`. -/
inductive NumErrKind
  | ErrSyntax_
  | ErrRange_
  deriving DecidableEq, Repr

/-- The Go `error` values the code produces. -/
inductive GoError
  /-- The `io.EOF` value. -/
  | EOF
  /-- The `io.ErrUnexpectedEOF` value. -/
  | ErrUnexpectedEOF
  /-- A `*strconv.NumError` with its `Func`, `Num` and `Err`. -/
  | NumError (func : String) (num : ByteStr) (kind : NumErrKind)
  /-- The result of `errors.New(text)` (or of `fmt.Errorf`), with its message. -/
  | New (text : ByteStr)
  /-- The `bufio.ErrBufferFull` value. -/
  | ErrBufferFull
  /-- The `net.ErrClosed` value, the error of a read or write on a closed stream. -/
  | ErrClosed
  /-- A `protocolError` of `resp.go`, with the text it was made from. -/
  | protocolError (text : String)
  deriving DecidableEq, Repr

/-! ## `strconv` -/

/-- The digit loop of `strconv.ParseUint(s, 10, 64)`, `n` being the value so far. -/
def parseUintLoop : ByteStr → Nat → Except NumErrKind Nat
  | [], n => .ok n
  | c :: cs, n =>
    if 48 ≤ c ∧ c ≤ 57 then
      if n ≥ 1844674407370955162 then .error .ErrRange_
      else
        let n1 := n * 10 + (c - 48)
        if n1 > 18446744073709551615 then .error .ErrRange_
        else parseUintLoop cs n1
    else .error .ErrSyntax_

/-- The function `strconv.ParseUint(s, 10, 64)`. -/
def ParseUint (s : ByteStr) : Except NumErrKind Nat :=
  match s with
  | [] => .error .ErrSyntax_
  | _ :: _ => parseUintLoop s 0

/-- The function `strconv.ParseInt(s, 10, 64)`, `func` being the function name a `NumError` records. -/
def ParseInt (func : String) (s : ByteStr) : Int × Option GoError :=
  match s with
  | [] => (0, some (.NumError func s .ErrSyntax_))
  | c :: cs =>
    let neg := decide (c = 45)
    let body := if c = 43 ∨ c = 45 then cs else s
    match ParseUint body with
    | .error .ErrSyntax_ => (0, some (.NumError func s .ErrSyntax_))
    | .error .ErrRange_ =>
      if neg then (minInt64, some (.NumError func s .ErrRange_))
      else (maxInt64, some (.NumError func s .ErrRange_))
    | .ok un =>
      if !neg && decide (un ≥ 9223372036854775808) then
        (maxInt64, some (.NumError func s .ErrRange_))
      else if neg && decide (un > 9223372036854775808) then
        (minInt64, some (.NumError func s .ErrRange_))
      else
        let n := wrapInt64 un
        (if neg then wrapInt64 (-n) else n, none)

/-- The function `strconv.Atoi(s)` where `int` is 64 bits wide. -/
def Atoi (s : ByteStr) : Int × Option GoError := ParseInt "Atoi" s

/-- The decimal digits of `n`, most significant first, put before `acc`. -/
def formatUintAux : Nat → Nat → ByteStr → ByteStr
  | 0, _, acc => acc
  | fuel + 1, n, acc =>
    if n < 10 then (48 + n) :: acc
    else formatUintAux fuel (n / 10) ((48 + n % 10) :: acc)

/-- The decimal text of a natural number. -/
def formatUint (n : Nat) : ByteStr := formatUintAux (n + 1) n []

/-- The function `strconv.FormatInt(n, 10)`. -/
def FormatInt (n : Int) : ByteStr :=
  if n < 0 then 45 :: formatUint n.natAbs else formatUint n.natAbs

/-- The function `strconv.AppendInt(buf, n, 10)`. -/
def AppendInt (buf : ByteStr) (n : Int) : ByteStr := buf ++ FormatInt n

/-! ## The reader -/

/-- The function `bufio.Reader.ReadBytes(10)` on the unread input: the bytes up to and including the
first line feed, no error, and what stays unread; at the end of the input before a line
feed, the bytes read and `io.EOF`. -/
def ReadBytes : ByteStr → ByteStr × Option GoError × ByteStr
  | [] => ([], some .EOF, [])
  | b :: bs =>
    if b = 10 then ([b], none, bs)
    else
      let r := ReadBytes bs
      (b :: r.1, r.2.1, r.2.2)

/-- The function `io.ReadFull(r, buf)` with `len(buf) = n`: the bytes read, the error and what stays
unread. -/
def ReadFull (inp : ByteStr) (n : Nat) : ByteStr × Option GoError × ByteStr :=
  if n ≤ inp.length then (inp.take n, none, inp.drop n)
  else if inp.isEmpty then ([], some .EOF, [])
  else (inp, some .ErrUnexpectedEOF, [])

/-! ## `message.go` -/

/-- The `MessageError` constant, the byte of a minus sign. -/
def MessageError : Nat := 45

/-- The `MessageStatus` constant, the byte of a plus sign. -/
def MessageStatus : Nat := 43

/-- The `MessageInt` constant, the byte of a colon. -/
def MessageInt : Nat := 58

/-- The `MessageBulk` constant, the byte of a dollar sign. -/
def MessageBulk : Nat := 36

/-- The `MessageMulti` constant, the byte of an asterisk. -/
def MessageMulti : Nat := 42

/-- The `Message` struct. `Typ` is its field `Type`. -/
structure Message where
  Typ : Nat
  Error : Option GoError
  Status : ByteStr
  Integer : Int
  Bulk : Option (ByteStr)
  Multi : Option (List (Option Message))

/-- The zero value of `Message`. -/
def Message.zero : Message :=
  { Typ := 0, Error := none, Status := [], Integer := 0, Bulk := none, Multi := none }

/-! ## `decode.go` -/

/-- What a call does: it returns its results, leaving `rest` unread, or it panics. -/
inductive Outcome (α : Type)
  | returns (val : α) (err : Option GoError) (rest : ByteStr)
  | panics

/-- The loop of `DecodeBufio` that fills `ret`: `k` elements are still to decode with
`dec`, and `ret` holds those decoded so far. An error of `dec` ends the loop. -/
def decodeLoop (dec : ByteStr → Option (Outcome (Option Message))) :
    Nat → ByteStr → List (Option Message) → Option (Outcome (List (Option Message)))
  | 0, inp, ret => some (.returns ret none inp)
  | k + 1, inp, ret =>
    match dec inp with
    | none => none
    | some .panics => some .panics
    | some (.returns _ (some err) rest) => some (.returns [] (some err) rest)
    | some (.returns m none rest) => decodeLoop dec k rest (ret ++ [m])

/-- The `switch` of `DecodeBufio` on `c = line[0]`, with `tail = line[1:]`, `rest` the
input still unread and `dec` the recursive call. -/
def decodeSwitch (dec : ByteStr → Option (Outcome (Option Message)))
    (c : Nat) (tail rest : ByteStr) : Option (Outcome (Option Message)) :=
  if c = MessageError then
    some (.returns (some { Message.zero with Typ := MessageError,
                                             Error := some (.New tail) }) none rest)
  else if c = MessageStatus then
    some (.returns (some { Message.zero with Typ := MessageStatus,
                                             Status := tail }) none rest)
  else if c = MessageInt then
    match ParseInt "ParseInt" tail with
    | (_, some err) => some (.returns none (some err) rest)
    | (n, none) =>
      some (.returns (some { Message.zero with Typ := MessageInt, Integer := n }) none rest)
  else if c = MessageBulk then
    match Atoi tail with
    | (_, some err) => some (.returns none (some err) rest)
    | (l, none) =>
      if l < 0 then
        some (.returns (some { Message.zero with Bulk := none,
                                                 Typ := MessageBulk }) none rest)
      else if l + 2 > maxInt64 then some .panics
      else
        match ReadFull rest (l.toNat + 2) with
        | (_, some err, rest1) => some (.returns none (some err) rest1)
        | (buf, none, rest1) =>
          some (.returns (some { Message.zero with Bulk := some (buf.take l.toNat),
                                                   Typ := MessageBulk }) none rest1)
  else if c = MessageMulti then
    match Atoi tail with
    | (_, some e) => some (.returns none (some e) rest)
    | (l, none) =>
      if l < 0 then
        some (.returns (some { Message.zero with Typ := MessageMulti }) none rest)
      else
        match decodeLoop dec l.toNat rest [] with
        | none => none
        | some .panics => some .panics
        | some (.returns _ (some err) rest1) => some (.returns none (some err) rest1)
        | some (.returns ret none rest1) =>
          some (.returns (some { Message.zero with Typ := MessageMulti,
                                                   Multi := some ret }) none rest1)
  else some (.returns none (some (.New (str "Received illegal data from redis."))) rest)

/-- The function `DecodeBufio` with a bound on the depth of its recursion; `none` when the bound is
reached. Indexing an empty `line` would panic. -/
def decodeFuel : Nat → ByteStr → Option (Outcome (Option Message))
  | 0, _ => none
  | fuel + 1, inp =>
    match ReadBytes inp with
    | (_, some e, rest) => some (.returns none (some e) rest)
    | (line, none, rest) =>
      if line.length ≤ 2 then some (.returns none none rest)
      else
        match line.take (line.length - 2) with
        | [] => some .panics
        | c :: tail => decodeSwitch (fun r => decodeFuel fuel r) c tail rest

/-- The function `DecodeBufio(r)`: `r` holds `inp` unread. The recursion is never deeper than the
input is long. -/
def DecodeBufio (inp : ByteStr) : Option (Outcome (Option Message)) :=
  decodeFuel (inp.length + 1) inp

/-! ## `message.go`: the accessors -/

/-- The function `strconv.ParseBool(s)`. -/
def ParseBool (s : ByteStr) : Bool × Option GoError :=
  if s = str "1" ∨ s = str "t" ∨ s = str "T" ∨ s = str "true" ∨ s = str "TRUE"
      ∨ s = str "True" then (true, none)
  else if s = str "0" ∨ s = str "f" ∨ s = str "F" ∨ s = str "false" ∨ s = str "FALSE"
      ∨ s = str "False" then (false, none)
  else (false, some (.NumError "ParseBool" s .ErrSyntax_))

/-- The function `Message.Bytes()`. -/
def Message.Bytes (m : Message) : Option (ByteStr) × Option GoError :=
  if m.Typ = MessageError then (none, m.Error)
  else if m.Typ = MessageStatus then (some m.Status, none)
  else if m.Typ = MessageInt then
    (none, some (.New (str "Integer Message can not convert to []byte.")))
  else if m.Typ = MessageBulk then (m.Bulk, none)
  else if m.Typ = MessageMulti then
    (none, some (.New (str "Multi Message can not convert to []byte.")))
  else (none, some (.New (str "Invalid Message type.")))

/-- The function `Message.String()`. The text of a `nil` byte slice is the empty string. -/
def Message.String (m : Message) : ByteStr × Option GoError :=
  if m.Typ = MessageError then ([], m.Error)
  else if m.Typ = MessageStatus then (m.Status, none)
  else if m.Typ = MessageInt then
    ([], some (.New (str "Integer Message can not convert to string.")))
  else if m.Typ = MessageBulk then (m.Bulk.getD [], none)
  else if m.Typ = MessageMulti then
    ([], some (.New (str "Multi Message can not convert to string.")))
  else ([], some (.New (str "Invalid Message type.")))

/-- The function `Message.Int64()`. -/
def Message.Int64 (m : Message) : Int × Option GoError :=
  if m.Typ = MessageError then (0, none)
  else if m.Typ = MessageStatus then
    if m.Status = str "OK" then (1, none) else (0, none)
  else if m.Typ = MessageInt then (m.Integer, none)
  else if m.Typ = MessageBulk then ParseInt "ParseInt" (m.Bulk.getD [])
  else if m.Typ = MessageMulti then
    (0, some (.New (str "Multi Message can not convert to integer.")))
  else (0, some (.New (str "Invalid Message type.")))

/-- The function `Message.Int()`; `int` is 64 bits wide, so `int(i64)` is `i64`. -/
def Message.Int (m : Message) : Int × Option GoError :=
  match m.Int64 with
  | (_, some err) => (0, some err)
  | (i64, none) => (i64, none)

/-- The function `Message.Bool()`. -/
def Message.Bool (m : Message) : Bool × Option GoError :=
  if m.Typ = MessageError then (false, none)
  else if m.Typ = MessageStatus then
    if m.Status = str "OK" ∨ m.Status = str "PONG" then (true, none) else (false, none)
  else if m.Typ = MessageInt then (decide (m.Integer ≠ 0), none)
  else if m.Typ = MessageBulk then ParseBool (m.Bulk.getD [])
  else if m.Typ = MessageMulti then
    (false, some (.New (str "Multi Message can not convert to bool.")))
  else (false, some (.New (str "Invalid Message type.")))

/-! ## `encode.go` -/

/-- The kind of a value: that of the type under its dynamic type, whatever the name of
the dynamic type is. The type `uintptr` is an unsigned integer, and a defined type such
as `type Counter int` is a signed integer. -/
inductive Kind
  | absent
  | boolean
  | byteSequence
  | text
  | signedInteger
  | unsignedInteger
  | float
  | unlisted
  deriving DecidableEq, Repr

/-- The values `Encode` tells apart by their dynamic type. An integer carries its value,
a float the bits of its IEEE 754 form. A value of any other dynamic type, one the type
switch of `Encode` has no case for, carries the text `reflect.TypeOf` prints for it and
its kind. -/
inductive Arg
  | nil
  | bool (v : Bool)
  | bytes (v : ByteStr)
  | string (v : ByteStr)
  | int (v : Int)
  | int8 (v : Int)
  | int16 (v : Int)
  | int32 (v : Int)
  | int64 (v : Int)
  | uint (v : Int)
  | uint8 (v : Int)
  | uint16 (v : Int)
  | uint32 (v : Int)
  | uint64 (v : Int)
  | float32 (bits : Nat)
  | float64 (bits : Nat)
  | other (typeName : ByteStr) (kind : Kind)
  deriving DecidableEq, Repr

/-- The floating-point operations of Go that `Encode` relies on, left abstract. -/
structure FloatOps where
  /-- The conversion `float64(v)` of a `float32`. -/
  toFloat64 : Nat → Nat
  /-- The text of `strconv.FormatFloat(f, 102, -1, 64)`; 102 is the byte of the format
  letter f. -/
  FormatFloat : Nat → ByteStr

/-- The loop of `intLen`: `number` is divided by ten while it exceeds nine. -/
def intLenLoop : Nat → Int → Int → Int
  | 0, _, count => count
  | fuel + 1, number, count =>
    if number > 9 then intLenLoop fuel (number / 10) (count + 1) else count

/-- The function `intLen(number)`. The negation wraps as `int64` negation does; the loop runs at most
`number` times. -/
def intLen (number : Int) : Int :=
  if number < 0 then
    let number := wrapInt64 (-number)
    intLenLoop number.toNat number 2
  else intLenLoop number.toNat number 1

/-- The function `addTail(buf)`. -/
def addTail (buf : ByteStr) : ByteStr := buf ++ [13, 10]

/-- The function `addInt64(buf, n)`. -/
def addInt64 (buf : ByteStr) (n : Int) : ByteStr :=
  let buf := buf ++ [36]
  let buf := AppendInt buf (intLen n)
  let buf := addTail buf
  let buf := AppendInt buf n
  addTail buf

/-- The function `addBytes(buf, b)`. -/
def addBytes (buf : ByteStr) (b : ByteStr) : ByteStr :=
  let buf := buf ++ [36]
  let buf := AppendInt buf b.length
  let buf := addTail buf
  let buf := buf ++ b
  addTail buf

/-- The function `addFloat(buf, f)`. -/
def addFloat (fl : FloatOps) (buf : ByteStr) (f : Nat) : ByteStr :=
  addBytes buf (fl.FormatFloat f)

/-- The loop of `Encode` over the arguments left, `buf` being the buffer so far. -/
def encodeLoop (fl : FloatOps) : List Arg → ByteStr → Option (ByteStr) × Option GoError
  | [], buf => (some buf, none)
  | arg :: args, buf =>
    match arg with
    | .nil => encodeLoop fl args (addBytes buf [])
    | .bool v =>
      if v then encodeLoop fl args (addBytes buf [49])
      else encodeLoop fl args (addBytes buf [48])
    | .bytes v => encodeLoop fl args (addBytes buf v)
    | .string v => encodeLoop fl args (addBytes buf v)
    | .int v => encodeLoop fl args (addInt64 buf (wrapInt64 v))
    | .int8 v => encodeLoop fl args (addInt64 buf (wrapInt64 v))
    | .int16 v => encodeLoop fl args (addInt64 buf (wrapInt64 v))
    | .int32 v => encodeLoop fl args (addInt64 buf (wrapInt64 v))
    | .int64 v => encodeLoop fl args (addInt64 buf v)
    | .uint v => encodeLoop fl args (addInt64 buf (wrapInt64 v))
    | .uint8 v => encodeLoop fl args (addInt64 buf (wrapInt64 v))
    | .uint16 v => encodeLoop fl args (addInt64 buf (wrapInt64 v))
    | .uint32 v => encodeLoop fl args (addInt64 buf (wrapInt64 v))
    | .uint64 v => encodeLoop fl args (addInt64 buf (wrapInt64 v))
    | .float32 v => encodeLoop fl args (addFloat fl buf (fl.toFloat64 v))
    | .float64 v => encodeLoop fl args (addFloat fl buf v)
    | .other typeName _ =>
      (none, some (.New (str "Invalid argument type : \x7b" ++ typeName
        ++ str "\x7d, when pack command.")))

/-- The function `Encode(args...)`: the buffer, `none` being `nil`, and the error. -/
def Encode (fl : FloatOps) (args : List Arg) : Option (ByteStr) × Option GoError :=
  let argsNum := args.length
  let buf : ByteStr := []
  let buf := buf ++ [42]
  let buf := AppendInt buf argsNum
  let buf := addTail buf
  encodeLoop fl args buf

/-! ## The wire format of section 6 of the specification -/

/-- A frame of the specification's data model: one of five variants, the payload of a
Bulk and the sequence of a Multi being absent or present. -/
inductive Frame
  | Error (text : ByteStr)
  | Status (text : ByteStr)
  | Integer (n : Int)
  | Bulk (payload : Option (ByteStr))
  | Multi (elems : Option (List Frame))

mutual
/-- The wire form of a frame, after the table of section 6 of the specification. -/
def Frame.wire : Frame → ByteStr
  | .Error text => str "-" ++ text ++ str "\r\n"
  | .Status text => str "+" ++ text ++ str "\r\n"
  | .Integer n => str ":" ++ FormatInt n ++ str "\r\n"
  | .Bulk none => str "$-1\r\n"
  | .Bulk (some payload) =>
    str "$" ++ FormatInt payload.length ++ str "\r\n" ++ payload ++ str "\r\n"
  | .Multi none => str "*-1\r\n"
  | .Multi (some elems) => str "*" ++ FormatInt elems.length ++ str "\r\n" ++ Frame.wireAll elems
/-- The wire forms of the frames of a sequence, one after the other. -/
def Frame.wireAll : List Frame → ByteStr
  | [] => []
  | f :: fs => f.wire ++ Frame.wireAll fs
end

mutual
/-- The `Message` that holds a frame: its `Type` and the field of its variant, every
other field zero. -/
def Frame.toMessage : Frame → Message
  | .Error text => { Message.zero with Typ := MessageError, Error := some (.New text) }
  | .Status text => { Message.zero with Typ := MessageStatus, Status := text }
  | .Integer n => { Message.zero with Typ := MessageInt, Integer := n }
  | .Bulk payload => { Message.zero with Typ := MessageBulk, Bulk := payload }
  | .Multi none => { Message.zero with Typ := MessageMulti }
  | .Multi (some elems) =>
    { Message.zero with Typ := MessageMulti, Multi := some (Frame.toMessages elems) }
/-- The messages, all present, that hold the frames of a sequence. -/
def Frame.toMessages : List Frame → List (Option Message)
  | [] => []
  | f :: fs => some f.toMessage :: Frame.toMessages fs
end

mutual
/-- A frame a Go program can hold and whose Status and Error texts fit on a line: no text
has a line feed, every Integer is an `int64`, and the length of every present payload,
with the two bytes of its terminator, and of every present sequence is an `int`. -/
def Frame.Representable : Frame → Prop
  | .Error text => 10 ∉ text
  | .Status text => 10 ∉ text
  | .Integer n => minInt64 ≤ n ∧ n ≤ maxInt64
  | .Bulk none => True
  | .Bulk (some payload) => (payload.length : Int) + 2 ≤ maxInt64
  | .Multi none => True
  | .Multi (some elems) => (elems.length : Int) ≤ maxInt64 ∧ Frame.AllRepresentable elems
/-- Every frame of a sequence is representable. -/
def Frame.AllRepresentable : List Frame → Prop
  | [] => True
  | f :: fs => f.Representable ∧ Frame.AllRepresentable fs
end

mutual
/-- How deep the sequences of a frame are nested. -/
def Frame.depth : Frame → Nat
  | .Error _ => 0
  | .Status _ => 0
  | .Integer _ => 0
  | .Bulk _ => 0
  | .Multi none => 0
  | .Multi (some elems) => Frame.depthAll elems + 1
/-- The largest depth among the frames of a sequence. -/
def Frame.depthAll : List Frame → Nat
  | [] => 0
  | f :: fs => max f.depth (Frame.depthAll fs)
end

/-! ## The command format of sections 4.2 and 6 of the specification -/

/-- An argument that is absent, a boolean, a byte sequence or a text. -/
def Arg.isBasic : Arg → Prop
  | .nil => True
  | .bool _ => True
  | .bytes _ => True
  | .string _ => True
  | _ => False

/-- An argument that is a byte sequence or a text. -/
def Arg.isBytesOrText : Arg → Prop
  | .bytes _ => True
  | .string _ => True
  | _ => False

/-- An argument whose dynamic type the type switch of `Encode` has a case for: `nil`,
`bool`, `[]byte`, `string`, the five signed and the five unsigned integer types of a
width, `float32` and `float64`. -/
def Arg.isSupported : Arg → Prop
  | .nil => True
  | .bool _ => True
  | .bytes _ => True
  | .string _ => True
  | .int _ => True
  | .int8 _ => True
  | .int16 _ => True
  | .int32 _ => True
  | .int64 _ => True
  | .uint _ => True
  | .uint8 _ => True
  | .uint16 _ => True
  | .uint32 _ => True
  | .uint64 _ => True
  | .float32 _ => True
  | .float64 _ => True
  | .other _ _ => False

/-- The kind of an argument. -/
def Arg.kind : Arg → Kind
  | .nil => .absent
  | .bool _ => .boolean
  | .bytes _ => .byteSequence
  | .string _ => .text
  | .int _ => .signedInteger
  | .int8 _ => .signedInteger
  | .int16 _ => .signedInteger
  | .int32 _ => .signedInteger
  | .int64 _ => .signedInteger
  | .uint _ => .unsignedInteger
  | .uint8 _ => .unsignedInteger
  | .uint16 _ => .unsignedInteger
  | .uint32 _ => .unsignedInteger
  | .uint64 _ => .unsignedInteger
  | .float32 _ => .float
  | .float64 _ => .float
  | .other _ kind => kind

/-- A kind the specification lists as supported: absent, boolean, byte sequence, text, a
signed or unsigned integer of any width, a float of any width. -/
def Kind.isSupported : Kind → Prop
  | .unlisted => False
  | _ => True

/-- The payload the specification gives an absent, boolean, byte-sequence or text
argument: none, the digit one or zero, the bytes themselves. -/
def Arg.payload : Arg → ByteStr
  | .bool true => str "1"
  | .bool false => str "0"
  | .bytes v => v
  | .string v => v
  | _ => []

/-- A bulk string on the wire: a dollar sign, the decimal byte count, CR LF, the bytes,
CR LF. -/
def bulkWire (payload : ByteStr) : ByteStr :=
  str "$" ++ FormatInt payload.length ++ str "\r\n" ++ payload ++ str "\r\n"

/-- The bulk strings of a list of payloads, one after the other. -/
def bulksWire : List ByteStr → ByteStr
  | [] => []
  | p :: ps => bulkWire p ++ bulksWire ps

/-- A command on the wire: an asterisk, the decimal argument count, CR LF, then one bulk
string for each payload. -/
def commandWire (payloads : List ByteStr) : ByteStr :=
  str "*" ++ FormatInt payloads.length ++ str "\r\n" ++ bulksWire payloads

/-- A byte that is a decimal digit. -/
def isDigit (b : Nat) : Prop := 48 ≤ b ∧ b ≤ 57

instance (b : Nat) : Decidable (isDigit b) := by unfold isDigit; infer_instance


/-! ## `message.go`: the accessors of a sequence and `ToBytes` -/

/-- What a call that reads nothing does: it returns its results, or it panics. -/
inductive Call (α : Type)
  | returns (val : α)
  | panics

/-- A Go `map[string]string`, as the list of its entries, the last one set first; no
key stands twice in it. -/
abbrev StringDict := List (ByteStr × ByteStr)

/-- The assignment `result[key] = value` on a map. -/
def mapSet (result : StringDict) (key value : ByteStr) : StringDict :=
  (key, value) :: result.filter fun kv => !(kv.1 == key)

/-- The loop of `StringMap`: `k` rounds are left, `i` is the loop variable. Indexing
past the end panics, and so does the call of `String` on a `nil` element, which reads
its `Type`. -/
def stringMapLoop (multi : List (Option Message)) :
    Nat → Nat → StringDict → Call (Option StringDict × Option GoError)
  | 0, _, result => .returns (some result, none)
  | k + 1, i, result =>
    match multi[i * 2]? with
    | none => .panics
    | some none => .panics
    | some (some km) =>
      match km.String with
      | (_, some err) => .returns (none, some err)
      | (key, none) =>
        match multi[i * 2 + 1]? with
        | none => .panics
        | some none => .panics
        | some (some vm) =>
          match vm.String with
          | (_, some err) => .returns (none, some err)
          | (value, none) => stringMapLoop multi k (i + 1) (mapSet result key value)

/-- The function `Message.StringMap()`: the map, `none` being `nil`, and the error. -/
def Message.StringMap (m : Message) : Call (Option StringDict × Option GoError) :=
  if m.Typ ≠ MessageMulti then
    .returns (none, some (.New (str "Only mutli reponse can convert to [string]string.")))
  else
    match m.Multi with
    | none => .returns (some [], none)
    | some multi =>
      if multi.length ≤ 0 then .returns (some [], none)
      else stringMapLoop multi (multi.length / 2) 0 []

/-- The elements of a sequence that holds the given pairs of a key and a value, all of
them present. -/
def flattenPairs : List (Message × Message) → List (Option Message)
  | [] => []
  | (k, v) :: kvs => some k :: some v :: flattenPairs kvs

/-- The map after the assignments `result[key] = value` for the texts of the given pairs,
in their order, on the map `result`. -/
def pairMap : List (Message × Message) → StringDict → StringDict
  | [], result => result
  | (k, v) :: kvs, result => pairMap kvs (mapSet result k.String.1 v.String.1)

/-- The loop of `Strings` over the elements left; `result` is `none` while it is the
`nil` slice it starts as. The call of `String` on a `nil` element panics. -/
def stringsLoop : List (Option Message) → Option (List ByteStr) →
    Call (Option (List ByteStr) × Option GoError)
  | [], result => .returns (result, none)
  | v :: vs, result =>
    match v with
    | none => .panics
    | some v =>
      match v.String with
      | (_, some err) => .returns (none, some err)
      | (vv, none) => stringsLoop vs (some (result.getD [] ++ [vv]))

/-- The function `Message.Strings()`: the slice, `none` being `nil`, and the error. -/
def Message.Strings (m : Message) : Call (Option (List ByteStr) × Option GoError) :=
  if m.Typ ≠ MessageMulti then
    .returns (none, some (.New (str "Only mutli reponse can convert to []string.")))
  else
    match m.Multi with
    | none => .returns (none, none)
    | some multi => stringsLoop multi none

/-- The functions `ToBytes` calls that are not among the source files, each with the
first of its two results, and the text of the `Error()` method of an error. They are
left abstract. -/
structure Encoders where
  EncodeStatus : ByteStr → Option ByteStr
  EncodeError : ByteStr → Option ByteStr
  EncodeInt : Int → Option ByteStr
  EncodeBytes : Option ByteStr → Option ByteStr
  ErrorText : GoError → ByteStr

/-- The loop of the Multi case of `ToBytes` over the elements left: `ret` is the
variable the case declares, and `toBytes` the recursive call on a present element. The
call on a `nil` element panics; the bytes of a `nil` result are none. -/
def toBytesLoop (toBytes : Message → Option (Call (Option ByteStr))) :
    List (Option Message) → ByteStr → Option (Call ByteStr)
  | [], ret => some (.returns ret)
  | m :: ms, ret =>
    match m with
    | none => some .panics
    | some m =>
      match toBytes m with
      | none => none
      | some .panics => some .panics
      | some (.returns b) => toBytesLoop toBytes ms (ret ++ b.getD [])

/-- The function `Message.ToBytes()` with a bound on the depth of its recursion; `none`
when the bound is reached. In the Multi case `ret := ...` declares a new variable, which
the loop assigns to; the function returns the `ret` it declared first, still `nil`. The
call of `Error()` on a `nil` error panics. -/
def toBytesFuel (enc : Encoders) : Nat → Message → Option (Call (Option ByteStr))
  | 0, _ => none
  | fuel + 1, m =>
    let ret : Option ByteStr := none
    if m.Typ = MessageStatus then some (.returns (enc.EncodeStatus m.Status))
    else if m.Typ = MessageError then
      match m.Error with
      | none => some .panics
      | some e => some (.returns (enc.EncodeError (enc.ErrorText e)))
    else if m.Typ = MessageInt then some (.returns (enc.EncodeInt m.Integer))
    else if m.Typ = MessageBulk then some (.returns (enc.EncodeBytes m.Bulk))
    else if m.Typ = MessageMulti then
      match toBytesLoop (fun x => toBytesFuel enc fuel x) (m.Multi.getD [])
          (str "*" ++ FormatInt ((m.Multi.getD []).length : Int) ++ str "\r\n") with
      | none => none
      | some .panics => some .panics
      | some (.returns _) => some (.returns ret)
    else some (.returns ret)

mutual
/-- How deep the sequences of a message are nested. -/
def Message.depth : Message → Nat
  | ⟨_, _, _, _, _, multi⟩ => Message.depthOpt multi
/-- The depth of a sequence that may be `nil`. -/
def Message.depthOpt : Option (List (Option Message)) → Nat
  | none => 0
  | some ms => Message.depthAll ms + 1
/-- The largest depth among the elements of a sequence. -/
def Message.depthAll : List (Option Message) → Nat
  | [] => 0
  | m :: ms => max (Message.depthElem m) (Message.depthAll ms)
/-- The depth of an element that may be `nil`. -/
def Message.depthElem : Option Message → Nat
  | none => 0
  | some m => Message.depth m
end

/-- The function `Message.ToBytes()`; the recursion is never deeper than the message is
nested. -/
def Message.ToBytes (enc : Encoders) (m : Message) : Option (Call (Option ByteStr)) :=
  toBytesFuel enc (m.depth + 1) m

/-! ## `resp.go`: the reader of replies

The functions of this section read from a reader that has the bytes `inp` to deliver and
`io.EOF` after them, as `DecodeBufio` does. The methods of a connection, further down,
read through the buffer of its reader from its stream, which may be closed. -/

/-- A reply, the value of type `interface{}` that `readReply` returns: `nil`, a string,
an error, an `int`, an `int64`, a byte slice or a slice of replies. -/
inductive Reply
  | nil
  | string (s : ByteStr)
  | error (e : GoError)
  | int (v : Int)
  | int64 (v : Int)
  | bytes (p : ByteStr)
  | array (r : List Reply)

/-- The size of the buffer of a `bufio.Reader` and of a `bufio.Writer` made by
`bufio.NewReader` and `bufio.NewWriter`. -/
def bufSize : Nat := 4096

/-- The function `bufio.Reader.ReadSlice(10)` on the unread input: a line that fits the
buffer, with no error; the full buffer with `bufio.ErrBufferFull` when its first
`bufSize` bytes have no line feed; what is left with `io.EOF` when the input ends before
that. -/
def ReadSlice (inp : ByteStr) : ByteStr × Option GoError × ByteStr :=
  match ReadBytes inp with
  | (line, none, rest) =>
    if line.length ≤ bufSize then (line, none, rest)
    else (inp.take bufSize, some .ErrBufferFull, inp.drop bufSize)
  | (_, some _, _) =>
    if inp.length ≥ bufSize then (inp.take bufSize, some .ErrBufferFull, inp.drop bufSize)
    else (inp, some .EOF, [])

/-- The function `readLine()` on the unread input: the line without its CR LF, the error
and what stays unread. -/
def readLine (inp : ByteStr) : ByteStr × Option GoError × ByteStr :=
  match ReadSlice inp with
  | (_, some .ErrBufferFull, rest) => ([], some (.protocolError "long response line"), rest)
  | (_, some err, rest) => ([], some err, rest)
  | (p, none, rest) =>
    if p.length < 2 ∨ p[p.length - 2]? ≠ some 13 then
      ([], some (.protocolError "bad response line terminator"), rest)
    else (p.take (p.length - 2), none, rest)

/-- The loop over the bytes of `p` that `parseLen` and `parseInt` both have: `n` is
multiplied by ten, then the digit is added, in 64-bit wrapping arithmetic; `none` at a
byte that is no digit. -/
def digitsLoop : ByteStr → Int → Option Int
  | [], n => some n
  | b :: bs, n =>
    let n := wrapInt64 (n * 10)
    if b < 48 ∨ b > 57 then none
    else digitsLoop bs (wrapInt64 (n + ((b - 48 : Nat) : Int)))

/-- The function `parseLen(p)`. -/
def parseLen (p : ByteStr) : Int × Option GoError :=
  if p.length = 0 then (-1, some (.protocolError "malformed length"))
  else if p = [45, 49] then (-1, none)
  else
    match digitsLoop p 0 with
    | none => (-1, some (.protocolError "illegal bytes in length"))
    | some n => (n, none)

/-- The function `parseInt(p)`; the value it returns with an error is the `int` zero. -/
def parseInt (p : ByteStr) : Reply × Option GoError :=
  match p with
  | [] => (.int 0, some (.protocolError "malformed integer"))
  | c :: cs =>
    let negate := decide (c = 45)
    let p := if negate then cs else c :: cs
    if p.length = 0 then (.int 0, some (.protocolError "malformed integer"))
    else
      match digitsLoop p 0 with
      | none => (.int 0, some (.protocolError "illegal bytes in length"))
      | some n => (.int64 (if negate then wrapInt64 (-n) else n), none)

/-- The loop of `readReply` that fills `r`: `k` replies are still to read with `rd`. -/
def readReplyLoop (rd : ByteStr → Option (Reply × Option GoError × ByteStr)) :
    Nat → ByteStr → List Reply → Option (List Reply × Option GoError × ByteStr)
  | 0, inp, r => some (r, none, inp)
  | k + 1, inp, r =>
    match rd inp with
    | none => none
    | some (_, some err, rest) => some ([], some err, rest)
    | some (v, none, rest) => readReplyLoop rd k rest (r ++ [v])

/-- The part of `readReply` after the first `readLine`: `line` is the line read, `rest`
the input still unread and `rd` the recursive call. -/
def readReplySwitch (rd : ByteStr → Option (Reply × Option GoError × ByteStr))
    (line rest : ByteStr) : Option (Reply × Option GoError × ByteStr) :=
  match line with
  | [] => some (.nil, some (.protocolError "short response line"), rest)
  | c :: tail =>
    if c = 43 then
      if tail = str "OK" then some (.string (str "OK"), none, rest)
      else if tail = str "PONG" then some (.string (str "PONG"), none, rest)
      else some (.string tail, none, rest)
    else if c = 45 then some (.error (.New tail), none, rest)
    else if c = 58 then some ((parseInt tail).1, (parseInt tail).2, rest)
    else if c = 36 then
      match parseLen tail with
      | (n, err) =>
        if n < 0 ∨ err ≠ none then some (.nil, err, rest)
        else
          match ReadFull rest n.toNat with
          | (_, some err, rest1) => some (.nil, some err, rest1)
          | (p, none, rest1) =>
            match readLine rest1 with
            | (_, some err, rest2) => some (.nil, some err, rest2)
            | (line, none, rest2) =>
              if line.length ≠ 0 then
                some (.nil, some (.protocolError "bad bulk string format"), rest2)
              else some (.bytes p, none, rest2)
    else if c = 42 then
      match parseLen tail with
      | (n, err) =>
        if n < 0 ∨ err ≠ none then some (.nil, err, rest)
        else
          match readReplyLoop rd n.toNat rest [] with
          | none => none
          | some (_, some err, rest1) => some (.nil, some err, rest1)
          | some (r, none, rest1) => some (.array r, none, rest1)
    else some (.nil, some (.protocolError "unexpected response line"), rest)

/-- The function `readReply()` on the unread input, with a bound on the depth of its
recursion; `none` when the bound is reached. -/
def readReplyFuel : Nat → ByteStr → Option (Reply × Option GoError × ByteStr)
  | 0, _ => none
  | fuel + 1, inp =>
    match readLine inp with
    | (_, some err, rest) => some (.nil, some err, rest)
    | (line, none, rest) => readReplySwitch (fun r => readReplyFuel fuel r) line rest

/-- The function `readReply()` on the unread input: the reply, the error and what stays
unread. The recursion is never deeper than the input is long. -/
def readReply (inp : ByteStr) : Option (Reply × Option GoError × ByteStr) :=
  readReplyFuel (inp.length + 1) inp

mutual
/-- The reply that corresponds to a frame: the text of a Status, an error value with the
message of an Error, the number of an Integer, the bytes of a Bulk, the replies of the
elements of a Multi, and `nil` for an absent Bulk or Multi. -/
def Frame.toReply : Frame → Reply
  | .Error text => .error (.New text)
  | .Status text => .string text
  | .Integer n => .int64 n
  | .Bulk none => .nil
  | .Bulk (some payload) => .bytes payload
  | .Multi none => .nil
  | .Multi (some elems) => .array (Frame.toReplies elems)
/-- The replies that correspond to the frames of a sequence. -/
def Frame.toReplies : List Frame → List Reply
  | [] => []
  | f :: fs => f.toReply :: Frame.toReplies fs
end

mutual
/-- Every Status and Error line of the frame, CR LF included, fits the buffer of the
connection's reader. -/
def Frame.ShortLines : Frame → Prop
  | .Error text => text.length + 3 ≤ bufSize
  | .Status text => text.length + 3 ≤ bufSize
  | .Integer _ => True
  | .Bulk _ => True
  | .Multi none => True
  | .Multi (some elems) => Frame.AllShortLines elems
/-- Every frame of a sequence has short lines. -/
def Frame.AllShortLines : List Frame → Prop
  | [] => True
  | f :: fs => f.ShortLines ∧ Frame.AllShortLines fs
end

/-! ## `resp.go`: the connection

The stream under a connection is a `net.Conn`. Its state holds the bytes that have come
in and that its reads can still deliver (`io.EOF` follows them), a schedule that says
how many of them a read delivers at most, the bytes written to it, the error its writes
fail with when there is one, what its `Close` returns, and how often `Close` was invoked
on it. A write either writes all its bytes or none. Once the stream is closed, its reads
and writes fail with `net.ErrClosed`; what the reader of the connection has in its
buffer by then can still be read. A read gives no bytes together with an error, so the
reader never keeps an error for a later call. Deadlines have no effect: no read or write
times out. The mutex is left out: calls do not overlap. -/

/-- The state of the `net.Conn` under a connection. -/
structure Stream where
  input : ByteStr
  reads : List Nat
  sent : ByteStr
  writeErr : Option GoError
  closeErr : Option GoError
  closes : Nat

/-- The method `Read(p)` of the stream for a slice of `space` bytes: the bytes read, the
error and the stream afterwards. A closed stream fails with `net.ErrClosed`, a stream
with no byte left with `io.EOF`. Otherwise the read delivers the first bytes of the
input: as many as fit the slice and, while the schedule `reads` lasts, at most as many as
its next number says, but one at least. -/
def Stream.Read (s : Stream) (space : Nat) : ByteStr × Option GoError × Stream :=
  if s.closes > 0 then ([], some .ErrClosed, s)
  else if s.input.length = 0 then ([], some .EOF, s)
  else
    match s.reads with
    | [] => (s.input.take space, none, { s with input := s.input.drop space })
    | n :: ns =>
      (s.input.take (min space (max n 1)), none,
        { s with input := s.input.drop (min space (max n 1)), reads := ns })

/-- The method `Write(p)` of the stream. -/
def Stream.Write (s : Stream) (p : ByteStr) : Stream × Option GoError :=
  if s.closes > 0 then (s, some .ErrClosed)
  else
    match s.writeErr with
    | some e => (s, some e)
    | none => ({ s with sent := s.sent ++ p }, none)

/-- The method `Close()` of the stream. -/
def Stream.Close (s : Stream) : Stream × Option GoError :=
  ({ s with closes := s.closes + 1 }, if s.closes > 0 then some .ErrClosed else s.closeErr)

/-- The `Conn` struct: `bwBuf` and `bwErr` are the buffered bytes and the recorded error
of the `bufio.Writer` `bw`; `brBuf` holds the bytes that the `bufio.Reader` `br` has read
from `conn` and not yet passed on. -/
structure Conn where
  pending : Int
  err : Option GoError
  conn : Stream
  bwBuf : ByteStr
  bwErr : Option GoError
  brBuf : ByteStr

/-- The function `NewConn(netConn)`. -/
def NewConn (netConn : Stream) : Conn :=
  { pending := 0, err := none, conn := netConn, bwBuf := [], bwErr := none, brBuf := [] }

/-- The method `bw.Flush()`. -/
def Conn.bwFlush (c : Conn) : Conn × Option GoError :=
  match c.bwErr with
  | some e => (c, some e)
  | none =>
    if c.bwBuf.length = 0 then (c, none)
    else
      match c.conn.Write c.bwBuf with
      | (s, some e) => ({ c with conn := s, bwErr := some e }, some e)
      | (s, none) => ({ c with conn := s, bwBuf := [] }, none)

/-- The loop of `bw.Write(p)`, run while `p` is longer than the room left in the buffer
and no error is recorded: with an empty buffer `p` is written to the stream, otherwise
the buffer is filled from `p` and flushed. -/
def Conn.bwWriteLoop : Nat → Conn → ByteStr → Conn × ByteStr
  | 0, c, p => (c, p)
  | fuel + 1, c, p =>
    if p.length > bufSize - c.bwBuf.length ∧ c.bwErr = none then
      if c.bwBuf.length = 0 then
        match c.conn.Write p with
        | (s, some e) => Conn.bwWriteLoop fuel { c with conn := s, bwErr := some e } p
        | (s, none) => Conn.bwWriteLoop fuel { c with conn := s } []
      else
        let n := bufSize - c.bwBuf.length
        Conn.bwWriteLoop fuel ({ c with bwBuf := c.bwBuf ++ p.take n }.bwFlush).1 (p.drop n)
    else (c, p)

/-- The methods `bw.Write(p)` and `bw.WriteString(p)`. The loop runs twice at most: a
round with bytes in the buffer empties the buffer or records an error, a round with the
buffer empty writes all of `p` or records an error. Where `WriteString` passes a long
string on in pieces of the size of the buffer, the stream gets the same bytes, or the
same error before the first of them. -/
def Conn.bwWrite (c : Conn) (p : ByteStr) : Conn × Option GoError :=
  match Conn.bwWriteLoop 3 c p with
  | (c1, p1) =>
    match c1.bwErr with
    | some e => (c1, some e)
    | none => ({ c1 with bwBuf := c1.bwBuf ++ p1 }, none)

/-- The loop of `writeLen` that writes the digits of `n` into `lenScratch` from the
right; `acc` is what is written so far. -/
def writeLenDigits : Nat → Nat → ByteStr → ByteStr
  | 0, _, acc => acc
  | fuel + 1, n, acc =>
    if n / 10 = 0 then (48 + n % 10) :: acc
    else writeLenDigits fuel (n / 10) ((48 + n % 10) :: acc)

/-- The function `writeLen(pfx, n)` for a length `n`; `pfx` is its parameter `prefix`. -/
def Conn.writeLen (c : Conn) (pfx : Nat) (n : Nat) : Conn × Option GoError :=
  c.bwWrite (pfx :: writeLenDigits (n + 1) n [13, 10])

/-- The function `writeString(s)`. -/
def Conn.writeString (c : Conn) (s : ByteStr) : Conn × Option GoError :=
  let c := (c.writeLen 36 s.length).1
  let c := (c.bwWrite s).1
  c.bwWrite (str "\r\n")

/-- The function `writeBytes(p)`. -/
def Conn.writeBytes (c : Conn) (p : ByteStr) : Conn × Option GoError :=
  let c := (c.writeLen 36 p.length).1
  let c := (c.bwWrite p).1
  c.bwWrite (str "\r\n")

/-- The function `writeIntBytes(p)`. -/
def Conn.writeIntBytes (c : Conn) (p : ByteStr) : Conn × Option GoError :=
  let c := (c.writeLen 58 p.length).1
  let c := (c.bwWrite p).1
  c.bwWrite (str "\r\n")

/-- The function `writeInt64(n)`. -/
def Conn.writeInt64 (c : Conn) (n : Int) : Conn × Option GoError :=
  c.writeIntBytes (AppendInt [] n)

/-- The texts of Go that `writeCommand` relies on, left abstract. -/
structure WriteOps where
  /-- The text of `strconv.AppendFloat(b, n, 103, -1, 64)`; 103 is the byte of the format
  letter g. -/
  AppendFloat : Nat → ByteStr
  /-- The text `fmt.Fprint` writes for a value. -/
  Fprint : Arg → ByteStr

/-- The function `writeFloat64(n)`. -/
def Conn.writeFloat64 (w : WriteOps) (c : Conn) (n : Nat) : Conn × Option GoError :=
  c.writeBytes (w.AppendFloat n)

/-- The type switch of `writeCommand` on one argument. -/
def Conn.writeArg (w : WriteOps) (c : Conn) : Arg → Conn × Option GoError
  | .string arg => c.writeString arg
  | .bytes arg => c.writeBytes arg
  | .int arg => c.writeInt64 (wrapInt64 arg)
  | .int64 arg => c.writeInt64 arg
  | .float64 arg => c.writeFloat64 w arg
  | .bool arg => if arg then c.writeString (str "1") else c.writeString (str "0")
  | .nil => c.writeString []
  | arg => c.writeBytes (w.Fprint arg)

/-- The loop of `writeCommand` over the arguments left; it ends at an error. -/
def Conn.writeArgs (w : WriteOps) : List Arg → Conn → Option GoError → Conn × Option GoError
  | [], c, err => (c, err)
  | arg :: args, c, err =>
    if err ≠ none then (c, err)
    else
      match c.writeArg w arg with
      | (c1, err1) => Conn.writeArgs w args c1 err1

/-- The function `writeCommand(cmd, args)`. -/
def Conn.writeCommand (w : WriteOps) (c : Conn) (cmd : ByteStr) (args : List Arg) :
    Conn × Option GoError :=
  let c := (c.writeLen 42 (1 + args.length)).1
  match c.writeString cmd with
  | (c1, err) => Conn.writeArgs w args c1 err

/-- The function `Close()`. -/
def Conn.Close (c : Conn) : Conn × Option GoError :=
  match c.err with
  | none =>
    match c.conn.Close with
    | (s, e) => ({ c with err := some (.New (str "redigo: closed")), conn := s }, e)
  | some e => (c, some e)

/-- The function `fatal(err)`; every call passes an error that is not `nil`. -/
def Conn.fatal (c : Conn) (err : GoError) : Conn × GoError :=
  match c.err with
  | none => ({ c with err := some err, conn := c.conn.Close.1 }, err)
  | some _ => (c, err)

/-- The loop of `br.ReadSlice(10)` on the buffer `buf` of the reader and the stream `s`:
the line, the error, the buffer and the stream afterwards; `none` when the bound on its
rounds is reached. A line feed in the buffer ends the line; a full buffer ends the call
with `bufio.ErrBufferFull` and all the buffer; otherwise the buffer is filled by one read
from the stream, whose error ends the call with all the buffer. -/
def brReadSliceLoop : Nat → ByteStr → Stream →
    Option (ByteStr × Option GoError × ByteStr × Stream)
  | 0, _, _ => none
  | fuel + 1, buf, s =>
    if 10 ∈ buf then some ((ReadBytes buf).1, none, (ReadBytes buf).2.2, s)
    else if buf.length ≥ bufSize then some (buf, some .ErrBufferFull, [], s)
    else
      match s.Read (bufSize - buf.length) with
      | (_, some err, s1) => some (buf, some err, [], s1)
      | (data, none, s1) => brReadSliceLoop fuel (buf ++ data) s1

/-- The method `br.ReadSlice(10)`. Each round but the last takes a byte from the stream. -/
def brReadSlice (buf : ByteStr) (s : Stream) :
    Option (ByteStr × Option GoError × ByteStr × Stream) :=
  brReadSliceLoop (s.input.length + 1) buf s

/-- The method `br.Read(p)` with `len(p) = n`, not zero: the bytes read, the error, the
buffer and the stream afterwards. With bytes in the buffer it copies from them. With an
empty buffer it reads from the stream once: into `p` when `p` is as large as the buffer,
else into the buffer, and then copies. -/
def brRead (buf : ByteStr) (s : Stream) (n : Nat) :
    ByteStr × Option GoError × ByteStr × Stream :=
  if buf.length = 0 then
    if n ≥ bufSize then
      match s.Read n with
      | (data, err, s1) => (data, err, [], s1)
    else
      match s.Read bufSize with
      | (_, some err, s1) => ([], some err, [], s1)
      | (data, none, s1) => (data.take n, none, data.drop n, s1)
  else (buf.take n, none, buf.drop n, s)

/-- The loop of `io.ReadFull(br, p)` with `len(p) = n`, which is that of
`io.ReadAtLeast`: `got` holds the bytes read so far; `none` when the bound on its rounds
is reached. An `io.EOF` after some bytes becomes `io.ErrUnexpectedEOF`. -/
def brReadFullLoop : Nat → ByteStr → Nat → ByteStr → Stream →
    Option (ByteStr × Option GoError × ByteStr × Stream)
  | 0, _, _, _, _ => none
  | fuel + 1, got, n, buf, s =>
    if got.length < n then
      match brRead buf s (n - got.length) with
      | (d, some err, buf1, s1) =>
        if (got ++ d).length ≥ n then some (got ++ d, none, buf1, s1)
        else if (got ++ d).length > 0 ∧ err = .EOF then
          some (got ++ d, some .ErrUnexpectedEOF, buf1, s1)
        else some (got ++ d, some err, buf1, s1)
      | (d, none, buf1, s1) => brReadFullLoop fuel (got ++ d) n buf1 s1
    else some (got, none, buf, s)

/-- The function `io.ReadFull(br, p)` with `len(p) = n`. Each round but the last reads a
byte. -/
def brReadFull (buf : ByteStr) (s : Stream) (n : Nat) :
    Option (ByteStr × Option GoError × ByteStr × Stream) :=
  brReadFullLoop (n + 1) [] n buf s

/-- The method `readLine()` of a connection, on the buffer of its reader and its stream:
the line without its CR LF, the error, the buffer and the stream afterwards. -/
def connReadLine (buf : ByteStr) (s : Stream) :
    Option (ByteStr × Option GoError × ByteStr × Stream) :=
  match brReadSlice buf s with
  | none => none
  | some (_, some .ErrBufferFull, buf1, s1) =>
    some ([], some (.protocolError "long response line"), buf1, s1)
  | some (_, some err, buf1, s1) => some ([], some err, buf1, s1)
  | some (p, none, buf1, s1) =>
    if p.length < 2 ∨ p[p.length - 2]? ≠ some 13 then
      some ([], some (.protocolError "bad response line terminator"), buf1, s1)
    else some (p.take (p.length - 2), none, buf1, s1)

/-- The loop of the method `readReply()` that fills `r`: `k` replies are still to read
with `rd`. -/
def connReadReplyLoop
    (rd : ByteStr → Stream → Option (Reply × Option GoError × ByteStr × Stream)) :
    Nat → ByteStr → Stream → List Reply →
    Option (List Reply × Option GoError × ByteStr × Stream)
  | 0, buf, s, r => some (r, none, buf, s)
  | k + 1, buf, s, r =>
    match rd buf s with
    | none => none
    | some (_, some err, buf1, s1) => some ([], some err, buf1, s1)
    | some (v, none, buf1, s1) => connReadReplyLoop rd k buf1 s1 (r ++ [v])

/-- The part of the method `readReply()` after the first `readLine`: `line` is the line
read, `buf` and `s` are the buffer and the stream after it, and `rd` is the recursive
call. -/
def connReadReplySwitch
    (rd : ByteStr → Stream → Option (Reply × Option GoError × ByteStr × Stream))
    (line buf : ByteStr) (s : Stream) : Option (Reply × Option GoError × ByteStr × Stream) :=
  match line with
  | [] => some (.nil, some (.protocolError "short response line"), buf, s)
  | c :: tail =>
    if c = 43 then
      if tail = str "OK" then some (.string (str "OK"), none, buf, s)
      else if tail = str "PONG" then some (.string (str "PONG"), none, buf, s)
      else some (.string tail, none, buf, s)
    else if c = 45 then some (.error (.New tail), none, buf, s)
    else if c = 58 then some ((parseInt tail).1, (parseInt tail).2, buf, s)
    else if c = 36 then
      match parseLen tail with
      | (n, err) =>
        if n < 0 ∨ err ≠ none then some (.nil, err, buf, s)
        else
          match brReadFull buf s n.toNat with
          | none => none
          | some (_, some err, buf1, s1) => some (.nil, some err, buf1, s1)
          | some (p, none, buf1, s1) =>
            match connReadLine buf1 s1 with
            | none => none
            | some (_, some err, buf2, s2) => some (.nil, some err, buf2, s2)
            | some (line, none, buf2, s2) =>
              if line.length ≠ 0 then
                some (.nil, some (.protocolError "bad bulk string format"), buf2, s2)
              else some (.bytes p, none, buf2, s2)
    else if c = 42 then
      match parseLen tail with
      | (n, err) =>
        if n < 0 ∨ err ≠ none then some (.nil, err, buf, s)
        else
          match connReadReplyLoop rd n.toNat buf s [] with
          | none => none
          | some (_, some err, buf1, s1) => some (.nil, some err, buf1, s1)
          | some (r, none, buf1, s1) => some (.array r, none, buf1, s1)
    else some (.nil, some (.protocolError "unexpected response line"), buf, s)

/-- The method `readReply()` of a connection, on the buffer of its reader and its stream,
with a bound on the depth of its recursion; `none` when the bound is reached. -/
def connReadReplyFuel : Nat → ByteStr → Stream →
    Option (Reply × Option GoError × ByteStr × Stream)
  | 0, _, _ => none
  | fuel + 1, buf, s =>
    match connReadLine buf s with
    | none => none
    | some (_, some err, buf1, s1) => some (.nil, some err, buf1, s1)
    | some (line, none, buf1, s1) =>
      connReadReplySwitch (fun b t => connReadReplyFuel fuel b t) line buf1 s1

/-- The bytes a connection has not read yet: those in the buffer of its reader and those
its stream can still deliver. -/
def Conn.unread (c : Conn) : ByteStr := c.brBuf ++ c.conn.input

/-- The method `readReply()` of a connection: the reply, the error, and the connection
afterwards. The recursion is never deeper than the unread bytes are many. -/
def Conn.readReply (c : Conn) : Option (Reply × Option GoError × Conn) :=
  match connReadReplyFuel (c.unread.length + 1) c.brBuf c.conn with
  | none => none
  | some (r, e, buf, s) => some (r, e, { c with brBuf := buf, conn := s })

/-- The function `Send(cmd, args...)`. -/
def Conn.Send (w : WriteOps) (c : Conn) (cmd : ByteStr) (args : List Arg) :
    Conn × Option GoError :=
  match Conn.writeCommand w { c with pending := wrapInt64 (c.pending + 1) } cmd args with
  | (c1, some err) => ((c1.fatal err).1, some (c1.fatal err).2)
  | (c1, none) => (c1, none)

/-- The function `Receive()`: the reply, the error and the connection afterwards. -/
def Conn.Receive (c : Conn) : Option ((Reply × Option GoError) × Conn) :=
  match c.readReply with
  | none => none
  | some (_, some err, c1) => some ((.nil, some (c1.fatal err).2), (c1.fatal err).1)
  | some (reply, none, c1) =>
    let c2 := if c1.pending > 0 then { c1 with pending := c1.pending - 1 } else c1
    match reply with
    | .error err => some ((.nil, some err), c2)
    | _ => some ((reply, none), c2)

/-- The loop of `Do` for an empty command: `k` replies are still to read into `reply`. -/
def Conn.doReadAll : Nat → Conn → List Reply → Option ((Reply × Option GoError) × Conn)
  | 0, c, reply => some ((.array reply, none), c)
  | k + 1, c, reply =>
    match c.readReply with
    | none => none
    | some (_, some e, c1) => some ((.nil, some (c1.fatal e).2), (c1.fatal e).1)
    | some (r, none, c1) => Conn.doReadAll k c1 (reply ++ [r])

/-- The loop of `Do` for a command: `k` replies are still to read; `reply` is the last
one read and `err` the first error reply among those read. -/
def Conn.doReadLast : Nat → Conn → Reply → Option GoError →
    Option ((Reply × Option GoError) × Conn)
  | 0, c, reply, err => some ((reply, err), c)
  | k + 1, c, _, err =>
    match c.readReply with
    | none => none
    | some (_, some e, c1) => some ((.nil, some (c1.fatal e).2), (c1.fatal e).1)
    | some (reply, none, c1) =>
      match reply, err with
      | .error e, none => Conn.doReadLast k c1 reply (some e)
      | _, _ => Conn.doReadLast k c1 reply err

/-- The function `Do(cmd, args...)`. With an empty command and a negative `pending`,
`make` panics. With a command the loop runs while `i <= pending`: `pending + 1` times,
and without end when `pending` is the largest `int`, which here is as many times as
there are unread bytes and one more, by when a read has failed. -/
def Conn.Do (w : WriteOps) (c : Conn) (cmd : ByteStr) (args : List Arg) :
    Option (Call ((Reply × Option GoError) × Conn)) :=
  let pending := c.pending
  let c := { c with pending := 0 }
  if cmd = [] ∧ pending = 0 then some (.returns ((.nil, none), c))
  else
    match (if cmd ≠ [] then Conn.writeCommand w c cmd args else (c, none)) with
    | (c1, some err) => some (.returns ((.nil, some (c1.fatal err).2), (c1.fatal err).1))
    | (c1, none) =>
      match c1.bwFlush with
      | (c2, some err) => some (.returns ((.nil, some (c2.fatal err).2), (c2.fatal err).1))
      | (c2, none) =>
        if cmd = [] then
          if pending < 0 then some .panics
          else (Conn.doReadAll pending.toNat c2 []).map .returns
        else if pending = maxInt64 then
          (Conn.doReadLast (c2.unread.length + 1) c2 .nil none).map .returns
        else (Conn.doReadLast (pending + 1).toNat c2 .nil none).map .returns

/-! ## Notions used to state the claims on the connection -/

/-- A connection whose writes go through: its writer has recorded no error, its stream
is not closed and the writes of its stream do not fail. -/
def Conn.Writable (c : Conn) : Prop :=
  c.bwErr = none ∧ c.conn.closes = 0 ∧ c.conn.writeErr = none

/-- The bytes written to the buffered writer so far: those passed on to the stream and
those still in the buffer. -/
def Conn.written (c : Conn) : ByteStr := c.conn.sent ++ c.bwBuf

/-- The connection `c1` is `c` after the bytes `p` were written to its buffered writer
without error: nothing else has changed. -/
def Conn.Wrote (c c1 : Conn) (p : ByteStr) : Prop :=
  c1.Writable ∧ c1.written = c.written ++ p ∧ c1.pending = c.pending ∧ c1.err = c.err
  ∧ c1.conn.input = c.conn.input ∧ c1.conn.closeErr = c.conn.closeErr
  ∧ c1.brBuf = c.brBuf

/-- The buffer `buf1` and the stream `s1` are those of a reader after a call that read
from the stream `s`, open throughout, and left the bytes `rest` unread: the buffer holds
no more than its size, and of the stream nothing but its input and its schedule has
changed. -/
def Stream.ReadTo (s : Stream) (buf1 : ByteStr) (s1 : Stream) (rest : ByteStr) : Prop :=
  buf1 ++ s1.input = rest ∧ buf1.length ≤ bufSize ∧ s1.sent = s.sent
  ∧ s1.writeErr = s.writeErr ∧ s1.closeErr = s.closeErr ∧ s1.closes = s.closes

/-- The connection `c1` is `c` after its reader read from the stream, open throughout, and
left the bytes `rest` unread: nothing but the buffer of the reader, the input and the
schedule of the stream and the pending count has changed. -/
def Conn.Took (c c1 : Conn) (rest : ByteStr) : Prop :=
  c1.unread = rest ∧ c1.brBuf.length ≤ bufSize ∧ c1.conn.closes = c.conn.closes
  ∧ c1.conn.sent = c.conn.sent ∧ c1.conn.writeErr = c.conn.writeErr
  ∧ c1.conn.closeErr = c.conn.closeErr ∧ c1.err = c.err ∧ c1.bwBuf = c.bwBuf
  ∧ c1.bwErr = c.bwErr

/-- An integer-tagged string on the wire, as `writeIntBytes` writes it: a colon, the
decimal byte count, CR LF, the bytes, CR LF. -/
def intWire (payload : ByteStr) : ByteStr :=
  str ":" ++ FormatInt payload.length ++ str "\r\n" ++ payload ++ str "\r\n"

/-- What `writeCommand` writes for one argument: a bulk string, and for an `int` or an
`int64` an integer-tagged string of its decimal text. -/
def argWire (w : WriteOps) : Arg → ByteStr
  | .string arg => bulkWire arg
  | .bytes arg => bulkWire arg
  | .int arg => intWire (FormatInt (wrapInt64 arg))
  | .int64 arg => intWire (FormatInt arg)
  | .float64 arg => bulkWire (w.AppendFloat arg)
  | .bool true => bulkWire (str "1")
  | .bool false => bulkWire (str "0")
  | .nil => bulkWire []
  | arg => bulkWire (w.Fprint arg)

/-- What `writeCommand` writes for a list of arguments. -/
def argsWire (w : WriteOps) : List Arg → ByteStr
  | [] => []
  | arg :: args => argWire w arg ++ argsWire w args

/-- What `writeCommand` writes for a command: the array header with the count of the
name and the arguments, the name as a bulk string, and the arguments. -/
def commandBytes (w : WriteOps) (cmd : ByteStr) (args : List Arg) : ByteStr :=
  str "*" ++ FormatInt ((1 + args.length : Nat) : Int) ++ str "\r\n" ++ bulkWire cmd
    ++ argsWire w args

/-- The first error reply among replies, if there is one. -/
def firstError : List Reply → Option GoError
  | [] => none
  | .error e :: _ => some e
  | _ :: rs => firstError rs

/-- What `Receive` returns for a reply read without error: an error reply becomes the
error of the call. -/
def receiveResult : Reply → Reply × Option GoError
  | .error e => (.nil, some e)
  | reply => (reply, none)

/-- The last of the replies `rs`, and `reply` when there is none. -/
def lastReply (reply : Reply) : List Reply → Reply
  | [] => reply
  | r :: rs => lastReply r rs

/-- A stream just opened that has the bytes `input` to deliver, each read delivering as
many of them as fit the slice it is given. -/
def Stream.fresh (input : ByteStr) : Stream :=
  { input := input, reads := [], sent := [], writeErr := none, closeErr := none, closes := 0 }

/-- The texts of Go with every text empty, for commands that have no argument whose text
they give. -/
def WriteOps.blank : WriteOps := { AppendFloat := fun _ => [], Fprint := fun _ => [] }

/-- A call of `Close` or of `fatal` with an error. -/
inductive LatchOp
  | Close
  | fatal (err : GoError)

/-- The connection after a call of `Close` or `fatal`. -/
def Conn.step (c : Conn) : LatchOp → Conn
  | .Close => c.Close.1
  | .fatal err => (c.fatal err).1

/-- The connection after a sequence of calls of `Close` and `fatal`. -/
def Conn.run : List LatchOp → Conn → Conn
  | [], c => c
  | op :: ops, c => Conn.run ops (c.step op)

/-- The error a call of `Close` or `fatal` records on a connection that has none. -/
def LatchOp.recorded : LatchOp → GoError
  | .Close => .New (str "redigo: closed")
  | .fatal err => err

/-! ## Lemmas on the decimal text of numbers -/

theorem formatUintAux_eq (n : Nat) : ∀ (fuel : Nat) (acc : ByteStr), n < fuel →
    formatUintAux fuel n acc = formatUint n ++ acc := by
  induction n using Nat.strong_induction_on with
  | _ n ih =>
    intro fuel acc hf
    obtain ⟨f, rfl⟩ : ∃ f, fuel = f + 1 := ⟨fuel - 1, by omega⟩
    unfold formatUint
    by_cases hn : n < 10
    · simp [formatUintAux, hn]
    · have h1 : n / 10 < n := by omega
      have h2 : n / 10 < f := by omega
      simp only [formatUintAux, hn, if_false]
      rw [ih (n / 10) h1 f _ h2, ih (n / 10) h1 n _ h1]
      simp

theorem formatUint_small (n : Nat) (h : n < 10) : formatUint n = [48 + n] := by
  simp [formatUint, formatUintAux, h]

theorem formatUint_step (n : Nat) (h : ¬ n < 10) :
    formatUint n = formatUint (n / 10) ++ [48 + n % 10] := by
  have h1 : n / 10 < n := by omega
  conv_lhs => unfold formatUint
  simp only [formatUintAux, h, if_false]
  exact formatUintAux_eq (n / 10) n _ h1

theorem formatUint_digits (n : Nat) : ∀ b ∈ formatUint n, isDigit b := by
  induction n using Nat.strong_induction_on with
  | _ n ih =>
    by_cases hn : n < 10
    · rw [formatUint_small n hn]
      intro b hb
      simp only [List.mem_singleton] at hb
      subst hb
      unfold isDigit
      omega
    · rw [formatUint_step n hn]
      intro b hb
      rcases List.mem_append.1 hb with hb | hb
      · exact ih (n / 10) (by omega) b hb
      · simp only [List.mem_singleton] at hb
        subst hb
        unfold isDigit
        omega

theorem formatUint_ne_nil (n : Nat) : formatUint n ≠ [] := by
  by_cases hn : n < 10
  · rw [formatUint_small n hn]; simp
  · rw [formatUint_step n hn]; simp

theorem parseUintLoop_append (xs ys : ByteStr) : ∀ (a : Nat),
    parseUintLoop (xs ++ ys) a =
      match parseUintLoop xs a with
      | .ok v => parseUintLoop ys v
      | .error k => .error k := by
  induction xs with
  | nil => intro a; simp [parseUintLoop]
  | cons x xs ih =>
    intro a
    simp only [List.cons_append, parseUintLoop]
    split
    · split
      · rfl
      · split
        · rfl
        · exact ih _
    · rfl

theorem parseUintLoop_formatUint (n : Nat) (h : n ≤ 18446744073709551615) :
    parseUintLoop (formatUint n) 0 = .ok n := by
  induction n using Nat.strong_induction_on with
  | _ n ih =>
    by_cases hn : n < 10
    · rw [formatUint_small n hn]
      have h1 : 48 ≤ 48 + n ∧ 48 + n ≤ 57 := by omega
      simp [parseUintLoop, h1]
      omega
    · rw [formatUint_step n hn, parseUintLoop_append, ih (n / 10) (by omega) (by omega)]
      have h1 : 48 ≤ 48 + n % 10 ∧ 48 + n % 10 ≤ 57 := by omega
      have h2 : ¬ n / 10 ≥ 1844674407370955162 := by omega
      have h3 : n / 10 * 10 + (48 + n % 10 - 48) = n := by omega
      simp only [parseUintLoop, h1, h2, h3, and_self, if_true, if_false]
      simp
      omega

theorem ParseUint_formatUint (n : Nat) (h : n ≤ 18446744073709551615) :
    ParseUint (formatUint n) = .ok n := by
  unfold ParseUint
  have hne := formatUint_ne_nil n
  split
  · next heq => exact absurd heq hne
  · exact parseUintLoop_formatUint n h


theorem wrapInt64_id (x : Int) (h1 : minInt64 ≤ x) (h2 : x ≤ maxInt64) : wrapInt64 x = x := by
  unfold wrapInt64
  unfold minInt64 at h1
  unfold maxInt64 at h2
  omega

theorem ParseInt_FormatInt (func : String) (n : Int) (h1 : minInt64 ≤ n) (h2 : n ≤ maxInt64) :
    ParseInt func (FormatInt n) = (n, none) := by
  unfold minInt64 at h1
  unfold maxInt64 at h2
  unfold FormatInt
  have hb : n.natAbs ≤ 18446744073709551615 := by omega
  have hp := ParseUint_formatUint _ hb
  by_cases hneg : n < 0
  · have hc : ¬ n.natAbs > 9223372036854775808 := by omega
    simp only [hneg, if_true, ParseInt]
    simp only [or_true, if_true]
    rw [hp]
    simp [hc]
    rw [abs_of_neg hneg]
    unfold wrapInt64
    omega
  · have hc : ¬ n.natAbs ≥ 9223372036854775808 := by omega
    simp only [hneg, if_false]
    have hne := formatUint_ne_nil n.natAbs
    have hdig := formatUint_digits n.natAbs
    generalize formatUint n.natAbs = s at hne hdig hp
    match s, hne with
    | c :: cs, _ =>
      have hd : isDigit c := hdig c (by simp)
      unfold isDigit at hd
      have e0 : ¬ c = 43 := by omega
      have e1 : ¬ c = 45 := by omega
      simp only [ParseInt, e0, e1, or_self, if_false]
      rw [hp]
      simp [hc]
      rw [abs_of_nonneg (by omega)]
      unfold wrapInt64
      omega

theorem FormatInt_no_lf (n : Int) : 10 ∉ FormatInt n := by
  have hdig := formatUint_digits n.natAbs
  unfold FormatInt
  intro h
  split at h
  · rcases List.mem_cons.1 h with h | h
    · omega
    · have := hdig 10 h
      unfold isDigit at this
      omega
  · have := hdig 10 h
    unfold isDigit at this
    omega

/-! ## Lemmas on the reader and on the header line -/

theorem ReadBytes_line (l s : ByteStr) (h : 10 ∉ l) :
    ReadBytes (l ++ 10 :: s) = (l ++ [10], none, s) := by
  induction l with
  | nil => simp [ReadBytes]
  | cons b l ih =>
    have hb : ¬ b = 10 := fun e => h (by simp [e])
    have hl : 10 ∉ l := fun e => h (by simp [e])
    simp [ReadBytes, hb, ih hl]

/-- A first line of more than two bytes: the switch sees the line without its last two
bytes. -/
theorem decodeFuel_line (fuel : Nat) (c : Nat) (l s : ByteStr) (h : 10 ∉ c :: l)
    (hl : l ≠ []) :
    decodeFuel (fuel + 1) (c :: l ++ 10 :: s) =
      decodeSwitch (fun r => decodeFuel fuel r) c l.dropLast s := by
  have hr := ReadBytes_line (c :: l) s h
  have hlen : 0 < l.length := List.length_pos.2 hl
  have h2 : ¬ (c :: l ++ [10]).length ≤ 2 := by simp [hl]
  have h3 : (c :: l ++ [10]).take ((c :: l ++ [10]).length - 2) = c :: l.dropLast := by
    have e : (c :: l ++ [10]).length - 2 = (l.length - 1) + 1 := by simp; omega
    rw [e]
    simp [List.dropLast_eq_take, List.take_append_of_le_length]
  simp only [decodeFuel]
  rw [hr]
  simp only [h2, if_false, h3]

/-- A first line that ends in CR LF: the switch sees the line without them. -/
theorem decodeFuel_crlf (fuel : Nat) (c : Nat) (t s : ByteStr) (h : 10 ∉ c :: t) :
    decodeFuel (fuel + 1) (c :: t ++ 13 :: 10 :: s) =
      decodeSwitch (fun r => decodeFuel fuel r) c t s := by
  have h1 : 10 ∉ c :: (t ++ [13]) := by
    intro e
    simp at e
    simp at h
    rcases e with e | e
    · exact h.1 e
    · exact h.2 e
  have := decodeFuel_line fuel c (t ++ [13]) s h1 (by simp)
  simpa using this

theorem ReadFull_exact (p s : ByteStr) :
    ReadFull (p ++ 13 :: 10 :: s) (p.length + 2) = (p ++ [13, 10], none, s) := by
  have h : p.length + 2 ≤ (p ++ 13 :: 10 :: s).length := by simp
  have e : p ++ 13 :: 10 :: s = (p ++ [13, 10]) ++ s := by simp
  have hl : (p ++ [13, 10]).length = p.length + 2 := by simp
  unfold ReadFull
  rw [if_pos h, e, ← hl, List.take_left', List.drop_left']
  all_goals rfl

/-! ## Decoding the wire form of a frame -/

theorem str_crlf : str "\r\n" = [13, 10] := rfl

theorem Atoi_FormatInt (n : Int) (h1 : minInt64 ≤ n) (h2 : n ≤ maxInt64) :
    Atoi (FormatInt n) = (n, none) := ParseInt_FormatInt "Atoi" n h1 h2

theorem Atoi_length (k : Nat) (h : (k : Int) ≤ maxInt64) :
    Atoi (FormatInt (k : Int)) = ((k : Int), none) :=
  Atoi_FormatInt _ (by unfold minInt64; omega) h

theorem decodeSwitch_bulk (dec : ByteStr → Option (Outcome (Option Message)))
    (p s : ByteStr) (h : (p.length : Int) + 2 ≤ maxInt64) :
    decodeSwitch dec 36 (FormatInt (p.length : Int)) (p ++ 13 :: 10 :: s) =
      some (.returns (some { Message.zero with Typ := MessageBulk, Bulk := some p }) none s) := by
  have hl : (p.length : Int) ≤ maxInt64 := by omega
  have h0 : ¬ ((p.length : Int) < 0) := by omega
  have h2 : ¬ ((p.length : Int) + 2 > maxInt64) := by omega
  unfold decodeSwitch
  simp only [MessageError, MessageStatus, MessageInt, MessageBulk, Atoi_length _ hl]
  simp only [h0, h2, if_false, Int.toNat_ofNat, ReadFull_exact]
  simp

mutual
theorem decodeFuel_wire : ∀ (f : Frame) (fuel : Nat) (s : ByteStr),
    f.Representable → f.depth < fuel →
    decodeFuel fuel (f.wire ++ s) = some (.returns (some f.toMessage) none s)
  | .Error text, fuel, s, hr, hd => by
    obtain ⟨k, rfl⟩ : ∃ k, fuel = k + 1 := ⟨fuel - 1, by omega⟩
    simp only [Frame.Representable] at hr
    have h10 : 10 ∉ 45 :: text := by simp [hr]
    have e : (Frame.Error text).wire ++ s = 45 :: text ++ 13 :: 10 :: s := by
      simp [Frame.wire, str_crlf, show str "-" = [45] from rfl]
    rw [e, decodeFuel_crlf k 45 text s h10]
    simp [decodeSwitch, Frame.toMessage, MessageError]
  | .Status text, fuel, s, hr, hd => by
    obtain ⟨k, rfl⟩ : ∃ k, fuel = k + 1 := ⟨fuel - 1, by omega⟩
    simp only [Frame.Representable] at hr
    have h10 : 10 ∉ 43 :: text := by simp [hr]
    have e : (Frame.Status text).wire ++ s = 43 :: text ++ 13 :: 10 :: s := by
      simp [Frame.wire, str_crlf, show str "+" = [43] from rfl]
    rw [e, decodeFuel_crlf k 43 text s h10]
    simp [decodeSwitch, Frame.toMessage, MessageError, MessageStatus]
  | .Integer n, fuel, s, hr, hd => by
    obtain ⟨k, rfl⟩ : ∃ k, fuel = k + 1 := ⟨fuel - 1, by omega⟩
    simp only [Frame.Representable] at hr
    have h10 : 10 ∉ 58 :: FormatInt n := by simp [FormatInt_no_lf]
    have e : (Frame.Integer n).wire ++ s = 58 :: FormatInt n ++ 13 :: 10 :: s := by
      simp [Frame.wire, str_crlf, show str ":" = [58] from rfl]
    rw [e, decodeFuel_crlf k 58 _ s h10]
    simp [decodeSwitch, Frame.toMessage, MessageError, MessageStatus, MessageInt,
      ParseInt_FormatInt _ n hr.1 hr.2]
  | .Bulk none, fuel, s, _, hd => by
    obtain ⟨k, rfl⟩ : ∃ k, fuel = k + 1 := ⟨fuel - 1, by omega⟩
    have e : (Frame.Bulk none).wire ++ s = 36 :: [45, 49] ++ 13 :: 10 :: s := by
      simp [Frame.wire, show str "$-1\r\n" = [36, 45, 49, 13, 10] from rfl]
    rw [e, decodeFuel_crlf k 36 _ s (by decide)]
    have ha : Atoi [45, 49] = (-1, none) := by decide
    simp [decodeSwitch, Frame.toMessage, MessageError, MessageStatus, MessageInt, MessageBulk, ha]
  | .Bulk (some p), fuel, s, hr, hd => by
    obtain ⟨k, rfl⟩ : ∃ k, fuel = k + 1 := ⟨fuel - 1, by omega⟩
    simp only [Frame.Representable] at hr
    have h10 : 10 ∉ 36 :: FormatInt (p.length : Int) := by simp [FormatInt_no_lf]
    have e : (Frame.Bulk (some p)).wire ++ s =
        36 :: FormatInt (p.length : Int) ++ 13 :: 10 :: (p ++ 13 :: 10 :: s) := by
      simp [Frame.wire, str_crlf, show str "$" = [36] from rfl]
    rw [e, decodeFuel_crlf k 36 _ _ h10, decodeSwitch_bulk _ p s hr]
    simp [Frame.toMessage]
  | .Multi none, fuel, s, _, hd => by
    obtain ⟨k, rfl⟩ : ∃ k, fuel = k + 1 := ⟨fuel - 1, by omega⟩
    have e : (Frame.Multi none).wire ++ s = 42 :: [45, 49] ++ 13 :: 10 :: s := by
      simp [Frame.wire, show str "*-1\r\n" = [42, 45, 49, 13, 10] from rfl]
    rw [e, decodeFuel_crlf k 42 _ s (by decide)]
    have ha : Atoi [45, 49] = (-1, none) := by decide
    simp [decodeSwitch, Frame.toMessage, MessageError, MessageStatus, MessageInt, MessageBulk,
      MessageMulti, ha]
  | .Multi (some elems), fuel, s, hr, hd => by
    obtain ⟨k, rfl⟩ : ∃ k, fuel = k + 1 := ⟨fuel - 1, by omega⟩
    simp only [Frame.Representable] at hr
    simp only [Frame.depth] at hd
    have h10 : 10 ∉ 42 :: FormatInt (elems.length : Int) := by simp [FormatInt_no_lf]
    have e : (Frame.Multi (some elems)).wire ++ s =
        42 :: FormatInt (elems.length : Int) ++ 13 :: 10 :: (Frame.wireAll elems ++ s) := by
      simp [Frame.wire, str_crlf, show str "*" = [42] from rfl]
    have h0 : ¬ ((elems.length : Int) < 0) := by omega
    have hloop := decodeLoop_wire elems k s [] hr.2 (by omega)
    rw [e, decodeFuel_crlf k 42 _ _ h10]
    unfold decodeSwitch
    simp only [MessageError, MessageStatus, MessageInt, MessageBulk, MessageMulti,
      Atoi_length _ hr.1]
    simp only [h0, if_false, Int.toNat_ofNat, hloop]
    simp [Frame.toMessage, MessageMulti]
theorem decodeLoop_wire : ∀ (fs : List Frame) (fuel : Nat) (s : ByteStr)
    (ret : List (Option Message)),
    Frame.AllRepresentable fs → Frame.depthAll fs < fuel →
    decodeLoop (fun r => decodeFuel fuel r) fs.length (Frame.wireAll fs ++ s) ret =
      some (.returns (ret ++ Frame.toMessages fs) none s)
  | [], fuel, s, ret, _, _ => by
    simp [decodeLoop, Frame.wireAll, Frame.toMessages]
  | f :: fs, fuel, s, ret, hr, hd => by
    simp only [Frame.AllRepresentable] at hr
    simp only [Frame.depthAll] at hd
    have h1 := decodeFuel_wire f fuel (Frame.wireAll fs ++ s) hr.1 (by omega)
    have h2 := decodeLoop_wire fs fuel s (ret ++ [some f.toMessage]) hr.2 (by omega)
    simp only [List.length_cons, decodeLoop, Frame.wireAll, List.append_assoc, h1, h2,
      Frame.toMessages]
    simp
end

mutual
theorem Frame.depth_lt_wire : ∀ (f : Frame), f.depth < f.wire.length
  | .Error _ => by simp [Frame.depth, Frame.wire, str_crlf]
  | .Status _ => by simp [Frame.depth, Frame.wire, str_crlf]
  | .Integer _ => by simp [Frame.depth, Frame.wire, str_crlf]
  | .Bulk none => by
    simp [Frame.depth, Frame.wire, show str "$-1\r\n" = [36, 45, 49, 13, 10] from rfl]
  | .Bulk (some _) => by simp [Frame.depth, Frame.wire, str_crlf]
  | .Multi none => by
    simp [Frame.depth, Frame.wire, show str "*-1\r\n" = [42, 45, 49, 13, 10] from rfl]
  | .Multi (some elems) => by
    have h := Frame.depthAll_le_wireAll elems
    simp [Frame.depth, Frame.wire, str_crlf]
    omega
theorem Frame.depthAll_le_wireAll :
    ∀ (fs : List Frame), Frame.depthAll fs ≤ (Frame.wireAll fs).length
  | [] => by simp [Frame.depthAll]
  | f :: fs => by
    have h1 := Frame.depth_lt_wire f
    have h2 := Frame.depthAll_le_wireAll fs
    simp [Frame.depthAll, Frame.wireAll]
    omega
end

/-- Decoding the wire form of a representable frame gives the frame back and leaves
what follows it unread. -/
theorem DecodeBufio_wire (f : Frame) (s : ByteStr) (h : f.Representable) :
    DecodeBufio (f.wire ++ s) = some (.returns (some f.toMessage) none s) := by
  unfold DecodeBufio
  apply decodeFuel_wire f _ s h
  have := Frame.depth_lt_wire f
  simp
  omega

/-! ## Lemmas on `Encode` -/

theorem addBytes_eq (buf b : ByteStr) : addBytes buf b = buf ++ bulkWire b := by
  simp [addBytes, bulkWire, AppendInt, addTail, str_crlf, show str "$" = [36] from rfl]

theorem encodeLoop_basic (fl : FloatOps) : ∀ (args : List Arg) (buf : ByteStr),
    (∀ a ∈ args, a.isBasic) →
    encodeLoop fl args buf = (some (buf ++ bulksWire (args.map Arg.payload)), none) := by
  intro args
  induction args with
  | nil => intro buf _; simp [encodeLoop, bulksWire]
  | cons a args ih =>
    intro buf h
    have ha : a.isBasic := h a (by simp)
    have ht : ∀ x ∈ args, x.isBasic := fun x hx => h x (by simp [hx])
    cases a with
    | nil => simp [encodeLoop, ih _ ht, addBytes_eq, bulksWire, Arg.payload]
    | bool v =>
      cases v <;>
        simp [encodeLoop, ih _ ht, addBytes_eq, bulksWire, Arg.payload,
          show str "0" = [48] from rfl, show str "1" = [49] from rfl]
    | bytes v => simp [encodeLoop, ih _ ht, addBytes_eq, bulksWire, Arg.payload]
    | string v => simp [encodeLoop, ih _ ht, addBytes_eq, bulksWire, Arg.payload]
    | _ => exact absurd ha (by simp [Arg.isBasic])

theorem Encode_basic (fl : FloatOps) (args : List Arg) (h : ∀ a ∈ args, a.isBasic) :
    Encode fl args = (some (commandWire (args.map Arg.payload)), none) := by
  unfold Encode
  simp only [encodeLoop_basic fl args _ h]
  simp [commandWire, AppendInt, addTail, str_crlf, show str "*" = [42] from rfl]

theorem addBytes_length_le (buf b : ByteStr) : buf.length ≤ (addBytes buf b).length := by
  rw [addBytes_eq, List.length_append]
  omega

theorem addInt64_length_le (buf : ByteStr) (n : Int) : buf.length ≤ (addInt64 buf n).length := by
  simp only [addInt64, AppendInt, addTail, List.length_append]
  omega

theorem encodeLoop_cons_supported (fl : FloatOps) (a : Arg) (args : List Arg) (buf : ByteStr)
    (h : a.isSupported) :
    ∃ buf1, buf.length ≤ buf1.length ∧ encodeLoop fl (a :: args) buf = encodeLoop fl args buf1 := by
  cases a with
  | other t k => exact absurd h (by simp [Arg.isSupported])
  | bool v =>
    cases v
    · exact ⟨addBytes buf [48], addBytes_length_le _ _, by simp [encodeLoop]⟩
    · exact ⟨addBytes buf [49], addBytes_length_le _ _, by simp [encodeLoop]⟩
  | float32 v => exact ⟨addFloat fl buf (fl.toFloat64 v), addBytes_length_le _ _, rfl⟩
  | float64 v => exact ⟨addFloat fl buf v, addBytes_length_le _ _, rfl⟩
  | nil => exact ⟨addBytes buf [], addBytes_length_le _ _, rfl⟩
  | bytes v => exact ⟨addBytes buf v, addBytes_length_le _ _, rfl⟩
  | string v => exact ⟨addBytes buf v, addBytes_length_le _ _, rfl⟩
  | int64 v => exact ⟨addInt64 buf v, addInt64_length_le _ _, rfl⟩
  | _ => exact ⟨addInt64 buf (wrapInt64 _), addInt64_length_le _ _, rfl⟩

theorem encodeLoop_supported (fl : FloatOps) : ∀ (args : List Arg) (buf : ByteStr),
    (∀ a ∈ args, a.isSupported) →
    ∃ b, encodeLoop fl args buf = (some b, none) ∧ buf.length ≤ b.length := by
  intro args
  induction args with
  | nil => intro buf _; exact ⟨buf, rfl, le_refl _⟩
  | cons a args ih =>
    intro buf h
    obtain ⟨buf1, hl, he⟩ := encodeLoop_cons_supported fl a args buf (h a (by simp))
    obtain ⟨b, hb, hbl⟩ := ih buf1 fun x hx => h x (by simp [hx])
    exact ⟨b, by rw [he, hb], by omega⟩

theorem encodeLoop_unsupported (fl : FloatOps) : ∀ (args : List Arg) (buf : ByteStr),
    (∃ a ∈ args, ¬ a.isSupported) → ∃ e, encodeLoop fl args buf = (none, some e) := by
  intro args
  induction args with
  | nil => intro buf h; obtain ⟨a, ha, _⟩ := h; simp at ha
  | cons a args ih =>
    intro buf h
    by_cases hs : a.isSupported
    · obtain ⟨buf1, _, he⟩ := encodeLoop_cons_supported fl a args buf hs
      have hrest : ∃ x ∈ args, ¬ x.isSupported := by
        obtain ⟨x, hx, hn⟩ := h
        rcases List.mem_cons.1 hx with e | e
        · subst e; exact absurd hs hn
        · exact ⟨x, e, hn⟩
      rw [he]
      exact ih buf1 hrest
    · cases a with
      | other t k => exact ⟨_, rfl⟩
      | _ => exact absurd (by simp [Arg.isSupported]) hs

/-! ## Lemmas on malformed numbers -/

theorem parseUintLoop_nondigit : ∀ (cs : ByteStr) (n : Nat), (∃ b ∈ cs, ¬ isDigit b) →
    ∃ k, parseUintLoop cs n = .error k := by
  intro cs
  induction cs with
  | nil => intro n h; obtain ⟨b, hb, _⟩ := h; simp at hb
  | cons c cs ih =>
    intro n h
    by_cases hc : 48 ≤ c ∧ c ≤ 57
    · have hrest : ∃ b ∈ cs, ¬ isDigit b := by
        obtain ⟨b, hb, hnd⟩ := h
        rcases List.mem_cons.1 hb with e | e
        · subst e; exact absurd hc hnd
        · exact ⟨b, e, hnd⟩
      simp only [parseUintLoop, hc, and_self, if_true]
      split
      · exact ⟨_, rfl⟩
      · split
        · exact ⟨_, rfl⟩
        · exact ih _ hrest
    · simp only [parseUintLoop, hc, if_false]
      exact ⟨_, rfl⟩

theorem ParseUint_nondigit (cs : ByteStr) (h : cs = [] ∨ ∃ b ∈ cs, ¬ isDigit b) :
    ∃ k, ParseUint cs = .error k := by
  cases cs with
  | nil => exact ⟨_, rfl⟩
  | cons c cs =>
    rcases h with h | h
    · simp at h
    · exact parseUintLoop_nondigit (c :: cs) 0 h

theorem ParseInt_error (func : String) (c : Nat) (cs : ByteStr)
    (h : ∃ k, ParseUint (if c = 43 ∨ c = 45 then cs else c :: cs) = .error k) :
    ∃ v e, ParseInt func (c :: cs) = (v, some e) := by
  obtain ⟨k, hk⟩ := h
  simp only [ParseInt]
  rw [hk]
  cases k with
  | ErrSyntax_ => exact ⟨_, _, rfl⟩
  | ErrRange_ =>
    simp only []
    split
    · exact ⟨_, _, rfl⟩
    · exact ⟨_, _, rfl⟩

/-- A length field with a byte that is no digit, other than a sign followed by digits,
is refused by `Atoi`. -/
theorem Atoi_malformed (field : ByteStr) (h1 : ∃ b ∈ field, ¬ isDigit b)
    (h2 : ¬ ∃ sg ds, field = sg :: ds ∧ (sg = 43 ∨ sg = 45) ∧ ds ≠ [] ∧ ∀ d ∈ ds, isDigit d) :
    ∃ v e, Atoi field = (v, some e) := by
  cases field with
  | nil => obtain ⟨b, hb, _⟩ := h1; simp at hb
  | cons c cs =>
    apply ParseInt_error
    by_cases hs : c = 43 ∨ c = 45
    · simp only [hs, if_true]
      apply ParseUint_nondigit
      by_cases hcs : cs = []
      · exact Or.inl hcs
      · right
        by_contra hall
        apply h2
        refine ⟨c, cs, rfl, hs, hcs, ?_⟩
        intro d hd
        by_contra hnd
        exact hall ⟨d, hd, hnd⟩
    · simp only [hs, if_false]
      exact ParseUint_nondigit _ (Or.inr h1)

/-! ## `DecodeBufio` always returns or panics: the depth bound is never reached -/

theorem ReadBytes_rest_le : ∀ (inp : ByteStr), (ReadBytes inp).2.2.length ≤ inp.length := by
  intro inp
  induction inp with
  | nil => simp [ReadBytes]
  | cons b bs ih =>
    by_cases hb : b = 10
    · simp [ReadBytes, hb]
    · simp only [ReadBytes, hb, if_false, List.length_cons]
      omega

theorem ReadBytes_rest_lt : ∀ (inp line rest : ByteStr),
    ReadBytes inp = (line, none, rest) → rest.length < inp.length := by
  intro inp
  induction inp with
  | nil => intro line rest h; simp [ReadBytes] at h
  | cons b bs ih =>
    intro line rest h
    by_cases hb : b = 10
    · simp only [ReadBytes, hb, if_true, Prod.mk.injEq] at h
      obtain ⟨_, _, rfl⟩ := h
      simp
    · simp only [ReadBytes, hb, if_false, Prod.mk.injEq] at h
      obtain ⟨_, h2, h3⟩ := h
      have := ih (ReadBytes bs).1 rest (by rw [← h2, ← h3])
      simp only [List.length_cons]
      omega

theorem ReadFull_rest_le (inp : ByteStr) (n : Nat) : (ReadFull inp n).2.2.length ≤ inp.length := by
  unfold ReadFull
  split
  · simp
  · split <;> simp

theorem decodeLoop_rest_le (dec : ByteStr → Option (Outcome (Option Message)))
    (hdec : ∀ inp v e rest, dec inp = some (.returns v e rest) → rest.length ≤ inp.length) :
    ∀ (n : Nat) (inp : ByteStr) (acc : List (Option Message)) v e rest,
      decodeLoop dec n inp acc = some (.returns v e rest) → rest.length ≤ inp.length := by
  intro n
  induction n with
  | zero =>
    intro inp acc v e rest h
    simp only [decodeLoop, Option.some.injEq, Outcome.returns.injEq] at h
    obtain ⟨_, _, rfl⟩ := h
    exact le_refl _
  | succ n ih =>
    intro inp acc v e rest h
    cases hd : dec inp with
    | none => simp [decodeLoop, hd] at h
    | some o =>
      cases o with
      | panics => simp [decodeLoop, hd] at h
      | returns m err r =>
        have hr := hdec inp m err r hd
        cases err with
        | some err =>
          simp only [decodeLoop, hd, Option.some.injEq, Outcome.returns.injEq] at h
          obtain ⟨_, _, rfl⟩ := h
          exact hr
        | none =>
          simp only [decodeLoop, hd] at h
          have := ih r _ v e rest h
          omega

theorem decodeSwitch_rest_le (dec : ByteStr → Option (Outcome (Option Message)))
    (hdec : ∀ inp v e rest, dec inp = some (.returns v e rest) → rest.length ≤ inp.length)
    (c : Nat) (tail rest0 : ByteStr) (v : Option Message) (e : Option GoError) (rest : ByteStr)
    (h : decodeSwitch dec c tail rest0 = some (.returns v e rest)) :
    rest.length ≤ rest0.length := by
  unfold decodeSwitch at h
  split at h
  · simp only [Option.some.injEq, Outcome.returns.injEq] at h
    obtain ⟨_, _, rfl⟩ := h
    exact le_refl _
  split at h
  · simp only [Option.some.injEq, Outcome.returns.injEq] at h
    obtain ⟨_, _, rfl⟩ := h
    exact le_refl _
  split at h
  · split at h <;>
    · simp only [Option.some.injEq, Outcome.returns.injEq] at h
      obtain ⟨_, _, rfl⟩ := h
      exact le_refl _
  split at h
  · split at h
    · simp only [Option.some.injEq, Outcome.returns.injEq] at h
      obtain ⟨_, _, rfl⟩ := h
      exact le_refl _
    · split at h
      · simp only [Option.some.injEq, Outcome.returns.injEq] at h
        obtain ⟨_, _, rfl⟩ := h
        exact le_refl _
      · split at h
        · simp at h
        · next l _ _ _ =>
          have hrf := ReadFull_rest_le rest0 (l.toNat + 2)
          split at h
          · next heq =>
            simp only [Option.some.injEq, Outcome.returns.injEq] at h
            obtain ⟨_, _, rfl⟩ := h
            rw [heq] at hrf
            exact hrf
          · next heq =>
            simp only [Option.some.injEq, Outcome.returns.injEq] at h
            obtain ⟨_, _, rfl⟩ := h
            rw [heq] at hrf
            exact hrf
  split at h
  · split at h
    · simp only [Option.some.injEq, Outcome.returns.injEq] at h
      obtain ⟨_, _, rfl⟩ := h
      exact le_refl _
    · split at h
      · simp only [Option.some.injEq, Outcome.returns.injEq] at h
        obtain ⟨_, _, rfl⟩ := h
        exact le_refl _
      · split at h
        · simp at h
        · simp at h
        · next heq =>
          simp only [Option.some.injEq, Outcome.returns.injEq] at h
          obtain ⟨_, _, rfl⟩ := h
          exact decodeLoop_rest_le dec hdec _ _ _ _ _ _ heq
        · next heq =>
          simp only [Option.some.injEq, Outcome.returns.injEq] at h
          obtain ⟨_, _, rfl⟩ := h
          exact decodeLoop_rest_le dec hdec _ _ _ _ _ _ heq
  · simp only [Option.some.injEq, Outcome.returns.injEq] at h
    obtain ⟨_, _, rfl⟩ := h
    exact le_refl _

theorem decodeFuel_rest_le : ∀ (fuel : Nat) (inp : ByteStr) v e rest,
    decodeFuel fuel inp = some (.returns v e rest) → rest.length ≤ inp.length := by
  intro fuel
  induction fuel with
  | zero => intro inp v e rest h; simp [decodeFuel] at h
  | succ k ih =>
    intro inp v e rest h
    have hrb := ReadBytes_rest_le inp
    unfold decodeFuel at h
    split at h
    · next heq =>
      simp only [Option.some.injEq, Outcome.returns.injEq] at h
      obtain ⟨_, _, rfl⟩ := h
      rw [heq] at hrb
      exact hrb
    · next heq =>
      rw [heq] at hrb
      split at h
      · simp only [Option.some.injEq, Outcome.returns.injEq] at h
        obtain ⟨_, _, rfl⟩ := h
        exact hrb
      · split at h
        · simp at h
        · have := decodeSwitch_rest_le (fun r => decodeFuel k r) ih _ _ _ _ _ _ h
          simp only at hrb
          omega

theorem decodeLoop_ne_none (dec : ByteStr → Option (Outcome (Option Message))) (k : Nat)
    (hdec : ∀ inp v e rest, dec inp = some (.returns v e rest) → rest.length ≤ inp.length)
    (hsome : ∀ inp : ByteStr, inp.length < k → dec inp ≠ none) :
    ∀ (n : Nat) (inp : ByteStr) (acc : List (Option Message)),
      inp.length < k → decodeLoop dec n inp acc ≠ none := by
  intro n
  induction n with
  | zero => intro inp acc _; simp [decodeLoop]
  | succ n ih =>
    intro inp acc hlen
    cases hd : dec inp with
    | none => exact absurd hd (hsome inp hlen)
    | some o =>
      cases o with
      | panics => simp [decodeLoop, hd]
      | returns m err r =>
        have hr := hdec inp m err r hd
        cases err with
        | some err => simp [decodeLoop, hd]
        | none =>
          simp only [decodeLoop, hd]
          exact ih r _ (by omega)

theorem decodeSwitch_ne_none (dec : ByteStr → Option (Outcome (Option Message))) (k : Nat)
    (hdec : ∀ inp v e rest, dec inp = some (.returns v e rest) → rest.length ≤ inp.length)
    (hsome : ∀ inp : ByteStr, inp.length < k → dec inp ≠ none)
    (c : Nat) (tail rest0 : ByteStr) (hlen : rest0.length < k) :
    decodeSwitch dec c tail rest0 ≠ none := by
  unfold decodeSwitch
  split
  · simp
  split
  · simp
  split
  · split <;> simp
  split
  · split
    · simp
    · split
      · simp
      · split
        · simp
        · split <;> simp
  split
  · split
    · simp
    · split
      · simp
      · have hloop := fun n => decodeLoop_ne_none dec k hdec hsome n rest0 [] hlen
        split
        · next heq => exact absurd heq (hloop _)
        · simp
        · simp
        · simp
  · simp

theorem decodeFuel_ne_none : ∀ (fuel : Nat) (inp : ByteStr),
    inp.length < fuel → decodeFuel fuel inp ≠ none := by
  intro fuel
  induction fuel with
  | zero => intro inp h; omega
  | succ k ih =>
    intro inp hlen
    unfold decodeFuel
    split
    · simp
    · next heq =>
      have hlt := ReadBytes_rest_lt inp _ _ heq
      split
      · simp
      · split
        · simp
        · exact decodeSwitch_ne_none (fun r => decodeFuel k r) k (decodeFuel_rest_le k) ih
            _ _ _ (by omega)

/-- The depth bound of `DecodeBufio` is never reached: on every input it returns or
panics. -/
theorem DecodeBufio_ne_none (inp : ByteStr) : DecodeBufio inp ≠ none :=
  decodeFuel_ne_none _ inp (Nat.lt_succ_self _)

theorem decodeLoop_congr (dec1 dec2 : ByteStr → Option (Outcome (Option Message))) (b : Nat)
    (hagree : ∀ inp : ByteStr, inp.length ≤ b → dec1 inp = dec2 inp)
    (hdec : ∀ inp v e rest, dec1 inp = some (.returns v e rest) → rest.length ≤ inp.length) :
    ∀ (n : Nat) (inp : ByteStr) (acc : List (Option Message)), inp.length ≤ b →
      decodeLoop dec1 n inp acc = decodeLoop dec2 n inp acc := by
  intro n
  induction n with
  | zero => intro inp acc _; simp [decodeLoop]
  | succ n ih =>
    intro inp acc hlen
    have h12 := hagree inp hlen
    cases hd : dec1 inp with
    | none => rw [hd] at h12; simp [decodeLoop, hd, ← h12]
    | some o =>
      rw [hd] at h12
      cases o with
      | panics => simp [decodeLoop, hd, ← h12]
      | returns m err r =>
        have hr := hdec inp m err r hd
        cases err with
        | some err => simp [decodeLoop, hd, ← h12]
        | none =>
          simp only [decodeLoop, hd, ← h12]
          exact ih r _ (by omega)

theorem decodeSwitch_congr (dec1 dec2 : ByteStr → Option (Outcome (Option Message)))
    (c : Nat) (tail rest0 : ByteStr)
    (hagree : ∀ inp : ByteStr, inp.length ≤ rest0.length → dec1 inp = dec2 inp)
    (hdec : ∀ inp v e rest, dec1 inp = some (.returns v e rest) → rest.length ≤ inp.length) :
    decodeSwitch dec1 c tail rest0 = decodeSwitch dec2 c tail rest0 := by
  have hloop := fun n => decodeLoop_congr dec1 dec2 rest0.length hagree hdec n rest0 []
    (le_refl _)
  simp only [decodeSwitch, hloop]

/-- The result of `decodeFuel` does not depend on the bound, once the bound exceeds the
length of the input. -/
theorem decodeFuel_congr : ∀ (k1 k2 : Nat) (inp : ByteStr),
    inp.length < k1 → inp.length < k2 → decodeFuel k1 inp = decodeFuel k2 inp := by
  intro k1
  induction k1 with
  | zero => intro k2 inp h; omega
  | succ a ih =>
    intro k2 inp h1 h2
    obtain ⟨b, rfl⟩ : ∃ b, k2 = b + 1 := ⟨k2 - 1, by omega⟩
    rcases hrb : ReadBytes inp with ⟨line, e, rest⟩
    cases e with
    | some e => simp only [decodeFuel, hrb]
    | none =>
      have hlt := ReadBytes_rest_lt inp line rest hrb
      simp only [decodeFuel, hrb]
      split
      · rfl
      · split
        · rfl
        · exact decodeSwitch_congr _ _ _ _ _
            (fun r hr => ih b r (by omega) (by omega)) (decodeFuel_rest_le a)

/-- The function `DecodeBufio` is `decodeFuel` at any bound that exceeds the length of the
input. -/
theorem DecodeBufio_eq_decodeFuel (fuel : Nat) (inp : ByteStr) (h : inp.length < fuel) :
    DecodeBufio inp = decodeFuel fuel inp :=
  decodeFuel_congr _ _ inp (Nat.lt_succ_self _) h

/-! ## `intLen` and the length of the decimal text -/

theorem intLenLoop_eq : ∀ (n fuel : Nat) (count : Int), n ≤ fuel →
    intLenLoop fuel (n : Int) count = count + ((formatUint n).length : Int) - 1 := by
  intro n
  induction n using Nat.strong_induction_on with
  | _ n ih =>
    intro fuel count hf
    by_cases hn : n < 10
    · have h9 : ¬ ((n : Int) > 9) := by omega
      rw [formatUint_small n hn]
      cases fuel with
      | zero => simp [intLenLoop]
      | succ f => simp [intLenLoop, h9]
    · have h9 : (n : Int) > 9 := by omega
      obtain ⟨f, rfl⟩ : ∃ f, fuel = f + 1 := ⟨fuel - 1, by omega⟩
      have hdiv : (n : Int) / 10 = ((n / 10 : Nat) : Int) := by omega
      simp only [intLenLoop, h9, if_true, hdiv]
      rw [ih (n / 10) (by omega) f (count + 1) (by omega), formatUint_step n hn]
      simp only [List.length_append, List.length_singleton, Nat.cast_add, Nat.cast_one]
      omega

/-- Away from the smallest `int64`, `intLen` is the length of the decimal text. -/
theorem intLen_eq_length (n : Int) (h1 : minInt64 < n) (h2 : n ≤ maxInt64) :
    intLen n = ((FormatInt n).length : Int) := by
  unfold minInt64 at h1
  unfold maxInt64 at h2
  unfold intLen FormatInt
  by_cases hneg : n < 0
  · have hw : wrapInt64 (-n) = ((n.natAbs : Nat) : Int) := by
      unfold wrapInt64
      omega
    simp only [hneg, if_true, hw, Int.toNat_ofNat]
    rw [intLenLoop_eq n.natAbs n.natAbs 2 (le_refl _)]
    simp only [List.length_cons, Nat.cast_add, Nat.cast_one]
    omega
  · have hw : n = ((n.natAbs : Nat) : Int) := by omega
    simp only [hneg, if_false]
    rw [hw, Int.toNat_ofNat, Int.natAbs_ofNat, intLenLoop_eq n.natAbs n.natAbs 1 (le_refl _)]
    omega

/-! ## Lemmas on `parseInt` and `parseLen` -/

theorem digitsLoop_append (xs ys : ByteStr) : ∀ (a : Int),
    digitsLoop (xs ++ ys) a =
      match digitsLoop xs a with
      | some v => digitsLoop ys v
      | none => none := by
  induction xs with
  | nil => intro a; simp [digitsLoop]
  | cons x xs ih =>
    intro a
    simp only [List.cons_append, digitsLoop]
    split
    · rfl
    · exact ih _

theorem digitsLoop_one (b : Nat) (a : Int) (h : 48 ≤ b ∧ b ≤ 57) :
    digitsLoop [b] a = some (wrapInt64 (wrapInt64 (a * 10) + ((b - 48 : Nat) : Int))) := by
  have h1 : ¬ (b < 48 ∨ b > 57) := by omega
  unfold digitsLoop
  simp only [h1, if_false]
  rfl

theorem digitsLoop_formatUint (n : Nat) (h : n ≤ 9223372036854775808) :
    digitsLoop (formatUint n) 0 = some (wrapInt64 (n : Int)) := by
  induction n using Nat.strong_induction_on with
  | _ n ih =>
    by_cases hn : n < 10
    · rw [formatUint_small n hn, digitsLoop_one _ _ (by omega)]
      have e0 : wrapInt64 (0 * 10) = 0 := by decide
      have e1 : ((48 + n - 48 : Nat) : Int) = (n : Int) := by omega
      rw [e0, e1, zero_add]
    · rw [formatUint_step n hn, digitsLoop_append, ih (n / 10) (by omega) (by omega)]
      simp only []
      rw [digitsLoop_one _ _ (by omega)]
      have e1 : wrapInt64 ((n / 10 : Nat) : Int) = ((n / 10 : Nat) : Int) :=
        wrapInt64_id _ (by unfold minInt64; omega) (by unfold maxInt64; omega)
      have e2 : wrapInt64 (((n / 10 : Nat) : Int) * 10) = ((n / 10 : Nat) : Int) * 10 :=
        wrapInt64_id _ (by unfold minInt64; omega) (by unfold maxInt64; omega)
      have e3 : ((n / 10 : Nat) : Int) * 10 + ((48 + n % 10 - 48 : Nat) : Int) = (n : Int) := by
        omega
      rw [e1, e2, e3]

theorem wrapInt64_neg_natAbs (n : Int) (h1 : minInt64 ≤ n) (hneg : n < 0) :
    wrapInt64 (-wrapInt64 ((n.natAbs : Nat) : Int)) = n := by
  unfold minInt64 at h1
  unfold wrapInt64
  omega

theorem parseInt_FormatInt (n : Int) (h1 : minInt64 ≤ n) (h2 : n ≤ maxInt64) :
    parseInt (FormatInt n) = (.int64 n, none) := by
  have h1' := h1
  have h2' := h2
  unfold minInt64 at h1
  unfold maxInt64 at h2
  unfold FormatInt
  have hb : n.natAbs ≤ 9223372036854775808 := by omega
  have hp := digitsLoop_formatUint _ hb
  have hne := formatUint_ne_nil n.natAbs
  have hdig := formatUint_digits n.natAbs
  by_cases hneg : n < 0
  · have hlen : ¬ (formatUint n.natAbs).length = 0 := by
      intro h0
      exact hne (List.length_eq_zero.1 h0)
    simp only [hneg, if_true, parseInt, decide_True, hlen, if_false, hp]
    rw [wrapInt64_neg_natAbs n h1' hneg]
  · have hw : wrapInt64 ((n.natAbs : Nat) : Int) = n := by
      have e : ((n.natAbs : Nat) : Int) = n := by omega
      rw [e]
      exact wrapInt64_id n h1' h2'
    rw [hw] at hp
    simp only [hneg, if_false]
    generalize formatUint n.natAbs = s at hne hdig hp
    match s, hne with
    | c :: cs, _ =>
      have hd : isDigit c := hdig c (by simp)
      unfold isDigit at hd
      have e1 : ¬ c = 45 := by omega
      simp only [parseInt, e1, decide_False, if_false, Bool.false_eq_true]
      rw [hp]
      simp only [List.length_cons, Nat.add_one_ne_zero, if_false]

theorem parseLen_length (k : Nat) (h : (k : Int) ≤ maxInt64) :
    parseLen (FormatInt (k : Int)) = ((k : Int), none) := by
  have hw : wrapInt64 (k : Int) = (k : Int) :=
    wrapInt64_id _ (by unfold minInt64; omega) h
  unfold maxInt64 at h
  unfold FormatInt
  have hk : ¬ ((k : Int) < 0) := by omega
  have hp := digitsLoop_formatUint k (by omega)
  rw [hw] at hp
  have hne := formatUint_ne_nil k
  have hdig := formatUint_digits k
  simp only [hk, if_false, Int.natAbs_ofNat]
  generalize formatUint k = s at hne hdig hp
  match s, hne with
  | c :: cs, _ =>
    have hd : isDigit c := hdig c (by simp)
    unfold isDigit at hd
    have e1 : ¬ (c :: cs = [45, 49]) := by
      intro he
      have := (List.cons.inj he).1
      omega
    simp only [parseLen, List.length_cons, Nat.add_one_ne_zero, if_false, e1, hp]

theorem formatUint_length_le : ∀ (k n : Nat), n < 10 ^ (k + 1) → (formatUint n).length ≤ k + 1 := by
  intro k
  induction k with
  | zero =>
    intro n h
    rw [formatUint_small n (by simpa using h)]
    simp
  | succ k ih =>
    intro n h
    by_cases hn : n < 10
    · rw [formatUint_small n hn]
      simp
    · rw [formatUint_step n hn]
      have h1 : n / 10 < 10 ^ (k + 1) := by
        apply Nat.div_lt_of_lt_mul
        rw [pow_succ] at h
        omega
      have := ih (n / 10) h1
      simp only [List.length_append, List.length_singleton]
      omega

theorem FormatInt_length_le (n : Int) (h1 : minInt64 ≤ n) (h2 : n ≤ maxInt64) :
    (FormatInt n).length ≤ 20 := by
  unfold minInt64 at h1
  unfold maxInt64 at h2
  have h := formatUint_length_le 18 n.natAbs (by norm_num; omega)
  unfold FormatInt
  split
  · simp only [List.length_cons]; omega
  · omega

/-! ## `readReply` on the wire form of a frame -/

theorem readLine_crlf (t s : ByteStr) (h : 10 ∉ t) (hlen : t.length + 2 ≤ bufSize) :
    readLine (t ++ 13 :: 10 :: s) = (t, none, s) := by
  have h1 : 10 ∉ t ++ [13] := by
    intro e
    rcases List.mem_append.1 e with e | e
    · exact h e
    · simp at e
  have hr := ReadBytes_line (t ++ [13]) s h1
  have e : t ++ 13 :: 10 :: s = (t ++ [13]) ++ 10 :: s := by simp
  have hl : (t ++ [13] ++ [10]).length ≤ bufSize := by simp; omega
  have h2 : ¬ (t ++ [13] ++ [10]).length < 2 := by simp
  have h3 : (t ++ [13] ++ [10])[(t ++ [13] ++ [10]).length - 2]? = some 13 := by
    have : (t ++ [13] ++ [10]).length - 2 = t.length := by simp
    rw [this, List.append_assoc, List.getElem?_append_right (le_refl _)]
    simp
  have h4 : (t ++ [13] ++ [10]).take ((t ++ [13] ++ [10]).length - 2) = t := by
    have : (t ++ [13] ++ [10]).length - 2 = t.length := by simp
    rw [this, List.append_assoc, List.take_left']
    rfl
  simp only [readLine, ReadSlice, e, hr, hl, if_true]
  simp only [h2, h3, ne_eq, not_true_eq_false, or_self, if_false, h4]

theorem readReplyFuel_crlf (fuel : Nat) (t s : ByteStr) (h : 10 ∉ t)
    (hlen : t.length + 2 ≤ bufSize) :
    readReplyFuel (fuel + 1) (t ++ 13 :: 10 :: s) =
      readReplySwitch (fun r => readReplyFuel fuel r) t s := by
  simp only [readReplyFuel, readLine_crlf t s h hlen]

theorem ReadFull_left (p r : ByteStr) : ReadFull (p ++ r) p.length = (p, none, r) := by
  have h : p.length ≤ (p ++ r).length := by simp
  unfold ReadFull
  rw [if_pos h, List.take_left', List.drop_left']
  all_goals rfl

theorem readReplySwitch_status (rd : ByteStr → Option (Reply × Option GoError × ByteStr))
    (text s : ByteStr) : readReplySwitch rd (43 :: text) s = some (.string text, none, s) := by
  simp only [readReplySwitch, if_true]
  split
  · next h => rw [h]
  · split
    · next h => rw [h]
    · rfl

theorem readReplySwitch_bulk (rd : ByteStr → Option (Reply × Option GoError × ByteStr))
    (p s : ByteStr) (h : (p.length : Int) ≤ maxInt64) :
    readReplySwitch rd (36 :: FormatInt (p.length : Int)) (p ++ 13 :: 10 :: s) =
      some (.bytes p, none, s) := by
  have h0 : ¬ ((p.length : Int) < 0 ∨ (none : Option GoError) ≠ none) := by
    simp
  have hl := readLine_crlf [] s (by simp) (by decide)
  simp only [List.nil_append] at hl
  simp only [readReplySwitch, parseLen_length _ h, h0, if_false, Int.toNat_ofNat,
    ReadFull_left, hl]
  simp

mutual
theorem readReplyFuel_wire : ∀ (f : Frame) (fuel : Nat) (s : ByteStr),
    f.Representable → f.ShortLines → f.depth < fuel →
    readReplyFuel fuel (f.wire ++ s) = some (f.toReply, none, s)
  | .Error text, fuel, s, hr, hs, hd => by
    obtain ⟨k, rfl⟩ : ∃ k, fuel = k + 1 := ⟨fuel - 1, by omega⟩
    simp only [Frame.Representable] at hr
    simp only [Frame.ShortLines] at hs
    have h10 : 10 ∉ 45 :: text := by simp [hr]
    have e : (Frame.Error text).wire ++ s = (45 :: text) ++ 13 :: 10 :: s := by
      simp [Frame.wire, str_crlf, show str "-" = [45] from rfl]
    rw [e, readReplyFuel_crlf k _ s h10 (by simp only [List.length_cons]; omega)]
    simp [readReplySwitch, Frame.toReply]
  | .Status text, fuel, s, hr, hs, hd => by
    obtain ⟨k, rfl⟩ : ∃ k, fuel = k + 1 := ⟨fuel - 1, by omega⟩
    simp only [Frame.Representable] at hr
    simp only [Frame.ShortLines] at hs
    have h10 : 10 ∉ 43 :: text := by simp [hr]
    have e : (Frame.Status text).wire ++ s = (43 :: text) ++ 13 :: 10 :: s := by
      simp [Frame.wire, str_crlf, show str "+" = [43] from rfl]
    rw [e, readReplyFuel_crlf k _ s h10 (by simp only [List.length_cons]; omega),
      readReplySwitch_status]
    simp [Frame.toReply]
  | .Integer n, fuel, s, hr, _, hd => by
    obtain ⟨k, rfl⟩ : ∃ k, fuel = k + 1 := ⟨fuel - 1, by omega⟩
    simp only [Frame.Representable] at hr
    have h10 : 10 ∉ 58 :: FormatInt n := by simp [FormatInt_no_lf]
    have hlen := FormatInt_length_le n hr.1 hr.2
    have e : (Frame.Integer n).wire ++ s = (58 :: FormatInt n) ++ 13 :: 10 :: s := by
      simp [Frame.wire, str_crlf, show str ":" = [58] from rfl]
    rw [e, readReplyFuel_crlf k _ s h10
      (by simp only [List.length_cons]; unfold bufSize; omega)]
    simp [readReplySwitch, Frame.toReply, parseInt_FormatInt n hr.1 hr.2]
  | .Bulk none, fuel, s, _, _, hd => by
    obtain ⟨k, rfl⟩ : ∃ k, fuel = k + 1 := ⟨fuel - 1, by omega⟩
    have e : (Frame.Bulk none).wire ++ s = [36, 45, 49] ++ 13 :: 10 :: s := by
      simp [Frame.wire, show str "$-1\r\n" = [36, 45, 49, 13, 10] from rfl]
    rw [e, readReplyFuel_crlf k _ s (by decide) (by decide)]
    have hp : parseLen [45, 49] = (-1, none) := by decide
    simp [readReplySwitch, Frame.toReply, hp]
  | .Bulk (some p), fuel, s, hr, _, hd => by
    obtain ⟨k, rfl⟩ : ∃ k, fuel = k + 1 := ⟨fuel - 1, by omega⟩
    simp only [Frame.Representable] at hr
    have hr1 : (p.length : Int) ≤ maxInt64 := by omega
    have h10 : 10 ∉ 36 :: FormatInt (p.length : Int) := by simp [FormatInt_no_lf]
    have hlen := FormatInt_length_le (p.length : Int) (by unfold minInt64; omega) hr1
    have e : (Frame.Bulk (some p)).wire ++ s =
        (36 :: FormatInt (p.length : Int)) ++ 13 :: 10 :: (p ++ 13 :: 10 :: s) := by
      simp [Frame.wire, str_crlf, show str "$" = [36] from rfl]
    rw [e, readReplyFuel_crlf k _ _ h10
      (by simp only [List.length_cons]; unfold bufSize; omega),
      readReplySwitch_bulk _ p s hr1]
    simp [Frame.toReply]
  | .Multi none, fuel, s, _, _, hd => by
    obtain ⟨k, rfl⟩ : ∃ k, fuel = k + 1 := ⟨fuel - 1, by omega⟩
    have e : (Frame.Multi none).wire ++ s = [42, 45, 49] ++ 13 :: 10 :: s := by
      simp [Frame.wire, show str "*-1\r\n" = [42, 45, 49, 13, 10] from rfl]
    rw [e, readReplyFuel_crlf k _ s (by decide) (by decide)]
    have hp : parseLen [45, 49] = (-1, none) := by decide
    simp [readReplySwitch, Frame.toReply, hp]
  | .Multi (some elems), fuel, s, hr, hs, hd => by
    obtain ⟨k, rfl⟩ : ∃ k, fuel = k + 1 := ⟨fuel - 1, by omega⟩
    simp only [Frame.Representable] at hr
    simp only [Frame.ShortLines] at hs
    simp only [Frame.depth] at hd
    have h10 : 10 ∉ 42 :: FormatInt (elems.length : Int) := by simp [FormatInt_no_lf]
    have hlen := FormatInt_length_le (elems.length : Int) (by unfold minInt64; omega) hr.1
    have e : (Frame.Multi (some elems)).wire ++ s =
        (42 :: FormatInt (elems.length : Int)) ++ 13 :: 10 :: (Frame.wireAll elems ++ s) := by
      simp [Frame.wire, str_crlf, show str "*" = [42] from rfl]
    have h0 : ¬ ((elems.length : Int) < 0 ∨ (none : Option GoError) ≠ none) := by simp
    have hloop := readReplyLoop_wire elems k s [] hr.2 hs (by omega)
    rw [e, readReplyFuel_crlf k _ _ h10
      (by simp only [List.length_cons]; unfold bufSize; omega)]
    simp only [readReplySwitch, parseLen_length _ hr.1, h0, if_false, Int.toNat_ofNat, hloop]
    simp [Frame.toReply]
theorem readReplyLoop_wire : ∀ (fs : List Frame) (fuel : Nat) (s : ByteStr) (r : List Reply),
    Frame.AllRepresentable fs → Frame.AllShortLines fs → Frame.depthAll fs < fuel →
    readReplyLoop (fun x => readReplyFuel fuel x) fs.length (Frame.wireAll fs ++ s) r =
      some (r ++ Frame.toReplies fs, none, s)
  | [], fuel, s, r, _, _, _ => by
    simp [readReplyLoop, Frame.wireAll, Frame.toReplies]
  | f :: fs, fuel, s, r, hr, hs, hd => by
    simp only [Frame.AllRepresentable] at hr
    simp only [Frame.AllShortLines] at hs
    simp only [Frame.depthAll] at hd
    have h1 := readReplyFuel_wire f fuel (Frame.wireAll fs ++ s) hr.1 hs.1 (by omega)
    have h2 := readReplyLoop_wire fs fuel s (r ++ [f.toReply]) hr.2 hs.2 (by omega)
    simp only [List.length_cons, readReplyLoop, Frame.wireAll, List.append_assoc, h1, h2,
      Frame.toReplies]
    simp
end

/-- Reading the wire form of a representable frame with short lines gives the reply of
the frame and leaves what follows it unread. -/
theorem readReply_wire (f : Frame) (s : ByteStr) (h : f.Representable) (hs : f.ShortLines) :
    readReply (f.wire ++ s) = some (f.toReply, none, s) := by
  unfold readReply
  apply readReplyFuel_wire f _ s h hs
  have := Frame.depth_lt_wire f
  simp
  omega

/-! ## `readReply` always returns: the depth bound is never reached -/

theorem ReadSlice_rest_le (inp : ByteStr) : (ReadSlice inp).2.2.length ≤ inp.length := by
  have hrb := ReadBytes_rest_le inp
  rcases h : ReadBytes inp with ⟨line, e, rest⟩
  rw [h] at hrb
  cases e with
  | none =>
    simp only [ReadSlice, h]
    split
    · exact hrb
    · simp
  | some e =>
    simp only [ReadSlice, h]
    split <;> simp

theorem ReadSlice_rest_lt (inp line rest : ByteStr) (h : ReadSlice inp = (line, none, rest)) :
    rest.length < inp.length := by
  rcases hrb : ReadBytes inp with ⟨l, e, r⟩
  cases e with
  | none =>
    have hlt := ReadBytes_rest_lt inp l r hrb
    simp only [ReadSlice, hrb] at h
    split at h
    · simp only [Prod.mk.injEq] at h
      obtain ⟨_, _, rfl⟩ := h
      exact hlt
    · simp at h
  | some e =>
    simp only [ReadSlice, hrb] at h
    split at h <;> simp at h

theorem readLine_rest_le (inp : ByteStr) : (readLine inp).2.2.length ≤ inp.length := by
  have hrs := ReadSlice_rest_le inp
  rcases h : ReadSlice inp with ⟨p, e, rest⟩
  rw [h] at hrs
  unfold readLine
  rw [h]
  split
  · next heq => simp only [Prod.mk.injEq] at heq; obtain ⟨_, _, rfl⟩ := heq; exact hrs
  · next heq => simp only [Prod.mk.injEq] at heq; obtain ⟨_, _, rfl⟩ := heq; exact hrs
  · next heq =>
    simp only [Prod.mk.injEq] at heq
    obtain ⟨_, _, rfl⟩ := heq
    split <;> exact hrs

theorem readLine_rest_lt (inp line rest : ByteStr) (h : readLine inp = (line, none, rest)) :
    rest.length < inp.length := by
  rcases hrs : ReadSlice inp with ⟨p, e, r⟩
  unfold readLine at h
  rw [hrs] at h
  split at h
  · simp at h
  · simp at h
  · next heq =>
    simp only [Prod.mk.injEq] at heq
    obtain ⟨rfl, rfl, rfl⟩ := heq
    have hlt := ReadSlice_rest_lt inp _ _ hrs
    split at h
    · simp at h
    · simp only [Prod.mk.injEq] at h
      obtain ⟨_, _, rfl⟩ := h
      exact hlt

theorem readReplyLoop_rest_le (rd : ByteStr → Option (Reply × Option GoError × ByteStr))
    (hrd : ∀ inp v e rest, rd inp = some (v, e, rest) → rest.length ≤ inp.length) :
    ∀ (n : Nat) (inp : ByteStr) (acc : List Reply) v e rest,
      readReplyLoop rd n inp acc = some (v, e, rest) → rest.length ≤ inp.length := by
  intro n
  induction n with
  | zero =>
    intro inp acc v e rest h
    simp only [readReplyLoop, Option.some.injEq, Prod.mk.injEq] at h
    obtain ⟨_, _, rfl⟩ := h
    exact le_refl _
  | succ n ih =>
    intro inp acc v e rest h
    cases hd : rd inp with
    | none => simp [readReplyLoop, hd] at h
    | some o =>
      obtain ⟨m, err, r⟩ := o
      have hr := hrd inp m err r hd
      cases err with
      | some err =>
        simp only [readReplyLoop, hd, Option.some.injEq, Prod.mk.injEq] at h
        obtain ⟨_, _, rfl⟩ := h
        exact hr
      | none =>
        simp only [readReplyLoop, hd] at h
        have := ih r _ v e rest h
        omega

theorem readReplySwitch_rest_le (rd : ByteStr → Option (Reply × Option GoError × ByteStr))
    (hrd : ∀ inp v e rest, rd inp = some (v, e, rest) → rest.length ≤ inp.length)
    (line rest0 : ByteStr) (v : Reply) (e : Option GoError) (rest : ByteStr)
    (h : readReplySwitch rd line rest0 = some (v, e, rest)) :
    rest.length ≤ rest0.length := by
  unfold readReplySwitch at h
  split at h
  · simp only [Option.some.injEq, Prod.mk.injEq] at h
    obtain ⟨_, _, rfl⟩ := h
    exact le_refl _
  split at h
  · split at h
    · simp only [Option.some.injEq, Prod.mk.injEq] at h
      obtain ⟨_, _, rfl⟩ := h
      exact le_refl _
    · split at h <;>
      · simp only [Option.some.injEq, Prod.mk.injEq] at h
        obtain ⟨_, _, rfl⟩ := h
        exact le_refl _
  split at h
  · simp only [Option.some.injEq, Prod.mk.injEq] at h
    obtain ⟨_, _, rfl⟩ := h
    exact le_refl _
  split at h
  · simp only [Option.some.injEq, Prod.mk.injEq] at h
    obtain ⟨_, _, rfl⟩ := h
    exact le_refl _
  split at h
  · split at h
    split at h
    · simp only [Option.some.injEq, Prod.mk.injEq] at h
      obtain ⟨_, _, rfl⟩ := h
      exact le_refl _
    · next n _ _ _ =>
      have hrf := ReadFull_rest_le rest0 n.toNat
      split at h
      · next heq =>
        simp only [Option.some.injEq, Prod.mk.injEq] at h
        obtain ⟨_, _, rfl⟩ := h
        rw [heq] at hrf
        exact hrf
      · next _ rest1 heq =>
        rw [heq] at hrf
        have hrl := readLine_rest_le rest1
        split at h
        · next heq2 =>
          simp only [Option.some.injEq, Prod.mk.injEq] at h
          obtain ⟨_, _, rfl⟩ := h
          rw [heq2] at hrl
          simp only at hrf hrl
          omega
        · next heq2 =>
          rw [heq2] at hrl
          simp only at hrf hrl
          split at h <;>
          · simp only [Option.some.injEq, Prod.mk.injEq] at h
            obtain ⟨_, _, rfl⟩ := h
            omega
  split at h
  · split at h
    split at h
    · simp only [Option.some.injEq, Prod.mk.injEq] at h
      obtain ⟨_, _, rfl⟩ := h
      exact le_refl _
    · split at h
      · simp at h
      · next heq =>
        simp only [Option.some.injEq, Prod.mk.injEq] at h
        obtain ⟨_, _, rfl⟩ := h
        exact readReplyLoop_rest_le rd hrd _ _ _ _ _ _ heq
      · next heq =>
        simp only [Option.some.injEq, Prod.mk.injEq] at h
        obtain ⟨_, _, rfl⟩ := h
        exact readReplyLoop_rest_le rd hrd _ _ _ _ _ _ heq
  · simp only [Option.some.injEq, Prod.mk.injEq] at h
    obtain ⟨_, _, rfl⟩ := h
    exact le_refl _

theorem readReplyFuel_rest_le : ∀ (fuel : Nat) (inp : ByteStr) v e rest,
    readReplyFuel fuel inp = some (v, e, rest) → rest.length ≤ inp.length := by
  intro fuel
  induction fuel with
  | zero => intro inp v e rest h; simp [readReplyFuel] at h
  | succ k ih =>
    intro inp v e rest h
    have hrl := readLine_rest_le inp
    unfold readReplyFuel at h
    split at h
    · next heq =>
      simp only [Option.some.injEq, Prod.mk.injEq] at h
      obtain ⟨_, _, rfl⟩ := h
      rw [heq] at hrl
      exact hrl
    · next heq =>
      rw [heq] at hrl
      have := readReplySwitch_rest_le (fun r => readReplyFuel k r) ih _ _ _ _ _ h
      simp only at hrl
      omega

theorem readReplyLoop_ne_none (rd : ByteStr → Option (Reply × Option GoError × ByteStr))
    (k : Nat)
    (hrd : ∀ inp v e rest, rd inp = some (v, e, rest) → rest.length ≤ inp.length)
    (hsome : ∀ inp : ByteStr, inp.length < k → rd inp ≠ none) :
    ∀ (n : Nat) (inp : ByteStr) (acc : List Reply),
      inp.length < k → readReplyLoop rd n inp acc ≠ none := by
  intro n
  induction n with
  | zero => intro inp acc _; simp [readReplyLoop]
  | succ n ih =>
    intro inp acc hlen
    cases hd : rd inp with
    | none => exact absurd hd (hsome inp hlen)
    | some o =>
      obtain ⟨m, err, r⟩ := o
      have hr := hrd inp m err r hd
      cases err with
      | some err => simp [readReplyLoop, hd]
      | none =>
        simp only [readReplyLoop, hd]
        exact ih r _ (by omega)

theorem readReplySwitch_ne_none (rd : ByteStr → Option (Reply × Option GoError × ByteStr))
    (k : Nat)
    (hrd : ∀ inp v e rest, rd inp = some (v, e, rest) → rest.length ≤ inp.length)
    (hsome : ∀ inp : ByteStr, inp.length < k → rd inp ≠ none)
    (line rest0 : ByteStr) (hlen : rest0.length < k) :
    readReplySwitch rd line rest0 ≠ none := by
  unfold readReplySwitch
  split
  · simp
  split
  · split
    · simp
    · split <;> simp
  split
  · simp
  split
  · simp
  split
  · split
    split
    · simp
    · split
      · simp
      · split
        · simp
        · split <;> simp
  split
  · split
    split
    · simp
    · have hloop := fun n => readReplyLoop_ne_none rd k hrd hsome n rest0 [] hlen
      split
      · next heq => exact absurd heq (hloop _)
      · simp
      · simp
  · simp

theorem readReplyFuel_ne_none : ∀ (fuel : Nat) (inp : ByteStr),
    inp.length < fuel → readReplyFuel fuel inp ≠ none := by
  intro fuel
  induction fuel with
  | zero => intro inp h; omega
  | succ k ih =>
    intro inp hlen
    unfold readReplyFuel
    split
    · simp
    · next heq =>
      have hlt := readLine_rest_lt inp _ _ heq
      exact readReplySwitch_ne_none (fun r => readReplyFuel k r) k (readReplyFuel_rest_le k) ih
        _ _ (by omega)

/-- The depth bound of `readReply` is never reached: on every input it returns. -/
theorem readReply_ne_none (inp : ByteStr) : readReply inp ≠ none :=
  readReplyFuel_ne_none _ inp (Nat.lt_succ_self _)

theorem readReplyLoop_congr (rd1 rd2 : ByteStr → Option (Reply × Option GoError × ByteStr))
    (b : Nat)
    (hagree : ∀ inp : ByteStr, inp.length ≤ b → rd1 inp = rd2 inp)
    (hrd : ∀ inp v e rest, rd1 inp = some (v, e, rest) → rest.length ≤ inp.length) :
    ∀ (n : Nat) (inp : ByteStr) (acc : List Reply), inp.length ≤ b →
      readReplyLoop rd1 n inp acc = readReplyLoop rd2 n inp acc := by
  intro n
  induction n with
  | zero => intro inp acc _; simp [readReplyLoop]
  | succ n ih =>
    intro inp acc hlen
    have h12 := hagree inp hlen
    cases hd : rd1 inp with
    | none => rw [hd] at h12; simp [readReplyLoop, hd, ← h12]
    | some o =>
      rw [hd] at h12
      obtain ⟨m, err, r⟩ := o
      have hr := hrd inp m err r hd
      cases err with
      | some err => simp [readReplyLoop, hd, ← h12]
      | none =>
        simp only [readReplyLoop, hd, ← h12]
        exact ih r _ (by omega)

theorem readReplySwitch_congr (rd1 rd2 : ByteStr → Option (Reply × Option GoError × ByteStr))
    (line rest0 : ByteStr)
    (hagree : ∀ inp : ByteStr, inp.length ≤ rest0.length → rd1 inp = rd2 inp)
    (hrd : ∀ inp v e rest, rd1 inp = some (v, e, rest) → rest.length ≤ inp.length) :
    readReplySwitch rd1 line rest0 = readReplySwitch rd2 line rest0 := by
  have hloop := fun n => readReplyLoop_congr rd1 rd2 rest0.length hagree hrd n rest0 []
    (le_refl _)
  simp only [readReplySwitch, hloop]

/-- The result of `readReplyFuel` does not depend on the bound, once the bound exceeds
the length of the input. -/
theorem readReplyFuel_congr : ∀ (k1 k2 : Nat) (inp : ByteStr),
    inp.length < k1 → inp.length < k2 → readReplyFuel k1 inp = readReplyFuel k2 inp := by
  intro k1
  induction k1 with
  | zero => intro k2 inp h; omega
  | succ a ih =>
    intro k2 inp h1 h2
    obtain ⟨b, rfl⟩ : ∃ b, k2 = b + 1 := ⟨k2 - 1, by omega⟩
    rcases hrl : readLine inp with ⟨line, e, rest⟩
    cases e with
    | some e => simp only [readReplyFuel, hrl]
    | none =>
      have hlt := readLine_rest_lt inp line rest hrl
      simp only [readReplyFuel, hrl]
      exact readReplySwitch_congr _ _ _ _
        (fun r hr => ih b r (by omega) (by omega)) (readReplyFuel_rest_le a)


/-! ## The reader of a connection on an open stream

While the stream is open, the methods of the connection's reader return what the
functions on the unread bytes return, however the reads of the stream deliver them. -/

theorem Stream.Read_eof (s : Stream) (space : Nat) (ho : s.closes = 0) (hi : s.input = []) :
    s.Read space = ([], some .EOF, s) := by
  simp [Stream.Read, ho, hi]

theorem Stream.Read_open (s : Stream) (space : Nat) (ho : s.closes = 0) (hi : s.input ≠ [])
    (hs : 1 ≤ space) :
    ∃ data s1, s.Read space = (data, none, s1) ∧ data ≠ [] ∧ data.length ≤ space
      ∧ data ++ s1.input = s.input ∧ s1.sent = s.sent ∧ s1.writeErr = s.writeErr
      ∧ s1.closeErr = s.closeErr ∧ s1.closes = s.closes := by
  have hl : ¬ s.input.length = 0 := fun h => hi (List.length_eq_zero.mp h)
  have hpos : 0 < s.input.length := Nat.pos_of_ne_zero hl
  cases hr : s.reads with
  | nil =>
    refine ⟨s.input.take space, { s with input := s.input.drop space }, ?_, ?_, ?_, ?_,
      rfl, rfl, rfl, rfl⟩
    · simp [Stream.Read, ho, hl, hr]
    · intro h
      have := congrArg List.length h
      rw [List.length_take, List.length_nil] at this
      omega
    · rw [List.length_take]; omega
    · simp
  | cons n ns =>
    refine ⟨s.input.take (min space (max n 1)),
      { s with input := s.input.drop (min space (max n 1)), reads := ns }, ?_, ?_, ?_, ?_,
      rfl, rfl, rfl, rfl⟩
    · simp [Stream.Read, ho, hl, hr]
    · intro h
      have := congrArg List.length h
      rw [List.length_take, List.length_nil] at this
      omega
    · rw [List.length_take]; omega
    · simp

theorem ReadBytes_mem : ∀ (buf t : ByteStr), 10 ∈ buf →
    ReadBytes (buf ++ t) = ((ReadBytes buf).1, none, (ReadBytes buf).2.2 ++ t)
    ∧ (ReadBytes buf).1 ++ (ReadBytes buf).2.2 = buf := by
  intro buf
  induction buf with
  | nil => intro t h; cases h
  | cons b bs ih =>
    intro t h
    by_cases hb : b = 10
    · subst hb
      simp [ReadBytes]
    · have hm : 10 ∈ bs := by
        rcases List.mem_cons.mp h with h1 | h1
        · exact absurd h1.symm hb
        · exact h1
      obtain ⟨e1, e2⟩ := ih t hm
      simp [ReadBytes, hb, e1, e2]

theorem ReadBytes_not_mem : ∀ (buf t : ByteStr), 10 ∉ buf →
    ReadBytes (buf ++ t) = (buf ++ (ReadBytes t).1, (ReadBytes t).2.1, (ReadBytes t).2.2) := by
  intro buf
  induction buf with
  | nil => intro t _; rfl
  | cons b bs ih =>
    intro t h
    have hb : ¬ b = 10 := fun e => h (by simp [e])
    have hm : 10 ∉ bs := fun e => h (by simp [e])
    simp [ReadBytes, hb, ih t hm]

theorem ReadBytes_found_ne_nil : ∀ (t : ByteStr), (ReadBytes t).2.1 = none →
    (ReadBytes t).1 ≠ [] := by
  intro t
  cases t with
  | nil => intro h; simp [ReadBytes] at h
  | cons b bs =>
    intro _
    by_cases hb : b = 10 <;> simp [ReadBytes, hb]

theorem ReadSlice_in_buffer (buf t : ByteStr) (h : 10 ∈ buf) (hl : buf.length ≤ bufSize) :
    ReadSlice (buf ++ t) = ((ReadBytes buf).1, none, (ReadBytes buf).2.2 ++ t) := by
  obtain ⟨e1, e2⟩ := ReadBytes_mem buf t h
  have : (ReadBytes buf).1.length ≤ bufSize := by
    have := congrArg List.length e2
    simp at this
    omega
  simp [ReadSlice, e1, this]

theorem ReadSlice_full (buf t : ByteStr) (h : 10 ∉ buf) (hl : buf.length = bufSize) :
    ReadSlice (buf ++ t) = (buf, some .ErrBufferFull, t) := by
  have ht : (buf ++ t).take bufSize = buf := by rw [← hl]; simp
  have hd : (buf ++ t).drop bufSize = t := by rw [← hl]; simp
  unfold ReadSlice
  rw [ReadBytes_not_mem buf t h]
  cases he : (ReadBytes t).2.1 with
  | none =>
    have hne := ReadBytes_found_ne_nil t he
    have hpos : 0 < (ReadBytes t).1.length := List.length_pos.mpr hne
    have : ¬ (buf ++ (ReadBytes t).1).length ≤ bufSize := by
      simp
      omega
    simp only [this, if_false, ht, hd]
  | some e =>
    have : (buf ++ t).length ≥ bufSize := by simp; omega
    simp only [this, if_true, ht, hd]

theorem ReadSlice_eof (buf : ByteStr) (h : 10 ∉ buf) (hl : buf.length < bufSize) :
    ReadSlice buf = (buf, some .EOF, []) := by
  have e := ReadBytes_not_mem buf [] h
  simp only [List.append_nil, ReadBytes] at e
  have : ¬ buf.length ≥ bufSize := by omega
  simp [ReadSlice, e, this]

theorem brReadSliceLoop_open : ∀ (fuel : Nat) (buf : ByteStr) (s : Stream),
    s.closes = 0 → buf.length ≤ bufSize → s.input.length < fuel →
    ∃ buf1 s1, brReadSliceLoop fuel buf s =
        some ((ReadSlice (buf ++ s.input)).1, (ReadSlice (buf ++ s.input)).2.1, buf1, s1)
      ∧ s.ReadTo buf1 s1 (ReadSlice (buf ++ s.input)).2.2 := by
  intro fuel
  induction fuel with
  | zero => intro buf s _ _ h; omega
  | succ fuel ih =>
    intro buf s ho hb hf
    rw [brReadSliceLoop]
    by_cases hm : 10 ∈ buf
    · rw [if_pos hm, ReadSlice_in_buffer buf s.input hm hb]
      obtain ⟨_, e2⟩ := ReadBytes_mem buf s.input hm
      refine ⟨_, _, rfl, rfl, ?_, rfl, rfl, rfl, rfl⟩
      have := congrArg List.length e2
      simp at this
      omega
    · rw [if_neg hm]
      by_cases hfull : buf.length ≥ bufSize
      · rw [if_pos hfull, ReadSlice_full buf s.input hm (by omega)]
        exact ⟨_, _, rfl, by simp, by simp, rfl, rfl, rfl, rfl⟩
      · rw [if_neg hfull]
        by_cases hi : s.input = []
        · rw [Stream.Read_eof s _ ho hi, hi, List.append_nil,
            ReadSlice_eof buf hm (by omega)]
          exact ⟨_, _, rfl, by simp [hi], by simp, rfl, rfl, rfl, rfl⟩
        · obtain ⟨data, s1, hr, hne, hlen, hcat, k1, k2, k3, k4⟩ :=
            Stream.Read_open s (bufSize - buf.length) ho hi (by omega)
          rw [hr]
          have hpos : 0 < data.length := List.length_pos.mpr hne
          have hlt : s1.input.length < fuel := by
            have := congrArg List.length hcat
            simp at this
            omega
          obtain ⟨buf1, s2, e, r1, r2, r3, r4, r5, r6⟩ :=
            ih (buf ++ data) s1 (by rw [k4]; exact ho) (by simp; omega) hlt
          have hcat2 : buf ++ data ++ s1.input = buf ++ s.input := by
            rw [List.append_assoc, hcat]
          rw [hcat2] at e r1
          exact ⟨buf1, s2, e, r1, r2, r3.trans k1, r4.trans k2, r5.trans k3, r6.trans k4⟩

theorem brReadSlice_open (buf : ByteStr) (s : Stream) (ho : s.closes = 0)
    (hb : buf.length ≤ bufSize) :
    ∃ buf1 s1, brReadSlice buf s =
        some ((ReadSlice (buf ++ s.input)).1, (ReadSlice (buf ++ s.input)).2.1, buf1, s1)
      ∧ s.ReadTo buf1 s1 (ReadSlice (buf ++ s.input)).2.2 :=
  brReadSliceLoop_open _ buf s ho hb (Nat.lt_succ_self _)

theorem connReadLine_open (buf : ByteStr) (s : Stream) (ho : s.closes = 0)
    (hb : buf.length ≤ bufSize) :
    ∃ buf1 s1, connReadLine buf s =
        some ((readLine (buf ++ s.input)).1, (readLine (buf ++ s.input)).2.1, buf1, s1)
      ∧ s.ReadTo buf1 s1 (readLine (buf ++ s.input)).2.2 := by
  obtain ⟨buf1, s1, e, r⟩ := brReadSlice_open buf s ho hb
  refine ⟨buf1, s1, ?_, ?_⟩
  · unfold connReadLine readLine
    rw [e]
    rcases hrs : ReadSlice (buf ++ s.input) with ⟨p, err, rest⟩
    cases err with
    | none =>
      simp only
      split <;> rfl
    | some er => cases er <;> rfl
  · unfold readLine
    rcases hrs : ReadSlice (buf ++ s.input) with ⟨p, err, rest⟩
    rw [hrs] at r
    cases err with
    | none =>
      simp only
      split <;> exact r
    | some er => cases er <;> exact r

theorem brRead_open (buf : ByteStr) (s : Stream) (n : Nat) (ho : s.closes = 0)
    (hb : buf.length ≤ bufSize) (hn : 1 ≤ n) :
    (∃ d buf1 s1, brRead buf s n = (d, none, buf1, s1) ∧ d ≠ [] ∧ d.length ≤ n
      ∧ d ++ (buf1 ++ s1.input) = buf ++ s.input ∧ buf1.length ≤ bufSize
      ∧ s1.sent = s.sent ∧ s1.writeErr = s.writeErr ∧ s1.closeErr = s.closeErr
      ∧ s1.closes = s.closes)
    ∨ (brRead buf s n = ([], some .EOF, [], s) ∧ buf = [] ∧ s.input = []) := by
  unfold brRead
  by_cases hl : buf.length = 0
  · have hbuf : buf = [] := List.length_eq_zero.mp hl
    subst hbuf
    simp only [List.length_nil, if_true, List.nil_append]
    by_cases hi : s.input = []
    · right
      by_cases hbig : n ≥ bufSize <;> simp [hbig, Stream.Read_eof s _ ho hi, hi]
    · left
      by_cases hbig : n ≥ bufSize
      · obtain ⟨data, s1, hr, hne, hlen, hcat, k1, k2, k3, k4⟩ :=
          Stream.Read_open s n ho hi hn
        simp only [hbig, if_true, hr]
        exact ⟨data, [], s1, rfl, hne, hlen, by simpa using hcat, by simp, k1, k2, k3, k4⟩
      · obtain ⟨data, s1, hr, hne, hlen, hcat, k1, k2, k3, k4⟩ :=
          Stream.Read_open s bufSize ho hi (by decide)
        simp only [hbig, if_false, hr]
        have hpos : 0 < data.length := List.length_pos.mpr hne
        refine ⟨data.take n, data.drop n, s1, rfl, ?_, ?_, ?_, ?_, k1, k2, k3, k4⟩
        · intro h
          have := congrArg List.length h
          rw [List.length_take, List.length_nil] at this
          omega
        · rw [List.length_take]; omega
        · rw [← List.append_assoc, List.take_append_drop, hcat]
        · rw [List.length_drop]; omega
  · left
    simp only [hl, if_false]
    have hpos : 0 < buf.length := Nat.pos_of_ne_zero hl
    refine ⟨buf.take n, buf.drop n, s, rfl, ?_, ?_, ?_, ?_, rfl, rfl, rfl, rfl⟩
    · intro h
      have := congrArg List.length h
      rw [List.length_take, List.length_nil] at this
      omega
    · rw [List.length_take]; omega
    · rw [← List.append_assoc, List.take_append_drop]
    · rw [List.length_drop]; omega

theorem brReadFullLoop_open (n : Nat) : ∀ (fuel : Nat) (got buf : ByteStr) (s : Stream),
    s.closes = 0 → buf.length ≤ bufSize → got.length ≤ n → n - got.length < fuel →
    ∃ buf1 s1, brReadFullLoop fuel got n buf s =
        some ((ReadFull (got ++ (buf ++ s.input)) n).1,
          (ReadFull (got ++ (buf ++ s.input)) n).2.1, buf1, s1)
      ∧ s.ReadTo buf1 s1 (ReadFull (got ++ (buf ++ s.input)) n).2.2 := by
  intro fuel
  induction fuel with
  | zero => intro got buf s _ _ _ h; omega
  | succ fuel ih =>
    intro got buf s ho hb hg hf
    rw [brReadFullLoop]
    by_cases hlt : got.length < n
    · rw [if_pos hlt]
      rcases brRead_open buf s (n - got.length) ho hb (by omega) with
        ⟨d, buf1, s1, hr, hne, hlen, hcat, hb1, k1, k2, k3, k4⟩ | ⟨hr, hbuf, hi⟩
      · rw [hr]
        simp only
        have hpos : 0 < d.length := List.length_pos.mpr hne
        obtain ⟨buf2, s2, e, r1, r2, r3, r4, r5, r6⟩ :=
          ih (got ++ d) buf1 s1 (by rw [k4]; exact ho) hb1
            (by rw [List.length_append]; omega) (by rw [List.length_append]; omega)
        have hcat2 : got ++ d ++ (buf1 ++ s1.input) = got ++ (buf ++ s.input) := by
          rw [List.append_assoc, hcat]
        rw [hcat2] at e r1
        exact ⟨buf2, s2, e, r1, r2, r3.trans k1, r4.trans k2, r5.trans k3, r6.trans k4⟩
      · rw [hr, hbuf, hi]
        simp only [List.append_nil]
        have h1 : ¬ got.length ≥ n := by omega
        have h2 : ¬ n ≤ got.length := by omega
        have hn0 : ¬ n = 0 := by omega
        refine ⟨[], s, ?_, ?_⟩
        · by_cases hge : got = []
          · subst hge
            simp [ReadFull, hn0]
          · have hpos : 0 < got.length := List.length_pos.mpr hge
            simp [ReadFull, h1, h2, hge, hpos]
        · by_cases hge : got = []
          · subst hge
            simp [ReadFull, hn0, Stream.ReadTo, hi]
          · simp [ReadFull, h2, hge, Stream.ReadTo, hi]
    · rw [if_neg hlt]
      have hn : n = got.length := by omega
      rw [hn, ReadFull_left]
      exact ⟨buf, s, rfl, rfl, hb, rfl, rfl, rfl, rfl⟩

theorem brReadFull_open (buf : ByteStr) (s : Stream) (n : Nat) (ho : s.closes = 0)
    (hb : buf.length ≤ bufSize) :
    ∃ buf1 s1, brReadFull buf s n =
        some ((ReadFull (buf ++ s.input) n).1, (ReadFull (buf ++ s.input) n).2.1, buf1, s1)
      ∧ s.ReadTo buf1 s1 (ReadFull (buf ++ s.input) n).2.2 := by
  have := brReadFullLoop_open n (n + 1) [] buf s ho hb (by simp) (by simp)
  simpa [brReadFull] using this

theorem Stream.ReadTo.same (s : Stream) (buf : ByteStr) (hb : buf.length ≤ bufSize) :
    s.ReadTo buf s (buf ++ s.input) :=
  ⟨rfl, hb, rfl, rfl, rfl, rfl⟩

theorem Stream.ReadTo.after {s s1 s2 : Stream} {buf1 buf2 rest1 rest2 : ByteStr}
    (h1 : s.ReadTo buf1 s1 rest1) (h2 : s1.ReadTo buf2 s2 rest2) : s.ReadTo buf2 s2 rest2 :=
  ⟨h2.1, h2.2.1, h2.2.2.1.trans h1.2.2.1, h2.2.2.2.1.trans h1.2.2.2.1,
    h2.2.2.2.2.1.trans h1.2.2.2.2.1, h2.2.2.2.2.2.trans h1.2.2.2.2.2⟩

theorem Stream.ReadTo.open {s s1 : Stream} {buf1 rest1 : ByteStr}
    (h1 : s.ReadTo buf1 s1 rest1) (ho : s.closes = 0) : s1.closes = 0 := by
  rw [h1.2.2.2.2.2]; exact ho

theorem connReadReplyLoop_open
    (rdc : ByteStr → Stream → Option (Reply × Option GoError × ByteStr × Stream))
    (rd : ByteStr → Option (Reply × Option GoError × ByteStr))
    (hrd : ∀ buf s r e rest, s.closes = 0 → buf.length ≤ bufSize →
      rd (buf ++ s.input) = some (r, e, rest) →
      ∃ buf1 s1, rdc buf s = some (r, e, buf1, s1) ∧ s.ReadTo buf1 s1 rest) :
    ∀ (k : Nat) (buf : ByteStr) (s : Stream) (acc rs : List Reply) (e : Option GoError)
      (rest : ByteStr), s.closes = 0 → buf.length ≤ bufSize →
      readReplyLoop rd k (buf ++ s.input) acc = some (rs, e, rest) →
      ∃ buf1 s1, connReadReplyLoop rdc k buf s acc = some (rs, e, buf1, s1)
        ∧ s.ReadTo buf1 s1 rest := by
  intro k
  induction k with
  | zero =>
    intro buf s acc rs e rest _ hb h
    simp only [readReplyLoop, Option.some.injEq, Prod.mk.injEq] at h
    obtain ⟨rfl, rfl, rfl⟩ := h
    exact ⟨buf, s, rfl, Stream.ReadTo.same s buf hb⟩
  | succ k ih =>
    intro buf s acc rs e rest ho hb h
    rw [readReplyLoop] at h
    rw [connReadReplyLoop]
    cases hr : rd (buf ++ s.input) with
    | none => rw [hr] at h; simp at h
    | some x =>
      obtain ⟨v, err, rest0⟩ := x
      obtain ⟨buf1, s1, e1, t1⟩ := hrd buf s v err rest0 ho hb hr
      rw [hr] at h
      rw [e1]
      cases err with
      | some er =>
        simp only [Option.some.injEq, Prod.mk.injEq] at h
        obtain ⟨rfl, rfl, rfl⟩ := h
        exact ⟨buf1, s1, rfl, t1⟩
      | none =>
        simp only at h ⊢
        rw [← t1.1] at h
        obtain ⟨buf2, s2, e2, t2⟩ := ih buf1 s1 _ rs e rest (t1.open ho) t1.2.1 h
        exact ⟨buf2, s2, e2, t1.after t2⟩

theorem connReadReplySwitch_open
    (rdc : ByteStr → Stream → Option (Reply × Option GoError × ByteStr × Stream))
    (rd : ByteStr → Option (Reply × Option GoError × ByteStr))
    (hrd : ∀ buf s r e rest, s.closes = 0 → buf.length ≤ bufSize →
      rd (buf ++ s.input) = some (r, e, rest) →
      ∃ buf1 s1, rdc buf s = some (r, e, buf1, s1) ∧ s.ReadTo buf1 s1 rest)
    (line buf : ByteStr) (s : Stream) (r : Reply) (e : Option GoError) (rest : ByteStr)
    (ho : s.closes = 0) (hb : buf.length ≤ bufSize)
    (h : readReplySwitch rd line (buf ++ s.input) = some (r, e, rest)) :
    ∃ buf1 s1, connReadReplySwitch rdc line buf s = some (r, e, buf1, s1)
      ∧ s.ReadTo buf1 s1 rest := by
  have same := Stream.ReadTo.same s buf hb
  unfold readReplySwitch at h
  unfold connReadReplySwitch
  cases line with
  | nil =>
    simp only [Option.some.injEq, Prod.mk.injEq] at h
    obtain ⟨rfl, rfl, rfl⟩ := h
    exact ⟨buf, s, rfl, same⟩
  | cons c tail =>
    simp only at h ⊢
    by_cases h43 : c = 43
    · simp only [h43, if_true] at h ⊢
      by_cases hok : tail = str "OK"
      · simp only [hok, if_true, Option.some.injEq, Prod.mk.injEq] at h ⊢
        obtain ⟨rfl, rfl, rfl⟩ := h
        exact ⟨buf, s, ⟨rfl, rfl, rfl, rfl⟩, same⟩
      · by_cases hpong : tail = str "PONG"
        · subst hpong
          have hne : ¬ str "PONG" = str "OK" := by decide
          simp only [hne, if_true, if_false, Option.some.injEq, Prod.mk.injEq] at h ⊢
          obtain ⟨rfl, rfl, rfl⟩ := h
          exact ⟨buf, s, by simp, same⟩
        · simp only [hok, hpong, if_false, Option.some.injEq, Prod.mk.injEq] at h ⊢
          obtain ⟨rfl, rfl, rfl⟩ := h
          exact ⟨buf, s, by simp, same⟩
    · by_cases h45 : c = 45
      · simp only [h43, if_false] at h ⊢
        simp only [h45, if_true, Option.some.injEq, Prod.mk.injEq] at h ⊢
        obtain ⟨rfl, rfl, rfl⟩ := h
        exact ⟨buf, s, by simp, same⟩
      · by_cases h58 : c = 58
        · simp only [h43, h45, if_false] at h ⊢
          simp only [h58, if_true, Option.some.injEq, Prod.mk.injEq] at h ⊢
          obtain ⟨rfl, rfl, rfl⟩ := h
          exact ⟨buf, s, by simp, same⟩
        · by_cases h36 : c = 36
          · simp only [h43, h45, h58, if_false] at h ⊢
            simp only [h36, if_true] at h ⊢
            rcases hp : parseLen tail with ⟨n, err⟩
            rw [hp] at h
            simp only at h ⊢
            by_cases hneg : n < 0 ∨ err ≠ none
            · simp only [hneg, if_true, Option.some.injEq, Prod.mk.injEq] at h ⊢
              obtain ⟨rfl, rfl, rfl⟩ := h
              exact ⟨buf, s, by simp, same⟩
            · simp only [hneg, if_false] at h ⊢
              obtain ⟨buf1, s1, e1, t1⟩ := brReadFull_open buf s n.toNat ho hb
              rw [e1]
              rcases hrf : ReadFull (buf ++ s.input) n.toNat with ⟨p, er, rest1⟩
              rw [hrf] at h t1
              simp only at h t1 ⊢
              cases er with
              | some er1 =>
                simp only [Option.some.injEq, Prod.mk.injEq] at h
                obtain ⟨rfl, rfl, rfl⟩ := h
                exact ⟨buf1, s1, rfl, t1⟩
              | none =>
                simp only at h ⊢
                obtain ⟨buf2, s2, e2, t2⟩ := connReadLine_open buf1 s1 (t1.open ho) t1.2.1
                rw [e2, t1.1]
                rw [t1.1] at t2
                rcases hrl : readLine rest1 with ⟨l2, er2, rest2⟩
                rw [hrl] at h t2
                simp only at h t2 ⊢
                cases er2 with
                | some er3 =>
                  simp only [Option.some.injEq, Prod.mk.injEq] at h
                  obtain ⟨rfl, rfl, rfl⟩ := h
                  exact ⟨buf2, s2, rfl, t1.after t2⟩
                | none =>
                  simp only at h ⊢
                  by_cases hl2 : l2.length = 0
                  · rw [if_neg (not_not.mpr hl2)] at h ⊢
                    simp only [Option.some.injEq, Prod.mk.injEq] at h
                    obtain ⟨rfl, rfl, rfl⟩ := h
                    exact ⟨buf2, s2, rfl, t1.after t2⟩
                  · rw [if_pos hl2] at h ⊢
                    simp only [Option.some.injEq, Prod.mk.injEq] at h
                    obtain ⟨rfl, rfl, rfl⟩ := h
                    exact ⟨buf2, s2, rfl, t1.after t2⟩
          · by_cases h42 : c = 42
            · simp only [h43, h45, h58, h36, if_false] at h ⊢
              simp only [h42, if_true] at h ⊢
              rcases hp : parseLen tail with ⟨n, err⟩
              rw [hp] at h
              simp only at h ⊢
              by_cases hneg : n < 0 ∨ err ≠ none
              · simp only [hneg, if_true, Option.some.injEq, Prod.mk.injEq] at h ⊢
                obtain ⟨rfl, rfl, rfl⟩ := h
                exact ⟨buf, s, by simp, same⟩
              · simp only [hneg, if_false] at h ⊢
                cases hl : readReplyLoop rd n.toNat (buf ++ s.input) [] with
                | none => rw [hl] at h; simp at h
                | some x =>
                  obtain ⟨rs, er, rest1⟩ := x
                  obtain ⟨buf1, s1, e1, t1⟩ :=
                    connReadReplyLoop_open rdc rd hrd n.toNat buf s [] rs er rest1 ho hb hl
                  rw [hl] at h
                  rw [e1]
                  cases er with
                  | some er1 =>
                    simp only [Option.some.injEq, Prod.mk.injEq] at h
                    obtain ⟨rfl, rfl, rfl⟩ := h
                    exact ⟨buf1, s1, rfl, t1⟩
                  | none =>
                    simp only [Option.some.injEq, Prod.mk.injEq] at h
                    obtain ⟨rfl, rfl, rfl⟩ := h
                    exact ⟨buf1, s1, rfl, t1⟩
            · simp only [h43, h45, h58, h36, h42, if_false, Option.some.injEq,
                Prod.mk.injEq] at h ⊢
              obtain ⟨rfl, rfl, rfl⟩ := h
              exact ⟨buf, s, by simp, same⟩

theorem connReadReplyFuel_open : ∀ (fuel : Nat) (buf : ByteStr) (s : Stream) (r : Reply)
    (e : Option GoError) (rest : ByteStr), s.closes = 0 → buf.length ≤ bufSize →
    readReplyFuel fuel (buf ++ s.input) = some (r, e, rest) →
    ∃ buf1 s1, connReadReplyFuel fuel buf s = some (r, e, buf1, s1) ∧ s.ReadTo buf1 s1 rest := by
  intro fuel
  induction fuel with
  | zero => intro buf s r e rest _ _ h; simp [readReplyFuel] at h
  | succ fuel ih =>
    intro buf s r e rest ho hb h
    rw [readReplyFuel] at h
    rw [connReadReplyFuel]
    obtain ⟨buf1, s1, e1, t1⟩ := connReadLine_open buf s ho hb
    rw [e1]
    rcases hrl : readLine (buf ++ s.input) with ⟨line, er, rest1⟩
    rw [hrl] at h t1
    simp only at h t1 ⊢
    cases er with
    | some er1 =>
      simp only [Option.some.injEq, Prod.mk.injEq] at h
      obtain ⟨rfl, rfl, rfl⟩ := h
      exact ⟨buf1, s1, rfl, t1⟩
    | none =>
      simp only at h ⊢
      rw [← t1.1] at h
      obtain ⟨buf2, s2, e2, t2⟩ := connReadReplySwitch_open
        (fun b t => connReadReplyFuel fuel b t) (fun x => readReplyFuel fuel x)
        (fun b t r e rest ho hb h => ih b t r e rest ho hb h)
        line buf1 s1 r e rest (t1.open ho) t1.2.1 h
      exact ⟨buf2, s2, e2, t1.after t2⟩

/-- While its stream is open, the method `readReply()` of a connection returns the reply
and the error that `readReply` on the unread bytes returns, and leaves unread what that
leaves unread; nothing but the buffer of the reader and the input and the schedule of the
stream has changed. -/
theorem Conn.readReply_open (c : Conn) (ho : c.conn.closes = 0)
    (hb : c.brBuf.length ≤ bufSize) :
    ∃ r e rest c1, Resp.readReply c.unread = some (r, e, rest)
      ∧ c.readReply = some (r, e, c1) ∧ c.Took c1 rest ∧ c1.pending = c.pending := by
  cases hr : Resp.readReply c.unread with
  | none => exact absurd hr (readReply_ne_none _)
  | some x =>
    obtain ⟨r, e, rest⟩ := x
    have hr2 : readReplyFuel (c.unread.length + 1) (c.brBuf ++ c.conn.input)
        = some (r, e, rest) := hr
    obtain ⟨buf1, s1, e1, t1, t2, t3, t4, t5, t6⟩ :=
      connReadReplyFuel_open _ c.brBuf c.conn r e rest ho hb hr2
    refine ⟨r, e, rest, { c with brBuf := buf1, conn := s1 }, rfl, ?_,
      ⟨t1, t2, t6, t3, t4, t5, rfl, rfl, rfl⟩, rfl⟩
    simp only [Conn.readReply, e1]

/-! ## The reader of a connection on a closed stream

Once the stream is closed, the methods of the connection's reader return what the buffer
of the reader still holds, then the error of the read on the closed stream; the stream
stays as it is. -/

theorem Stream.Write_ok (s : Stream) (p : ByteStr) (h1 : s.closes = 0) (h2 : s.writeErr = none) :
    s.Write p = ({ s with sent := s.sent ++ p }, none) := by
  simp [Stream.Write, h1, h2]

theorem Conn.Wrote.refl (c : Conn) (h : c.Writable) : c.Wrote c [] := by
  simp [Conn.Wrote, h]

theorem Conn.Wrote.trans {c c1 c2 : Conn} {p q : ByteStr} (h1 : c.Wrote c1 p)
    (h2 : c1.Wrote c2 q) : c.Wrote c2 (p ++ q) := by
  obtain ⟨_, a2, a3, a4, a5, a6, a7⟩ := h1
  obtain ⟨b1, b2, b3, b4, b5, b6, b7⟩ := h2
  refine ⟨b1, ?_, ?_, ?_, ?_, ?_, ?_⟩
  · rw [b2, a2, List.append_assoc]
  · rw [b3, a3]
  · rw [b4, a4]
  · rw [b5, a5]
  · rw [b6, a6]
  · rw [b7, a7]

theorem Conn.bwFlush_ok (c : Conn) (h : c.Writable) :
    (c.bwFlush).2 = none ∧ c.Wrote (c.bwFlush).1 [] := by
  obtain ⟨h1, h2, h3⟩ := h
  by_cases hb : c.bwBuf.length = 0
  · simp [Conn.bwFlush, h1, hb, Conn.Wrote, Conn.Writable, h2, h3]
  · simp [Conn.bwFlush, h1, hb, Conn.Wrote, Conn.Writable, h2, h3, Stream.Write,
      Conn.written]

theorem Conn.bwWriteLoop_ok : ∀ (fuel : Nat) (c : Conn) (p : ByteStr), c.Writable →
    ∃ q, q ++ (Conn.bwWriteLoop fuel c p).2 = p ∧ c.Wrote (Conn.bwWriteLoop fuel c p).1 q := by
  intro fuel
  induction fuel with
  | zero => intro c p h; exact ⟨[], rfl, Conn.Wrote.refl c h⟩
  | succ fuel ih =>
    intro c p h
    obtain ⟨h1, h2, h3⟩ := h
    by_cases hc : p.length > bufSize - c.bwBuf.length
    · have hcond : p.length > bufSize - c.bwBuf.length ∧ c.bwErr = none := ⟨hc, h1⟩
      by_cases hb : c.bwBuf.length = 0
      · have hb' : c.bwBuf = [] := List.length_eq_zero.1 hb
        have hstep : ∃ c1, c.Wrote c1 p ∧
            Conn.bwWriteLoop (fuel + 1) c p = Conn.bwWriteLoop fuel c1 [] := by
          refine ⟨{ c with conn := { c.conn with sent := c.conn.sent ++ p } }, ?_, ?_⟩
          · simp [Conn.Wrote, Conn.Writable, Conn.written, h1, h2, h3, hb']
          · rw [Conn.bwWriteLoop, if_pos hcond, if_pos hb, Stream.Write_ok _ _ h2 h3]
        obtain ⟨c1, hw, hstep⟩ := hstep
        obtain ⟨q, hq, hq2⟩ := ih c1 [] hw.1
        rw [hstep]
        refine ⟨p ++ q, ?_, hw.trans hq2⟩
        rw [List.append_assoc, hq, List.append_nil]
      · have hstep : ∃ c1, c.Wrote c1 (p.take (bufSize - c.bwBuf.length)) ∧
            Conn.bwWriteLoop (fuel + 1) c p =
              Conn.bwWriteLoop fuel c1 (p.drop (bufSize - c.bwBuf.length)) := by
          refine ⟨{ c with conn := { c.conn with sent := c.conn.sent ++
                  (c.bwBuf ++ p.take (bufSize - c.bwBuf.length)) }, bwBuf := [] }, ?_, ?_⟩
          · simp [Conn.Wrote, Conn.Writable, Conn.written, h1, h2, h3]
          · have hne : ¬ (c.bwBuf ++ p.take (bufSize - c.bwBuf.length)).length = 0 := by
              simp only [List.length_append]; omega
            rw [Conn.bwWriteLoop, if_pos hcond, if_neg hb]
            simp only [Conn.bwFlush, h1, hne, if_false, Stream.Write_ok _ _ h2 h3]
        obtain ⟨c1, hw, hstep⟩ := hstep
        obtain ⟨q, hq, hq2⟩ := ih c1 _ hw.1
        rw [hstep]
        refine ⟨p.take (bufSize - c.bwBuf.length) ++ q, ?_, hw.trans hq2⟩
        rw [List.append_assoc, hq, List.take_append_drop]
    · have hcond : ¬ (p.length > bufSize - c.bwBuf.length ∧ c.bwErr = none) := fun x => hc x.1
      have hstep : Conn.bwWriteLoop (fuel + 1) c p = (c, p) := by
        simp only [Conn.bwWriteLoop, hcond, if_false]
      rw [hstep]
      exact ⟨[], rfl, Conn.Wrote.refl c ⟨h1, h2, h3⟩⟩

theorem Conn.bwWrite_ok (c : Conn) (p : ByteStr) (h : c.Writable) :
    (c.bwWrite p).2 = none ∧ c.Wrote (c.bwWrite p).1 p := by
  obtain ⟨q, hq, hw⟩ := Conn.bwWriteLoop_ok 3 c p h
  rcases hl : Conn.bwWriteLoop 3 c p with ⟨c1, p1⟩
  rw [hl] at hq hw
  simp only at hq hw
  have hb1 : c1.bwErr = none := hw.1.1
  have hw2 : c1.Wrote { c1 with bwBuf := c1.bwBuf ++ p1 } p1 := by
    obtain ⟨a1, a2, a3⟩ := hw.1
    simp [Conn.Wrote, Conn.Writable, Conn.written, a1, a2, a3]
  have := hw.trans hw2
  rw [hq] at this
  rw [hb1] at this
  simp only [Conn.bwWrite, hl, hb1]
  exact ⟨trivial, this⟩


/-! ## Lemmas on the writer of commands -/

theorem writeLenDigits_eq : ∀ (fuel n : Nat) (acc : ByteStr),
    writeLenDigits fuel n acc = formatUintAux fuel n acc := by
  intro fuel
  induction fuel with
  | zero => intro n acc; rfl
  | succ fuel ih =>
    intro n acc
    by_cases hn : n < 10
    · have h1 : n / 10 = 0 := by omega
      have h2 : n % 10 = n := by omega
      simp [writeLenDigits, formatUintAux, hn, h1, h2]
    · have h1 : ¬ n / 10 = 0 := by omega
      simp [writeLenDigits, formatUintAux, hn, h1, ih]

theorem FormatInt_natCast (k : Nat) : FormatInt (k : Int) = formatUint k := by
  have : ¬ ((k : Int) < 0) := by omega
  simp [FormatInt, this]

theorem Conn.writeLen_ok (c : Conn) (pfx n : Nat) (h : c.Writable) :
    (c.writeLen pfx n).2 = none
    ∧ c.Wrote (c.writeLen pfx n).1 (pfx :: (FormatInt (n : Int) ++ str "\r\n")) := by
  have e : pfx :: writeLenDigits (n + 1) n [13, 10] = pfx :: (FormatInt (n : Int) ++ str "\r\n") := by
    rw [writeLenDigits_eq, formatUintAux_eq n (n + 1) _ (by omega), FormatInt_natCast, str_crlf]
  unfold Conn.writeLen
  rw [e]
  exact Conn.bwWrite_ok c _ h

/-- What `writeString`, `writeBytes` and `writeIntBytes` do with the tag `tag`. -/
theorem Conn.writeTagged_ok (c : Conn) (tag : Nat) (p : ByteStr) (h : c.Writable) :
    (((c.writeLen tag p.length).1.bwWrite p).1.bwWrite (str "\r\n")).2 = none
    ∧ c.Wrote (((c.writeLen tag p.length).1.bwWrite p).1.bwWrite (str "\r\n")).1
        (tag :: (FormatInt (p.length : Int) ++ str "\r\n") ++ p ++ str "\r\n") := by
  obtain ⟨_, w1⟩ := Conn.writeLen_ok c tag p.length h
  obtain ⟨_, w2⟩ := Conn.bwWrite_ok _ p w1.1
  obtain ⟨e3, w3⟩ := Conn.bwWrite_ok _ (str "\r\n") w2.1
  exact ⟨e3, (w1.trans w2).trans w3⟩

theorem Conn.writeString_ok (c : Conn) (s : ByteStr) (h : c.Writable) :
    (c.writeString s).2 = none ∧ c.Wrote (c.writeString s).1 (bulkWire s) := by
  have := Conn.writeTagged_ok c 36 s h
  simpa [Conn.writeString, bulkWire, show str "$" = [36] from rfl] using this

theorem Conn.writeBytes_ok (c : Conn) (p : ByteStr) (h : c.Writable) :
    (c.writeBytes p).2 = none ∧ c.Wrote (c.writeBytes p).1 (bulkWire p) := by
  have := Conn.writeTagged_ok c 36 p h
  simpa [Conn.writeBytes, bulkWire, show str "$" = [36] from rfl] using this

theorem Conn.writeIntBytes_ok (c : Conn) (p : ByteStr) (h : c.Writable) :
    (c.writeIntBytes p).2 = none ∧ c.Wrote (c.writeIntBytes p).1 (intWire p) := by
  have := Conn.writeTagged_ok c 58 p h
  simpa [Conn.writeIntBytes, intWire, show str ":" = [58] from rfl] using this

theorem Conn.writeArg_ok (w : WriteOps) (c : Conn) (arg : Arg) (h : c.Writable) :
    (c.writeArg w arg).2 = none ∧ c.Wrote (c.writeArg w arg).1 (argWire w arg) := by
  cases arg with
  | bool v =>
    cases v
    · simpa [Conn.writeArg, argWire] using Conn.writeString_ok c (str "0") h
    · simpa [Conn.writeArg, argWire] using Conn.writeString_ok c (str "1") h
  | int v =>
    simpa [Conn.writeArg, argWire, Conn.writeInt64, AppendInt]
      using Conn.writeIntBytes_ok c (FormatInt (wrapInt64 v)) h
  | int64 v =>
    simpa [Conn.writeArg, argWire, Conn.writeInt64, AppendInt]
      using Conn.writeIntBytes_ok c (FormatInt v) h
  | string v => simpa [Conn.writeArg, argWire] using Conn.writeString_ok c v h
  | bytes v => simpa [Conn.writeArg, argWire] using Conn.writeBytes_ok c v h
  | nil => simpa [Conn.writeArg, argWire] using Conn.writeString_ok c [] h
  | float64 v =>
    simpa [Conn.writeArg, argWire, Conn.writeFloat64] using Conn.writeBytes_ok c (w.AppendFloat v) h
  | _ => simpa [Conn.writeArg, argWire] using Conn.writeBytes_ok c (w.Fprint _) h

theorem Conn.writeArgs_ok (w : WriteOps) : ∀ (args : List Arg) (c : Conn), c.Writable →
    (Conn.writeArgs w args c none).2 = none
    ∧ c.Wrote (Conn.writeArgs w args c none).1 (argsWire w args) := by
  intro args
  induction args with
  | nil => intro c h; exact ⟨rfl, by simpa [argsWire, Conn.writeArgs] using Conn.Wrote.refl c h⟩
  | cons a args ih =>
    intro c h
    obtain ⟨e1, w1⟩ := Conn.writeArg_ok w c a h
    obtain ⟨e2, w2⟩ := ih (c.writeArg w a).1 w1.1
    rcases hw : c.writeArg w a with ⟨c1, err1⟩
    rw [hw] at e1 w1 e2 w2
    simp only at e1 w1 e2 w2
    subst e1
    simp only [Conn.writeArgs, hw, ne_eq, not_true_eq_false, if_false, argsWire]
    exact ⟨e2, w1.trans w2⟩

theorem Conn.writeCommand_ok (w : WriteOps) (c : Conn) (cmd : ByteStr) (args : List Arg)
    (h : c.Writable) :
    (Conn.writeCommand w c cmd args).2 = none
    ∧ c.Wrote (Conn.writeCommand w c cmd args).1 (commandBytes w cmd args) := by
  obtain ⟨_, w1⟩ := Conn.writeLen_ok c 42 (1 + args.length) h
  obtain ⟨e2, w2⟩ := Conn.writeString_ok _ cmd w1.1
  rcases hw : (c.writeLen 42 (1 + args.length)).1.writeString cmd with ⟨c1, err1⟩
  rw [hw] at e2 w2
  simp only at e2 w2
  subst e2
  obtain ⟨e3, w3⟩ := Conn.writeArgs_ok w args c1 w2.1
  simp only [Conn.writeCommand, hw]
  refine ⟨e3, ?_⟩
  have := (w1.trans w2).trans w3
  simpa [commandBytes, show str "*" = [42] from rfl] using this

/-! ## Lemmas on `StringMap` -/

theorem flattenPairs_length (kvs : List (Message × Message)) :
    (flattenPairs kvs).length = 2 * kvs.length := by
  induction kvs with
  | nil => rfl
  | cons kv kvs ih =>
    obtain ⟨k, v⟩ := kv
    simp [flattenPairs, ih]
    omega

theorem stringMapLoop_pairs (last : List (Option Message)) :
    ∀ (kvs : List (Message × Message)) (pre : List (Option Message)) (i : Nat)
      (result : StringDict),
    pre.length = i * 2 →
    (∀ kv ∈ kvs, kv.1.String.2 = none ∧ kv.2.String.2 = none) →
    stringMapLoop (pre ++ flattenPairs kvs ++ last) kvs.length i result =
      .returns (some (pairMap kvs result), none) := by
  intro kvs
  induction kvs with
  | nil => intro pre i result _ _; rfl
  | cons kv kvs ih =>
    intro pre i result hpre hok
    obtain ⟨k, v⟩ := kv
    obtain ⟨hk, hv⟩ := hok (k, v) (by simp)
    have hrest : ∀ kv ∈ kvs, kv.1.String.2 = none ∧ kv.2.String.2 = none :=
      fun kv h => hok kv (by simp [h])
    have e0 : (pre ++ flattenPairs ((k, v) :: kvs) ++ last)[i * 2]? = some (some k) := by
      rw [List.append_assoc, List.getElem?_append_right (by omega)]
      simp [hpre, flattenPairs]
    have e1 : (pre ++ flattenPairs ((k, v) :: kvs) ++ last)[i * 2 + 1]? = some (some v) := by
      rw [List.append_assoc, List.getElem?_append_right (by omega)]
      simp [hpre, flattenPairs]
    have hk2 : k.String = (k.String.1, none) := by rw [← hk]
    have hv2 : v.String = (v.String.1, none) := by rw [← hv]
    have e2 : pre ++ flattenPairs ((k, v) :: kvs) ++ last =
        (pre ++ [some k, some v]) ++ flattenPairs kvs ++ last := by
      simp [flattenPairs]
    have := ih (pre ++ [some k, some v]) (i + 1) (mapSet result k.String.1 v.String.1)
      (by simp [hpre]; omega) hrest
    rw [← e2] at this
    simp only [List.length_cons, stringMapLoop, e0, e1]
    rw [hk2]
    simp only
    rw [hv2]
    simp only
    rw [this]
    rfl

/-! ## Lemmas on `Send`, `Receive` and `Do` with well-formed replies -/

theorem Conn.bwFlush_buf (c : Conn) (h : c.Writable) : (c.bwFlush).1.bwBuf = [] := by
  obtain ⟨h1, h2, h3⟩ := h
  by_cases hb : c.bwBuf.length = 0
  · simp [Conn.bwFlush, h1, hb, List.length_eq_zero.mp hb]
  · simp [Conn.bwFlush, h1, hb, Stream.Write_ok _ _ h2 h3]

theorem Conn.Send_ok (w : WriteOps) (c : Conn) (cmd : ByteStr) (args : List Arg)
    (h : c.Writable) :
    (Conn.Send w c cmd args).2 = none
    ∧ Conn.Wrote { c with pending := wrapInt64 (c.pending + 1) } (Conn.Send w c cmd args).1
        (commandBytes w cmd args) := by
  obtain ⟨e1, w1⟩ := Conn.writeCommand_ok w { c with pending := wrapInt64 (c.pending + 1) }
    cmd args h
  rcases hw : Conn.writeCommand w { c with pending := wrapInt64 (c.pending + 1) } cmd args
    with ⟨c1, err1⟩
  rw [hw] at e1 w1
  simp only at e1 w1
  subst e1
  simp only [Conn.Send, hw]
  exact ⟨trivial, w1⟩

theorem Conn.Wrote.unread {c c1 : Conn} {p : ByteStr} (h : c.Wrote c1 p) :
    c1.unread = c.unread := by
  obtain ⟨_, _, _, _, a5, _, a7⟩ := h
  simp [Conn.unread, a5, a7]

theorem Conn.Took.took_same (c : Conn) (hb : c.brBuf.length ≤ bufSize) : c.Took c c.unread :=
  ⟨rfl, hb, rfl, rfl, rfl, rfl, rfl, rfl, rfl⟩

theorem Conn.Took.took_after {c c1 c2 : Conn} {r1 r2 : ByteStr} (h1 : c.Took c1 r1)
    (h2 : c1.Took c2 r2) : c.Took c2 r2 := by
  obtain ⟨_, _, a3, a4, a5, a6, a7, a8, a9⟩ := h1
  obtain ⟨b1, b2, b3, b4, b5, b6, b7, b8, b9⟩ := h2
  exact ⟨b1, b2, b3.trans a3, b4.trans a4, b5.trans a5, b6.trans a6, b7.trans a7,
    b8.trans a8, b9.trans a9⟩

theorem Conn.readReply_of_wire (c : Conn) (f : Frame) (s : ByteStr) (ho : c.conn.closes = 0)
    (hb : c.brBuf.length ≤ bufSize) (hin : c.unread = f.wire ++ s) (h : f.Representable)
    (hs : f.ShortLines) :
    ∃ c1, c.readReply = some (f.toReply, none, c1) ∧ c.Took c1 s ∧ c1.pending = c.pending := by
  obtain ⟨r, e, rest, c1, h1, h2, h3, h4⟩ := Conn.readReply_open c ho hb
  rw [hin, Resp.readReply_wire f s h hs] at h1
  simp only [Option.some.injEq, Prod.mk.injEq] at h1
  obtain ⟨rfl, rfl, rfl⟩ := h1
  exact ⟨c1, h2, h3, h4⟩

theorem Conn.Receive_wire (c : Conn) (f : Frame) (s : ByteStr) (ho : c.conn.closes = 0)
    (hb : c.brBuf.length ≤ bufSize) (hin : c.unread = f.wire ++ s) (h : f.Representable)
    (hs : f.ShortLines) :
    ∃ c1, c.Receive = some (receiveResult f.toReply, c1) ∧ c.Took c1 s
      ∧ c1.pending = if c.pending > 0 then c.pending - 1 else c.pending := by
  obtain ⟨c1, h1, h2, h3⟩ := Conn.readReply_of_wire c f s ho hb hin h hs
  refine ⟨if c1.pending > 0 then { c1 with pending := c1.pending - 1 } else c1, ?_, ?_, ?_⟩
  · simp only [Conn.Receive, h1]
    cases hf : f.toReply <;> rfl
  · by_cases hp : c1.pending > 0
    · rw [if_pos hp]; exact h2
    · rw [if_neg hp]; exact h2
  · rw [← h3]
    by_cases hp : c1.pending > 0
    · rw [if_pos hp, if_pos hp]
    · rw [if_neg hp, if_neg hp]

theorem Conn.doReadAll_wire : ∀ (fs : List Frame) (c : Conn) (s : ByteStr) (reply : List Reply),
    c.conn.closes = 0 → c.brBuf.length ≤ bufSize → c.unread = Frame.wireAll fs ++ s →
    Frame.AllRepresentable fs → Frame.AllShortLines fs →
    ∃ c1, Conn.doReadAll fs.length c reply =
        some ((.array (reply ++ Frame.toReplies fs), none), c1)
      ∧ c.Took c1 s ∧ c1.pending = c.pending := by
  intro fs
  induction fs with
  | nil =>
    intro c s reply _ hb hin _ _
    simp only [Frame.wireAll, List.nil_append] at hin
    refine ⟨c, by simp [Conn.doReadAll, Frame.toReplies], ?_, rfl⟩
    rw [← hin]
    exact Conn.Took.took_same c hb
  | cons f fs ih =>
    intro c s reply ho hb hin hr hs
    simp only [Frame.AllRepresentable] at hr
    simp only [Frame.AllShortLines] at hs
    simp only [Frame.wireAll, List.append_assoc] at hin
    obtain ⟨c1, h1, h2, h3⟩ := Conn.readReply_of_wire c f _ ho hb hin hr.1 hs.1
    obtain ⟨c2, k1, k2, k3⟩ := ih c1 s (reply ++ [f.toReply]) (h2.2.2.1.trans ho) h2.2.1 h2.1
      hr.2 hs.2
    refine ⟨c2, ?_, h2.took_after k2, k3.trans h3⟩
    simp only [List.length_cons, Conn.doReadAll, h1, k1]
    simp [Frame.toReplies]

theorem Conn.doReadLast_wire : ∀ (fs : List Frame) (c : Conn) (s : ByteStr) (reply : Reply)
    (err : Option GoError),
    c.conn.closes = 0 → c.brBuf.length ≤ bufSize → c.unread = Frame.wireAll fs ++ s →
    Frame.AllRepresentable fs → Frame.AllShortLines fs →
    ∃ c1, Conn.doReadLast fs.length c reply err =
        some ((lastReply reply (Frame.toReplies fs),
          err.or (firstError (Frame.toReplies fs))), c1)
      ∧ c.Took c1 s ∧ c1.pending = c.pending := by
  intro fs
  induction fs with
  | nil =>
    intro c s reply err _ hb hin _ _
    simp only [Frame.wireAll, List.nil_append] at hin
    refine ⟨c, ?_, ?_, rfl⟩
    · cases err <;> simp [Conn.doReadLast, Frame.toReplies, lastReply, firstError]
    · rw [← hin]
      exact Conn.Took.took_same c hb
  | cons f fs ih =>
    intro c s reply err ho hb hin hr hs
    simp only [Frame.AllRepresentable] at hr
    simp only [Frame.AllShortLines] at hs
    simp only [Frame.wireAll, List.append_assoc] at hin
    obtain ⟨c1, h1, h2, h3⟩ := Conn.readReply_of_wire c f _ ho hb hin hr.1 hs.1
    have key := fun (r : Reply) (e : Option GoError) =>
      ih c1 s r e (h2.2.2.1.trans ho) h2.2.1 h2.1 hr.2 hs.2
    simp only [List.length_cons, Conn.doReadLast, h1]
    cases hf : f.toReply with
    | error x =>
      cases err with
      | none =>
        obtain ⟨c2, k1, k2, k3⟩ := key (.error x) (some x)
        exact ⟨c2, by simp [k1, Frame.toReplies, lastReply, firstError, hf], h2.took_after k2,
          k3.trans h3⟩
      | some y =>
        obtain ⟨c2, k1, k2, k3⟩ := key (.error x) (some y)
        exact ⟨c2, by simp [k1, Frame.toReplies, lastReply, firstError, hf], h2.took_after k2,
          k3.trans h3⟩
    | _ =>
      obtain ⟨c2, k1, k2, k3⟩ := key f.toReply err
      rw [hf] at k1
      refine ⟨c2, ?_, h2.took_after k2, k3.trans h3⟩
      cases err <;> simp [k1, Frame.toReplies, lastReply, firstError, hf]

theorem Conn.Do_command_wire (w : WriteOps) (c : Conn) (cmd : ByteStr) (args : List Arg)
    (fs : List Frame) (s : ByteStr) (hw : c.Writable) (hbuf : c.brBuf.length ≤ bufSize)
    (hcmd : cmd ≠ [])
    (hp1 : c.pending < maxInt64) (hlen : (fs.length : Int) = c.pending + 1)
    (hin : c.unread = Frame.wireAll fs ++ s)
    (hr : Frame.AllRepresentable fs) (hs : Frame.AllShortLines fs) :
    ∃ c1, Conn.Do w c cmd args =
        some (.returns ((lastReply .nil (Frame.toReplies fs),
          firstError (Frame.toReplies fs)), c1))
      ∧ c1.pending = 0 ∧ c1.err = c.err ∧ c1.unread = s
      ∧ c1.conn.sent = c.written ++ commandBytes w cmd args ∧ c1.bwBuf = [] := by
  have h0 : Conn.Writable { c with pending := 0 } := hw
  obtain ⟨e1, w1⟩ := Conn.writeCommand_ok w { c with pending := 0 } cmd args h0
  rcases hwc : Conn.writeCommand w { c with pending := 0 } cmd args with ⟨c1, err1⟩
  rw [hwc] at e1 w1
  simp only at e1 w1
  subst e1
  obtain ⟨e2, w2⟩ := Conn.bwFlush_ok c1 w1.1
  have hb := Conn.bwFlush_buf c1 w1.1
  rcases hfl : c1.bwFlush with ⟨c2, err2⟩
  rw [hfl] at e2 w2 hb
  simp only at e2 w2 hb
  subst e2
  have hu : c2.unread = c.unread := w2.unread.trans w1.unread
  obtain ⟨_, a2, a3, a4, _, _, a7⟩ := w1
  obtain ⟨⟨_, b1, _⟩, b2, b3, b4, _, _, b7⟩ := w2
  have hne : c.pending ≠ maxInt64 := ne_of_lt hp1
  have hk : (c.pending + 1).toNat = fs.length := by omega
  have hbuf2 : c2.brBuf.length ≤ bufSize := by rw [b7, a7]; exact hbuf
  obtain ⟨c3, k1, k2, k3⟩ :=
    Conn.doReadLast_wire fs c2 s .nil none b1 hbuf2 (hu.trans hin) hr hs
  refine ⟨c3, ?_, ?_, ?_, k2.1, ?_, ?_⟩
  · simp only [Conn.Do, hcmd, false_and, if_false, ne_eq, not_false_eq_true, if_true, hwc, hfl,
      hne, hk, k1]
    rfl
  · rw [k3, b3, a3]
  · rw [k2.2.2.2.2.2.2.1, b4, a4]
  · have : c2.written = c2.conn.sent := by simp [Conn.written, hb]
    rw [k2.2.2.2.1, ← this, b2, a2]
    simp [Conn.written]
  · rw [k2.2.2.2.2.2.2.2.1, hb]

theorem Conn.Do_empty_wire (w : WriteOps) (c : Conn) (args : List Arg)
    (fs : List Frame) (s : ByteStr) (hw : c.Writable) (hbuf : c.brBuf.length ≤ bufSize)
    (hlen : (fs.length : Int) = c.pending) (hpos : 0 < c.pending)
    (hin : c.unread = Frame.wireAll fs ++ s)
    (hr : Frame.AllRepresentable fs) (hs : Frame.AllShortLines fs) :
    ∃ c1, Conn.Do w c [] args =
        some (.returns ((.array (Frame.toReplies fs), none), c1))
      ∧ c1.pending = 0 ∧ c1.err = c.err ∧ c1.unread = s
      ∧ c1.conn.sent = c.written ∧ c1.bwBuf = [] := by
  have h0 : Conn.Writable { c with pending := 0 } := hw
  obtain ⟨e2, w2⟩ := Conn.bwFlush_ok { c with pending := 0 } h0
  have hb := Conn.bwFlush_buf { c with pending := 0 } h0
  rcases hfl : Conn.bwFlush { c with pending := 0 } with ⟨c2, err2⟩
  rw [hfl] at e2 w2 hb
  simp only at e2 w2 hb
  subst e2
  have hu : c2.unread = c.unread := w2.unread
  obtain ⟨⟨_, b1, _⟩, b2, b3, b4, _, _, b7⟩ := w2
  have hne : c.pending ≠ 0 := ne_of_gt hpos
  have hneg : ¬ c.pending < 0 := by omega
  have hk : c.pending.toNat = fs.length := by omega
  have hbuf2 : c2.brBuf.length ≤ bufSize := by rw [b7]; exact hbuf
  obtain ⟨c3, k1, k2, k3⟩ :=
    Conn.doReadAll_wire fs c2 s [] b1 hbuf2 (hu.trans hin) hr hs
  refine ⟨c3, ?_, ?_, ?_, k2.1, ?_, ?_⟩
  · simp only [Conn.Do, hne, and_false, if_false, ne_eq, not_true_eq_false, hfl, if_true,
      hneg, hk, k1]
    rfl
  · rw [k3, b3]
  · rw [k2.2.2.2.2.2.2.1, b4]
  · have : c2.written = c2.conn.sent := by simp [Conn.written, hb]
    rw [k2.2.2.2.1, ← this, b2]
    simp [Conn.written]
  · rw [k2.2.2.2.2.2.2.2.1, hb]

/-! ## Lemmas on a connection whose stream is closed -/

theorem Conn.step_recorded (c : Conn) (e : GoError) (op : LatchOp) (h : c.err = some e) :
    c.step op = c := by
  cases op <;> simp [Conn.step, Conn.Close, Conn.fatal, h]

theorem Conn.run_recorded (e : GoError) : ∀ (ops : List LatchOp) (c : Conn), c.err = some e →
    Conn.run ops c = c := by
  intro ops
  induction ops with
  | nil => intro c _; rfl
  | cons op ops ih =>
    intro c h
    rw [Conn.run, Conn.step_recorded c e op h]
    exact ih c h

theorem Conn.step_first (c : Conn) (op : LatchOp) (h : c.err = none) :
    (c.step op).err = some op.recorded ∧ (c.step op).conn.closes = c.conn.closes + 1 := by
  cases op <;> simp [Conn.step, Conn.Close, Conn.fatal, h, LatchOp.recorded, Stream.Close]

/-! ## Lemmas that compare `writeCommand` with `Encode` -/

theorem argsWire_basic (w : WriteOps) : ∀ (args : List Arg), (∀ a ∈ args, a.isBasic) →
    argsWire w args = bulksWire (args.map Arg.payload) := by
  intro args
  induction args with
  | nil => intro _; rfl
  | cons a args ih =>
    intro h
    have ha : a.isBasic := h a (by simp)
    have ht : ∀ x ∈ args, x.isBasic := fun x hx => h x (by simp [hx])
    cases a with
    | nil => simp [argsWire, argWire, bulksWire, Arg.payload, ih ht]
    | bool v => cases v <;> simp [argsWire, argWire, bulksWire, Arg.payload, ih ht]
    | bytes v => simp [argsWire, argWire, bulksWire, Arg.payload, ih ht]
    | string v => simp [argsWire, argWire, bulksWire, Arg.payload, ih ht]
    | _ => exact absurd ha (by simp [Arg.isBasic])

/-- For a command whose arguments are absent, booleans, byte sequences or texts,
`writeCommand` writes to the buffered writer the bytes `Encode` returns. -/
theorem writeCommand_eq_Encode_basic (w : WriteOps) (fl : FloatOps) (c : Conn) (cmd : ByteStr)
    (args : List Arg) (hw : c.Writable) (h : ∀ a ∈ args, a.isBasic) :
    (Conn.writeCommand w c cmd args).2 = none
    ∧ Encode fl (.string cmd :: args) =
        (some (commandBytes w cmd args), none)
    ∧ (Conn.writeCommand w c cmd args).1.written = c.written ++ commandBytes w cmd args := by
  obtain ⟨e1, w1⟩ := Conn.writeCommand_ok w c cmd args hw
  refine ⟨e1, ?_, w1.2.1⟩
  have hb : ∀ a ∈ Arg.string cmd :: args, a.isBasic := by
    intro a ha
    rcases List.mem_cons.mp ha with rfl | ha
    · trivial
    · exact h a ha
  rw [Encode_basic fl _ hb]
  simp [commandBytes, commandWire, bulksWire, Arg.payload, argsWire_basic w args h,
    Nat.add_comm]

theorem receiveResult_success (f : Frame) (h : ∀ t, f ≠ .Error t) :
    receiveResult f.toReply = (f.toReply, none) := by
  cases f with
  | Error t => exact absurd rfl (h t)
  | Status t => rfl
  | Integer n => rfl
  | Bulk p => cases p <;> rfl
  | Multi es => cases es <;> rfl

/-! ## Lemmas on `ToBytes` -/

theorem Message.depthElem_le_depthAll : ∀ (ms : List (Option Message)) (x : Option Message),
    x ∈ ms → Message.depthElem x ≤ Message.depthAll ms := by
  intro ms
  induction ms with
  | nil => intro x h; cases h
  | cons m ms ih =>
    intro x h
    rw [Message.depthAll]
    rcases List.mem_cons.mp h with rfl | h
    · exact le_max_left _ _
    · exact le_trans (ih x h) (le_max_right _ _)

theorem toBytesLoop_ne_none (toBytes : Message → Option (Call (Option ByteStr))) :
    ∀ (ms : List (Option Message)) (ret : ByteStr),
    (∀ x, some x ∈ ms → toBytes x ≠ none) → toBytesLoop toBytes ms ret ≠ none := by
  intro ms
  induction ms with
  | nil => intro ret _; simp [toBytesLoop]
  | cons m ms ih =>
    intro ret h
    cases m with
    | none => simp [toBytesLoop]
    | some m =>
      have hm := h m (by simp)
      have ht : ∀ x, some x ∈ ms → toBytes x ≠ none := fun x hx => h x (by simp [hx])
      rw [toBytesLoop]
      cases hr : toBytes m with
      | none => exact absurd hr hm
      | some r =>
        cases r with
        | panics => simp
        | returns b => exact ih _ ht

theorem toBytesFuel_ne_none (enc : Encoders) : ∀ (fuel : Nat) (m : Message), m.depth < fuel →
    toBytesFuel enc fuel m ≠ none := by
  intro fuel
  induction fuel with
  | zero => intro m h; omega
  | succ fuel ih =>
    intro m h
    have hloop : toBytesLoop (fun x => toBytesFuel enc fuel x) (m.Multi.getD [])
        (str "*" ++ FormatInt ((m.Multi.getD []).length : Int) ++ str "\r\n") ≠ none := by
      apply toBytesLoop_ne_none
      intro x hx
      apply ih
      obtain ⟨t, e, st, i, b, multi⟩ := m
      cases multi with
      | none => simp at hx
      | some ms =>
        simp only [Option.getD_some] at hx
        have := Message.depthElem_le_depthAll ms (some x) hx
        simp only [Message.depth, Message.depthOpt] at h
        simp only [Message.depthElem] at this
        omega
    rw [toBytesFuel]
    split
    · simp
    · split
      · split <;> simp
      · split
        · simp
        · split
          · simp
          · split
            · split
              · rename_i hn; exact absurd hn hloop
              · simp
              · simp
            · simp

/-- For a Multi message `ToBytes` returns `nil`, or panics at an absent element or an
Error element with no error. -/
theorem ToBytes_Multi (enc : Encoders) (m : Message) (ht : m.Typ = MessageMulti) :
    m.ToBytes enc = some (.returns none) ∨ m.ToBytes enc = some .panics := by
  have hne := toBytesFuel_ne_none enc (m.depth + 1) m (Nat.lt_succ_self _)
  have h1 : ¬ (MessageMulti = MessageStatus) := by decide
  have h2 : ¬ (MessageMulti = MessageError) := by decide
  have h3 : ¬ (MessageMulti = MessageInt) := by decide
  have h4 : ¬ (MessageMulti = MessageBulk) := by decide
  unfold Message.ToBytes at hne ⊢
  simp only [toBytesFuel, ht, h1, h2, h3, h4, if_false, if_true] at hne ⊢
  split
  · rename_i hn; rw [hn] at hne; exact absurd rfl hne
  · right; rfl
  · left; rfl

/-! ## Lemmas on a reply line longer than the buffer of the reader -/

theorem readReply_long_line (l t : ByteStr) (h : 10 ∉ l) (hl : bufSize ≤ l.length) :
    readReply (l ++ 10 :: t) =
      some (.nil, some (.protocolError "long response line"), (l ++ 10 :: t).drop bufSize) := by
  have hrs : ReadSlice (l ++ 10 :: t) =
      ((l ++ 10 :: t).take bufSize, some .ErrBufferFull, (l ++ 10 :: t).drop bufSize) := by
    have : ¬ (l ++ [10]).length ≤ bufSize := by simp; omega
    simp only [ReadSlice, ReadBytes_line l t h, this, if_false]
  simp only [readReply, readReplyFuel, readLine, hrs]

theorem Conn.Receive_long_line (c : Conn) (l t : ByteStr) (ho : c.conn.closes = 0)
    (hb : c.brBuf.length ≤ bufSize) (he : c.err = none) (hin : c.unread = l ++ 10 :: t)
    (h : 10 ∉ l) (hl : bufSize ≤ l.length) :
    ∃ c1, c.Receive = some ((.nil, some (.protocolError "long response line")), c1)
      ∧ c1.err = some (.protocolError "long response line") := by
  obtain ⟨r, e, rest, c1, h1, h2, h3, _⟩ := Conn.readReply_open c ho hb
  rw [hin, readReply_long_line l t h hl] at h1
  simp only [Option.some.injEq, Prod.mk.injEq] at h1
  obtain ⟨rfl, rfl, rfl⟩ := h1
  have he1 : c1.err = none := h3.2.2.2.2.2.2.1.trans he
  refine ⟨(c1.fatal (.protocolError "long response line")).1, ?_, ?_⟩
  · simp only [Conn.Receive, h2]
    simp [Conn.fatal, he1]
  · simp [Conn.fatal, he1]

theorem Conn.Do_long_line (w : WriteOps) (c : Conn) (cmd : ByteStr) (args : List Arg)
    (l t : ByteStr) (hw : c.Writable) (hbuf : c.brBuf.length ≤ bufSize) (hcmd : cmd ≠ [])
    (hp : c.pending = 0) (he : c.err = none) (hin : c.unread = l ++ 10 :: t)
    (h : 10 ∉ l) (hl : bufSize ≤ l.length) :
    ∃ c1, Conn.Do w c cmd args =
        some (.returns ((.nil, some (.protocolError "long response line")), c1))
      ∧ c1.err = some (.protocolError "long response line") := by
  have h0 : Conn.Writable { c with pending := 0 } := hw
  obtain ⟨e1, w1⟩ := Conn.writeCommand_ok w { c with pending := 0 } cmd args h0
  rcases hwc : Conn.writeCommand w { c with pending := 0 } cmd args with ⟨c1, err1⟩
  rw [hwc] at e1 w1
  simp only at e1 w1
  subst e1
  obtain ⟨e2, w2⟩ := Conn.bwFlush_ok c1 w1.1
  rcases hfl : c1.bwFlush with ⟨c2, err2⟩
  rw [hfl] at e2 w2
  simp only at e2 w2
  subst e2
  have hu : c2.unread = c.unread := w2.unread.trans w1.unread
  obtain ⟨_, _, _, a4, _, _, a7⟩ := w1
  obtain ⟨⟨_, b1, _⟩, _, _, b4, _, _, b7⟩ := w2
  have hbuf2 : c2.brBuf.length ≤ bufSize := by rw [b7, a7]; exact hbuf
  obtain ⟨r, e, rest, c3, h1, h2, h3, _⟩ := Conn.readReply_open c2 b1 hbuf2
  rw [hu, hin, readReply_long_line l t h hl] at h1
  simp only [Option.some.injEq, Prod.mk.injEq] at h1
  obtain ⟨rfl, rfl, rfl⟩ := h1
  have he3 : c3.err = none := by
    rw [h3.2.2.2.2.2.2.1, b4, a4]; exact he
  have hm : ¬ (0 : Int) = maxInt64 := by decide
  refine ⟨(c3.fatal (.protocolError "long response line")).1, ?_, ?_⟩
  · simp only [Conn.Do, hcmd, false_and, if_false, ne_eq, not_false_eq_true, if_true, hwc, hfl,
      hp, hm]
    simp [Conn.doReadLast, h2, Conn.fatal, he3]
  · simp [Conn.fatal, he3]

theorem longLine_wire (n : Nat) (t : ByteStr) :
    (Frame.Status (List.replicate n 97)).wire ++ t
      = (43 :: List.replicate n 97 ++ [13]) ++ 10 :: t := by
  simp [Frame.wire, show str "+" = [43] from rfl, str_crlf]

theorem longLine_wire_alone (n : Nat) :
    (Frame.Status (List.replicate n 97)).wire = (43 :: List.replicate n 97 ++ [13]) ++ [10] := by
  simp [Frame.wire, show str "+" = [43] from rfl, str_crlf]

theorem longLine_no_lf (n : Nat) : 10 ∉ 43 :: List.replicate n 97 ++ [13] := by
  simp [List.mem_replicate]

theorem longLine_length (n : Nat) : (43 :: List.replicate n 97 ++ [13]).length = n + 2 := by
  simp

theorem longLine_representable (n : Nat) : (Frame.Status (List.replicate n 97)).Representable := by
  simp [Frame.Representable, List.mem_replicate]
/-! ## The claims -/

/-- C1: for every representable frame `f` (texts without a line feed, an `int64` Integer,
a Bulk and a Multi absent or present, frames nested to any depth) and every suffix `s`,
`DecodeBufio` on the wire form of `f` followed by `s` returns `f` with no error and
leaves exactly `s` unread. -/
theorem C1_DecodeBufio_consumes_one_frame (f : Frame) (s : ByteStr) (h : f.Representable) :
    DecodeBufio (f.wire ++ s) = some (.returns (some f.toMessage) none s) :=
  DecodeBufio_wire f s h

/-- C1 at a Multi of a Status, an Error, an Integer, both Bulks, both Multis and a nested
Multi, followed by the first bytes of another frame. -/
theorem C1_witness :
    (Frame.Multi (some [.Status (str "OK"), .Error (str "ERR x"), .Integer (-42), .Bulk none,
        .Bulk (some (str "a\r\nb")), .Multi none,
        .Multi (some [.Integer (-9223372036854775808)])])).Representable
    ∧ (Frame.Multi (some [.Status (str "OK"), .Error (str "ERR x"), .Integer (-42), .Bulk none,
        .Bulk (some (str "a\r\nb")), .Multi none,
        .Multi (some [.Integer (-9223372036854775808)])])).wire
      = str "*7\r\n+OK\r\n-ERR x\r\n:-42\r\n$-1\r\n$4\r\na\r\nb\r\n*-1\r\n*1\r\n:-9223372036854775808\r\n"
    ∧ DecodeBufio ((Frame.Multi (some [.Status (str "OK"), .Error (str "ERR x"), .Integer (-42),
        .Bulk none, .Bulk (some (str "a\r\nb")), .Multi none,
        .Multi (some [.Integer (-9223372036854775808)])])).wire ++ str "+PO")
      = some (.returns (some (Frame.Multi (some [.Status (str "OK"), .Error (str "ERR x"),
          .Integer (-42), .Bulk none, .Bulk (some (str "a\r\nb")), .Multi none,
          .Multi (some [.Integer (-9223372036854775808)])])).toMessage) none (str "+PO")) :=
  have hr : (Frame.Multi (some [.Status (str "OK"), .Error (str "ERR x"), .Integer (-42),
      .Bulk none, .Bulk (some (str "a\r\nb")), .Multi none,
      .Multi (some [.Integer (-9223372036854775808)])])).Representable := by
    simp only [Frame.Representable, Frame.AllRepresentable]
    decide
  ⟨hr, by rfl, C1_DecodeBufio_consumes_one_frame _ _ hr⟩

/-- C2: for arguments that are byte sequences or texts (as many as an `int` counts, each
with its terminator no longer than an `int`), `Encode` succeeds and `DecodeBufio` on the
bytes it returns succeeds, reads them all, and returns a present Multi with one present
Bulk for each argument, in order, holding that argument's bytes. -/
theorem C2_Encode_DecodeBufio_roundtrip (fl : FloatOps) (args : List Arg)
    (hk : ∀ a ∈ args, a.isBytesOrText)
    (hn : (args.length : Int) ≤ maxInt64)
    (hs : ∀ a ∈ args, (a.payload.length : Int) + 2 ≤ maxInt64) :
    ∃ buf, Encode fl args = (some buf, none) ∧
      DecodeBufio buf = some (.returns
        (some { Message.zero with
          Typ := MessageMulti,
          Multi := some (args.map fun a =>
            some { Message.zero with Typ := MessageBulk, Bulk := some a.payload }) })
        none []) := by
  have hb : ∀ a ∈ args, a.isBasic := by
    intro a ha
    have := hk a ha
    cases a <;> simp_all [Arg.isBytesOrText, Arg.isBasic]
  refine ⟨_, Encode_basic fl args hb, ?_⟩
  have hw : ∀ (l : List Arg),
      Frame.wireAll (l.map fun a => Frame.Bulk (some a.payload)) =
        bulksWire (l.map Arg.payload) := by
    intro l
    induction l with
    | nil => rfl
    | cons a l ih => simp [Frame.wireAll, bulksWire, Frame.wire, bulkWire, ih]
  have hm : ∀ (l : List Arg),
      Frame.toMessages (l.map fun a => Frame.Bulk (some a.payload)) =
        l.map fun a => some { Message.zero with Typ := MessageBulk, Bulk := some a.payload } := by
    intro l
    induction l with
    | nil => rfl
    | cons a l ih => simp [Frame.toMessages, Frame.toMessage, ih]
  have hrep : ∀ (l : List Arg), (∀ a ∈ l, (a.payload.length : Int) + 2 ≤ maxInt64) →
      Frame.AllRepresentable (l.map fun a => Frame.Bulk (some a.payload)) := by
    intro l
    induction l with
    | nil => intro _; simp [Frame.AllRepresentable]
    | cons a l ih =>
      intro h
      simp only [List.map_cons, Frame.AllRepresentable, Frame.Representable]
      exact ⟨h a (by simp), ih fun x hx => h x (by simp [hx])⟩
  have h := DecodeBufio_wire
    (Frame.Multi (some (args.map fun a => Frame.Bulk (some a.payload)))) []
    (by simp only [Frame.Representable, List.length_map]; exact ⟨hn, hrep args hs⟩)
  simp only [Frame.wire, Frame.toMessage, hw, hm, List.append_nil, List.length_map] at h
  simpa [commandWire] using h

/-- C2 at the command SET, key, value, the value holding a CR LF. -/
theorem C2_witness :
    Encode ⟨id, fun _ => []⟩ [.string (str "SET"), .bytes (str "k"), .string (str "a\r\nb")]
      = (some (str "*3\r\n$3\r\nSET\r\n$1\r\nk\r\n$4\r\na\r\nb\r\n"), none)
    ∧ ∃ buf, Encode ⟨id, fun _ => []⟩
          [.string (str "SET"), .bytes (str "k"), .string (str "a\r\nb")] = (some buf, none) ∧
        DecodeBufio buf = some (.returns
          (some { Message.zero with
            Typ := MessageMulti,
            Multi := some ([Arg.string (str "SET"), .bytes (str "k"), .string (str "a\r\nb")].map
              fun a => some { Message.zero with Typ := MessageBulk, Bulk := some a.payload }) })
          none []) :=
  ⟨by decide,
   C2_Encode_DecodeBufio_roundtrip ⟨id, fun _ => []⟩
     [.string (str "SET"), .bytes (str "k"), .string (str "a\r\nb")]
     (by simp [Arg.isBytesOrText]) (by decide) (by decide)⟩

/-- C3: for arguments that are absent, booleans, byte sequences or texts, `Encode`
succeeds and returns an asterisk, the argument count in decimal, CR LF, and then for each
argument in order a dollar sign, the payload's byte count in decimal, CR LF, the payload,
CR LF; the payload is empty for an absent argument, the digit one for true, the digit
zero for false, and the bytes themselves otherwise. -/
theorem C3_Encode_basic_arguments (fl : FloatOps) (args : List Arg)
    (h : ∀ a ∈ args, a.isBasic) :
    Encode fl args = (some (commandWire (args.map Arg.payload)), none) :=
  Encode_basic fl args h

/-- C3 at five arguments, one of each basic kind and both booleans. -/
theorem C3_witness :
    commandWire ([Arg.string (str "GET"), .nil, .bool true, .bool false, .bytes [0, 255]].map
        Arg.payload)
      = str "*5\r\n$3\r\nGET\r\n$0\r\n\r\n$1\r\n1\r\n$1\r\n0\r\n$2\r\n" ++ [0, 255] ++ str "\r\n"
    ∧ Encode ⟨id, fun _ => []⟩ [.string (str "GET"), .nil, .bool true, .bool false, .bytes [0, 255]]
      = (some (commandWire
          ([Arg.string (str "GET"), .nil, .bool true, .bool false, .bytes [0, 255]].map
            Arg.payload)), none) :=
  ⟨by decide, C3_Encode_basic_arguments ⟨id, fun _ => []⟩ _ (by simp [Arg.isBasic])⟩

/-- C4: at the smallest `int64` the length `intLen` computes is 2 while the decimal text
has 20 bytes, so the bulk `Encode` emits announces 2 bytes and carries 20. -/
theorem C4_intLen_wrong_at_minInt64 :
    intLen (-9223372036854775808) = 2
    ∧ FormatInt (-9223372036854775808) = str "-9223372036854775808"
    ∧ (FormatInt (-9223372036854775808)).length = 20
    ∧ Encode ⟨id, fun _ => []⟩ [.int64 (-9223372036854775808)]
      = (some (str "*1\r\n$2\r\n-9223372036854775808\r\n"), none) := by
  decide

/-- C5, as stated, fails on an argument of type `uintptr`, an unsigned integer, and on
an argument of a defined type over `int`, a signed integer: each is of a kind the claim
lists, yet `Encode` fails, names the type and returns no buffer. -/
theorem C5_kinds_without_a_case_fail :
    (Arg.other (str "uintptr") .unsignedInteger).kind.isSupported
    ∧ Encode ⟨id, fun _ => []⟩ [.string (str "SET"), .other (str "uintptr") .unsignedInteger]
      = (none, some (.New (str "Invalid argument type : \x7buintptr\x7d, when pack command.")))
    ∧ (Arg.other (str "main.Counter") .signedInteger).kind.isSupported
    ∧ Encode ⟨id, fun _ => []⟩ [.other (str "main.Counter") .signedInteger]
      = (none,
          some (.New (str "Invalid argument type : \x7bmain.Counter\x7d, when pack command."))) :=
  ⟨trivial, by decide, trivial, by decide⟩

/-- C5, amended: `Encode` fails exactly when the dynamic type of an argument is none of
those the type switch has a case for; when it fails it returns a `nil` buffer, wherever
the offending argument stands, and when it does not fail it returns a buffer that is not
empty. Every type with a case is of a kind the specification lists, so that `Encode`
fails on every argument of another kind. -/
theorem C5_Encode_fails_iff_unsupported (fl : FloatOps) (args : List Arg) :
    ((Encode fl args).2 ≠ none ↔ ∃ a ∈ args, ¬ a.isSupported)
    ∧ ((Encode fl args).2 ≠ none → (Encode fl args).1 = none)
    ∧ ((Encode fl args).2 = none → ∃ buf, (Encode fl args).1 = some buf ∧ buf ≠ [])
    ∧ (∀ a ∈ args, a.isSupported → a.kind.isSupported) := by
  have hk : ∀ a ∈ args, a.isSupported → a.kind.isSupported := by
    intro a _ h
    cases a <;> trivial
  by_cases h : ∃ a ∈ args, ¬ a.isSupported
  · obtain ⟨e, he⟩ := encodeLoop_unsupported fl args
      (addTail (AppendInt ([] ++ [42]) (args.length : Int))) h
    have hE : Encode fl args = (none, some e) := he
    rw [hE]
    simp only [h, ne_eq, reduceCtorEq, not_false_eq_true, true_iff, forall_true_left,
      IsEmpty.forall_iff, true_and]
    exact hk
  · have hall : ∀ a ∈ args, a.isSupported := by
      intro a ha
      by_contra hn
      exact h ⟨a, ha, hn⟩
    obtain ⟨b, hb, hl⟩ := encodeLoop_supported fl args
      (addTail (AppendInt ([] ++ [42]) (args.length : Int))) hall
    have hE : Encode fl args = (some b, none) := hb
    have hne : b ≠ [] := by
      intro e
      subst e
      simp [addTail, AppendInt] at hl
    rw [hE]
    refine ⟨?_, ?_, ?_, hk⟩
    · simp [h]
    · simp
    · simp [hne]

/-- C6, as the specification writes the input: the empty line after the Integer is
decoded as the second element, an absent frame, and the Bulk stays unread. -/
theorem C6_blank_line_is_the_second_element :
    DecodeBufio (str "*2\r\n*1\r\n:1\r\n\r\n$3\r\nfoo\r\n") =
      some (.returns
        (some { Message.zero with
          Typ := MessageMulti,
          Multi := some [
            some { Message.zero with
              Typ := MessageMulti,
              Multi := some [some { Message.zero with Typ := MessageInt, Integer := 1 }] },
            none] })
        none (str "$3\r\nfoo\r\n")) := by
  rfl

/-- C6, amended: without the empty line after the Integer, the input decodes to a Multi
of two elements, a Multi that holds Integer 1 and the Bulk of the three bytes foo, and
nothing is left unread. -/
theorem C6_nested_arrays :
    DecodeBufio (str "*2\r\n*1\r\n:1\r\n$3\r\nfoo\r\n") =
      some (.returns
        (some { Message.zero with
          Typ := MessageMulti,
          Multi := some [
            some { Message.zero with
              Typ := MessageMulti,
              Multi := some [some { Message.zero with Typ := MessageInt, Integer := 1 }] },
            some { Message.zero with Typ := MessageBulk, Bulk := some (str "foo") }] })
        none []) := by
  rfl

/-- C7: a length of minus one decodes to a Bulk with no payload and a length of zero to
a Bulk with a present, empty payload, and the two results differ; likewise a count of
minus one decodes to a Multi with no sequence and a count of zero to a Multi with a
present, empty sequence, and the two differ. -/
theorem C7_null_distinction :
    DecodeBufio (str "$-1\r\n") =
      some (.returns (some { Message.zero with Typ := MessageBulk, Bulk := none }) none [])
    ∧ DecodeBufio (str "$0\r\n\r\n") =
      some (.returns (some { Message.zero with Typ := MessageBulk, Bulk := some [] }) none [])
    ∧ DecodeBufio (str "$-1\r\n") ≠ DecodeBufio (str "$0\r\n\r\n")
    ∧ DecodeBufio (str "*-1\r\n") =
      some (.returns (some { Message.zero with Typ := MessageMulti, Multi := none }) none [])
    ∧ DecodeBufio (str "*0\r\n") =
      some (.returns (some { Message.zero with Typ := MessageMulti, Multi := some [] }) none [])
    ∧ DecodeBufio (str "*-1\r\n") ≠ DecodeBufio (str "*0\r\n") := by
  have h1 : DecodeBufio (str "$-1\r\n") =
      some (.returns (some { Message.zero with Typ := MessageBulk, Bulk := none }) none []) := by
    rfl
  have h2 : DecodeBufio (str "$0\r\n\r\n") =
      some (.returns (some { Message.zero with Typ := MessageBulk, Bulk := some [] }) none []) := by
    rfl
  have h3 : DecodeBufio (str "*-1\r\n") =
      some (.returns (some { Message.zero with Typ := MessageMulti, Multi := none }) none []) := by
    rfl
  have h4 : DecodeBufio (str "*0\r\n") =
      some (.returns (some { Message.zero with Typ := MessageMulti, Multi := some [] }) none []) := by
    rfl
  refine ⟨h1, h2, ?_, h3, h4, ?_⟩
  · rw [h1, h2]; simp
  · rw [h3, h4]; simp

/-- C8, as stated, fails on the empty line CR LF: its first line ends in a line feed and
its leading byte, 13, is none of the five prefixes, yet `DecodeBufio` returns no frame
and no error. -/
theorem C8_empty_line_is_no_error :
    ReadBytes (str "\r\n") = (str "\r\n", none, [])
    ∧ (str "\r\n").head? = some 13
    ∧ 13 ∉ [MessageStatus, MessageError, MessageInt, MessageBulk, MessageMulti]
    ∧ DecodeBufio (str "\r\n") = some (.returns none none []) :=
  ⟨by decide, by decide, by decide, by rfl⟩

/-- C8, amended: for every input whose first line ends in a line feed, is longer than
two bytes and starts with a byte that is none of the five prefixes, `DecodeBufio` fails
with the error "Received illegal data from redis." and returns no frame; the line is
`c :: l` followed by the line feed, and `s` is what follows it. -/
theorem C8_illegal_leading_byte (c : Nat) (l s : ByteStr) (hlf : 10 ∉ c :: l) (hlen : l ≠ [])
    (hc : c ∉ [MessageStatus, MessageError, MessageInt, MessageBulk, MessageMulti]) :
    DecodeBufio (c :: l ++ 10 :: s) =
      some (.returns none (some (.New (str "Received illegal data from redis."))) s) := by
  unfold DecodeBufio
  rw [decodeFuel_line _ c l s hlf hlen]
  simp only [List.mem_cons, List.mem_singleton, not_or, List.not_mem_nil, or_false] at hc
  obtain ⟨h1, h2, h3, h4, h5⟩ := hc
  simp [decodeSwitch, h1, h2, h3, h4, h5]

/-- C8 at the line `hello` CR LF followed by a Status frame. -/
theorem C8_witness :
    DecodeBufio (104 :: str "ello\r" ++ 10 :: str "+OK\r\n") =
      some (.returns none (some (.New (str "Received illegal data from redis.")))
        (str "+OK\r\n")) :=
  C8_illegal_leading_byte 104 (str "ello\r") (str "+OK\r\n") (by decide) (by decide) (by decide)

/-- C9, as stated, fails on a length of minus two and on a length of plus zero: each
field has a byte that is no digit and is not minus one, yet the first decodes to an
absent Bulk and the second to an empty one, with no error. -/
theorem C9_signed_lengths_are_accepted :
    (∃ b ∈ str "-2", ¬ isDigit b) ∧ str "-2" ≠ str "-1"
    ∧ DecodeBufio (str "$-2\r\n") =
      some (.returns (some { Message.zero with Typ := MessageBulk, Bulk := none }) none [])
    ∧ DecodeBufio (str "*-2\r\n") =
      some (.returns (some { Message.zero with Typ := MessageMulti, Multi := none }) none [])
    ∧ (∃ b ∈ str "+0", ¬ isDigit b) ∧ str "+0" ≠ str "-1"
    ∧ DecodeBufio (str "$+0\r\n\r\n") =
      some (.returns (some { Message.zero with Typ := MessageBulk, Bulk := some [] }) none []) :=
  ⟨by decide, by decide, by rfl, by rfl, by decide, by decide, by rfl⟩

/-- C9, amended: for every Bulk or Multi header line whose length field has a byte that
is no digit and is not a plus or minus sign followed by one or more digits, `DecodeBufio`
fails with an error and returns no frame; the header is the prefix `c`, the field and
CR LF, and `s` is what follows it. -/
theorem C9_malformed_length (c : Nat) (field s : ByteStr)
    (hc : c = MessageBulk ∨ c = MessageMulti) (hlf : 10 ∉ field)
    (h1 : ∃ b ∈ field, ¬ isDigit b)
    (h2 : ¬ ∃ sg ds, field = sg :: ds ∧ (sg = 43 ∨ sg = 45) ∧ ds ≠ [] ∧ ∀ d ∈ ds, isDigit d) :
    ∃ e, DecodeBufio (c :: field ++ 13 :: 10 :: s) = some (.returns none (some e) s) := by
  obtain ⟨v, e, ha⟩ := Atoi_malformed field h1 h2
  have h10 : 10 ∉ c :: field := by
    intro hm
    rcases List.mem_cons.1 hm with hm | hm
    · rcases hc with hc | hc <;> simp [hc, MessageBulk, MessageMulti] at hm
    · exact hlf hm
  refine ⟨e, ?_⟩
  unfold DecodeBufio
  rw [decodeFuel_crlf _ c field s h10]
  rcases hc with hc | hc
  · subst hc
    simp [decodeSwitch, MessageError, MessageStatus, MessageInt, MessageBulk, ha]
  · subst hc
    simp [decodeSwitch, MessageError, MessageStatus, MessageInt, MessageBulk, MessageMulti, ha]

/-- C9 at the Bulk header with the length field `1x`. -/
theorem C9_witness :
    ∃ e, DecodeBufio (36 :: str "1x" ++ 13 :: 10 :: str "ab\r\n") =
      some (.returns none (some e) (str "ab\r\n")) :=
  C9_malformed_length 36 (str "1x") (str "ab\r\n") (Or.inl rfl) (by decide)
    ⟨120, by decide, by decide⟩
    (by
      rintro ⟨sg, ds, he, hsg, -, -⟩
      have h49 : sg = 49 := by
        have := congrArg List.head? he
        simpa [str] using this.symm
      omega)

/-- C10: for every Message of Type Error that carries the error `e`, whatever its other
fields hold, `Bool` returns false and no error, `Int64` and `Int` return zero and no
error, `Bytes` returns no bytes and `e`, and `String` returns the empty text and `e`. -/
theorem C10_error_conversions (m : Message) (e : GoError) (ht : m.Typ = MessageError)
    (he : m.Error = some e) :
    m.Bool = (false, none) ∧ m.Int64 = (0, none) ∧ m.Int = (0, none)
    ∧ m.Bytes = (none, some e) ∧ m.String = ([], some e) := by
  simp [Message.Bool, Message.Int64, Message.Int, Message.Bytes, Message.String, ht, he]

/-- C10 at an Error message whose other fields are all set. -/
theorem C10_witness :
    (Message.mk MessageError (some (.New (str "ERR no"))) (str "OK") 7 (some (str "1"))
        (some [])).Bool = (false, none)
    ∧ (Message.mk MessageError (some (.New (str "ERR no"))) (str "OK") 7 (some (str "1"))
        (some [])).Int64 = (0, none)
    ∧ (Message.mk MessageError (some (.New (str "ERR no"))) (str "OK") 7 (some (str "1"))
        (some [])).Int = (0, none)
    ∧ (Message.mk MessageError (some (.New (str "ERR no"))) (str "OK") 7 (some (str "1"))
        (some [])).Bytes = (none, some (.New (str "ERR no")))
    ∧ (Message.mk MessageError (some (.New (str "ERR no"))) (str "OK") 7 (some (str "1"))
        (some [])).String = ([], some (.New (str "ERR no"))) :=
  C10_error_conversions _ (.New (str "ERR no")) rfl rfl


/-- C11, as stated, fails on a Multi of three elements: the count is odd, yet `StringMap`
returns the map of the first two elements and no error; on a Multi of one element it
returns the empty map and no error. -/
theorem C11_odd_count_is_no_error :
    Message.StringMap { Message.zero with
        Typ := MessageMulti,
        Multi := some [
          some { Message.zero with Typ := MessageBulk, Bulk := some (str "a") },
          some { Message.zero with Typ := MessageBulk, Bulk := some (str "b") },
          some { Message.zero with Typ := MessageBulk, Bulk := some (str "c") }] }
      = .returns (some [(str "a", str "b")], none)
    ∧ Message.StringMap { Message.zero with
        Typ := MessageMulti,
        Multi := some [some { Message.zero with Typ := MessageBulk, Bulk := some (str "a") }] }
      = .returns (some [], none) :=
  ⟨by rfl, by rfl⟩

/-- C11, amended: `StringMap` fails, with an error and no map, for every message whose
type is not Multi. For a Multi whose sequence holds the pairs `kvs`, every element
present, and after them at most one more element, it returns no error and the map that
takes the text of element 2i to the text of element 2i+1, when `String` succeeds on the
elements of the pairs; the element after the pairs, which an odd count has, is ignored. -/
theorem C11_StringMap_pairs (m : Message) (kvs : List (Message × Message))
    (last : List (Option Message)) :
    (m.Typ ≠ MessageMulti →
      m.StringMap = .returns
        (none, some (.New (str "Only mutli reponse can convert to [string]string."))))
    ∧ (m.Typ = MessageMulti → m.Multi = some (flattenPairs kvs ++ last) → last.length ≤ 1 →
        (∀ kv ∈ kvs, kv.1.String.2 = none ∧ kv.2.String.2 = none) →
        m.StringMap = .returns (some (pairMap kvs []), none)) := by
  constructor
  · intro h
    simp [Message.StringMap, h]
  · intro ht hm hlast hok
    have hlen : (flattenPairs kvs ++ last).length / 2 = kvs.length := by
      rw [List.length_append, flattenPairs_length]
      omega
    have := stringMapLoop_pairs last kvs [] 0 [] rfl hok
    simp only [List.nil_append] at this
    simp only [Message.StringMap, ht, ne_eq, not_true_eq_false, if_false, hm, hlen, this]
    split
    · rename_i h0
      have hk : kvs = [] := by
        rw [List.length_append, flattenPairs_length] at h0
        exact List.length_eq_zero.mp (by omega)
      subst hk
      rfl
    · rfl

/-- C11 at a Status message, and at a Multi of a Bulk and a Status, with no element and
with an Integer after the two. -/
theorem C11_witness :
    Message.StringMap { Message.zero with Typ := MessageStatus, Status := str "OK" }
      = .returns (none, some (.New (str "Only mutli reponse can convert to [string]string.")))
    ∧ Message.StringMap { Message.zero with
        Typ := MessageMulti,
        Multi := some (flattenPairs
          [({ Message.zero with Typ := MessageBulk, Bulk := some (str "k") },
            { Message.zero with Typ := MessageStatus, Status := str "v" })] ++ []) }
      = .returns (some [(str "k", str "v")], none)
    ∧ Message.StringMap { Message.zero with
        Typ := MessageMulti,
        Multi := some (flattenPairs
          [({ Message.zero with Typ := MessageBulk, Bulk := some (str "k") },
            { Message.zero with Typ := MessageStatus, Status := str "v" })]
          ++ [some { Message.zero with Typ := MessageInt, Integer := 1 }]) }
      = .returns (some [(str "k", str "v")], none) :=
  ⟨(C11_StringMap_pairs { Message.zero with Typ := MessageStatus, Status := str "OK" } [] []).1
      (by decide),
   (C11_StringMap_pairs _
      [({ Message.zero with Typ := MessageBulk, Bulk := some (str "k") },
        { Message.zero with Typ := MessageStatus, Status := str "v" })] []).2
      rfl rfl (by decide) (by decide),
   (C11_StringMap_pairs _
      [({ Message.zero with Typ := MessageBulk, Bulk := some (str "k") },
        { Message.zero with Typ := MessageStatus, Status := str "v" })]
      [some { Message.zero with Typ := MessageInt, Integer := 1 }]).2
      rfl rfl (by decide) (by decide)⟩

/-- C12, as stated, fails for an empty command: with two replies pending, an error reply
and then the Status OK, `Do` returns as its value the sequence of both replies, the error
reply among them, and no error, where the claim has the last reply as the value and the
first error reply as the error. It also fails for a reply whose line is longer than the
buffer of the reader: on the wire form of a Status of 4094 bytes `Do` with a command
returns no reply and a protocol error, which it records. -/
theorem C12_empty_command_returns_all_replies :
    Conn.Do WriteOps.blank { NewConn (Stream.fresh (str "-ERR x\r\n+OK\r\n")) with pending := 2 }
        [] [] =
      some (.returns ((.array [.error (.New (str "ERR x")), .string (str "OK")], none),
        { NewConn (Stream.fresh []) with pending := 0 }))
    ∧ (Frame.Status (List.replicate 4094 97)).Representable
    ∧ ∃ c1, Conn.Do WriteOps.blank
          (NewConn (Stream.fresh ((Frame.Status (List.replicate 4094 97)).wire)))
          (str "GET") [.string (str "k")] =
        some (.returns ((.nil, some (.protocolError "long response line")), c1))
      ∧ c1.err = some (.protocolError "long response line") :=
  ⟨by rfl,
   longLine_representable 4094,
   Conn.Do_long_line WriteOps.blank _ (str "GET") [.string (str "k")]
     (43 :: List.replicate 4094 97 ++ [13]) [] ⟨rfl, rfl, rfl⟩ (Nat.zero_le _) (by decide)
     rfl rfl (longLine_wire_alone 4094) (longLine_no_lf 4094)
     (by rw [longLine_length]; decide)⟩

/-- C12, amended: on a connection whose writes go through, with a pending count `p` from
zero to below the largest `int` and with unread bytes that hold the well-formed replies
`fs`, each Status and Error line of which fits the buffer of the reader, and then `s`,
`Do` with a command, `fs` being `p + 1` replies, writes the command, reads the replies in
order and returns the last of them with the first error reply among them, no error when
none is an error reply; `Do` with an empty command, `fs` being `p` replies, writes
nothing, reads the replies in order and returns the sequence of them all with no error,
and `nil` with no error when `p` is zero. In both cases `s` stays unread, the pending
count is zero afterwards and the recorded error is as before. The buffer of the reader
holds no more bytes than its size, as it always does. -/
theorem C12_Do_reads_the_pending_replies (w : WriteOps) (c : Conn) (cmd : ByteStr)
    (args : List Arg) (fs : List Frame) (s : ByteStr)
    (hw : c.Writable) (hbuf : c.brBuf.length ≤ bufSize)
    (hp0 : 0 ≤ c.pending) (hp1 : c.pending < maxInt64)
    (hlen : (fs.length : Int) = if cmd = [] then c.pending else c.pending + 1)
    (hin : c.unread = Frame.wireAll fs ++ s)
    (hr : Frame.AllRepresentable fs) (hs : Frame.AllShortLines fs) :
    ∃ c1, Conn.Do w c cmd args = some (.returns
        ((if cmd = [] then
            (if c.pending = 0 then (.nil, none) else (.array (Frame.toReplies fs), none))
          else (lastReply .nil (Frame.toReplies fs), firstError (Frame.toReplies fs))), c1))
      ∧ c1.pending = 0 ∧ c1.err = c.err ∧ c1.unread = s
      ∧ c1.written = c.written ++ (if cmd = [] then [] else commandBytes w cmd args) := by
  by_cases hc : cmd = []
  · subst hc
    simp only [if_true] at hlen ⊢
    by_cases h0 : c.pending = 0
    · have hfs : fs = [] := List.length_eq_zero.mp (by omega)
      subst hfs
      refine ⟨{ c with pending := 0 }, ?_, rfl, rfl, ?_, ?_⟩
      · simp [Conn.Do, h0]
      · simpa [Frame.wireAll] using hin
      · simp [Conn.written]
    · obtain ⟨c1, h1, h2, h3, h4, h5, h6⟩ :=
        Conn.Do_empty_wire w c args fs s hw hbuf hlen (by omega) hin hr hs
      refine ⟨c1, ?_, h2, h3, h4, ?_⟩
      · simp only [h0, if_false]; exact h1
      · simp [Conn.written, h5, h6]
  · simp only [hc, if_false] at hlen ⊢
    obtain ⟨c1, h1, h2, h3, h4, h5, h6⟩ :=
      Conn.Do_command_wire w c cmd args fs s hw hbuf hc hp1 hlen hin hr hs
    refine ⟨c1, h1, h2, h3, h4, ?_⟩
    simp [Conn.written, h5, h6]

/-- C12 at one pending reply and the command GET: the input holds an error reply and
then the Status OK, and `Do` returns OK together with the error of the first reply. -/
theorem C12_witness :
    ∃ c1, Conn.Do WriteOps.blank
          { NewConn (Stream.fresh (str "-ERR x\r\n+OK\r\n")) with pending := 1 }
          (str "GET") [.string (str "k")] =
        some (.returns ((.string (str "OK"), some (.New (str "ERR x"))), c1))
      ∧ c1.pending = 0 ∧ c1.err = none ∧ c1.unread = []
      ∧ c1.written = str "*2\r\n$3\r\nGET\r\n$1\r\nk\r\n" :=
  C12_Do_reads_the_pending_replies WriteOps.blank
    { NewConn (Stream.fresh (str "-ERR x\r\n+OK\r\n")) with pending := 1 }
    (str "GET") [.string (str "k")] [.Error (str "ERR x"), .Status (str "OK")] []
    ⟨rfl, rfl, rfl⟩ (by decide) (by decide) (by decide) (by decide) (by rfl)
    (by simp only [Frame.Representable, Frame.AllRepresentable]; decide)
    (by simp only [Frame.ShortLines, Frame.AllShortLines]; decide)

/-- C13, as stated, fails for a reply whose line is longer than the buffer of the
reader: with the wire form of a Status of 4094 bytes as the first reply, the three calls
of `Send` return no error and the first `Receive` returns no reply and a protocol error,
which it records. -/
theorem C13_long_reply_line_fails :
    (Frame.Status (List.replicate 4094 97)).Representable
    ∧ ∃ c1 c2 c3 r1,
      Conn.Send WriteOps.blank
          (NewConn (Stream.fresh
            ((Frame.Status (List.replicate 4094 97)).wire ++ str "-ERR x\r\n:5\r\n")))
          (str "SET") [.string (str "k"), .string (str "v")] = (c1, none)
      ∧ Conn.Send WriteOps.blank c1 (str "GET") [.string (str "k")] = (c2, none)
      ∧ Conn.Send WriteOps.blank c2 (str "PING") [] = (c3, none)
      ∧ c3.Receive = some ((.nil, some (.protocolError "long response line")), r1)
      ∧ r1.err = some (.protocolError "long response line") := by
  refine ⟨longLine_representable 4094, ?_⟩
  have h0 : (NewConn (Stream.fresh
      ((Frame.Status (List.replicate 4094 97)).wire ++ str "-ERR x\r\n:5\r\n"))).Writable :=
    ⟨rfl, rfl, rfl⟩
  obtain ⟨e1, w1⟩ := Conn.Send_ok WriteOps.blank _ (str "SET")
    [.string (str "k"), .string (str "v")] h0
  rcases hs1 : Conn.Send WriteOps.blank (NewConn (Stream.fresh
      ((Frame.Status (List.replicate 4094 97)).wire ++ str "-ERR x\r\n:5\r\n")))
      (str "SET") [.string (str "k"), .string (str "v")] with ⟨c1, x1⟩
  rw [hs1] at e1 w1
  simp only at e1 w1
  subst e1
  obtain ⟨e2, w2⟩ := Conn.Send_ok WriteOps.blank c1 (str "GET") [.string (str "k")] w1.1
  rcases hs2 : Conn.Send WriteOps.blank c1 (str "GET") [.string (str "k")] with ⟨c2, x2⟩
  rw [hs2] at e2 w2
  simp only at e2 w2
  subst e2
  obtain ⟨e3, w3⟩ := Conn.Send_ok WriteOps.blank c2 (str "PING") [] w2.1
  rcases hs3 : Conn.Send WriteOps.blank c2 (str "PING") [] with ⟨c3, x3⟩
  rw [hs3] at e3 w3
  simp only at e3 w3
  subst e3
  have hu : c3.unread = 43 :: List.replicate 4094 97 ++ [13] ++ 10 :: str "-ERR x\r\n:5\r\n" := by
    rw [w3.unread.trans (w2.unread.trans w1.unread)]
    exact longLine_wire 4094 (str "-ERR x\r\n:5\r\n")
  obtain ⟨_, _, _, g1, _, _, b1⟩ := w1
  obtain ⟨_, _, _, g2, _, _, b2⟩ := w2
  obtain ⟨⟨_, o3, _⟩, _, _, g3, _, _, b3⟩ := w3
  have hb3 : c3.brBuf.length ≤ bufSize := by
    rw [b3, b2, b1]; exact Nat.zero_le _
  have he3 : c3.err = none := by rw [g3, g2, g1]; rfl
  obtain ⟨r1, m1, m2⟩ := Conn.Receive_long_line c3 (43 :: List.replicate 4094 97 ++ [13])
    (str "-ERR x\r\n:5\r\n") o3 hb3 he3 hu (longLine_no_lf 4094)
    (by rw [longLine_length]; decide)
  exact ⟨c1, c2, c3, r1, rfl, hs2, hs3, m1, m2⟩

/-- C13, amended: on a connection made for an open stream whose writes do not fail and
whose input holds a reply `a` that is no error reply, the error reply with the message
`b`, a reply `c` that is no error reply, and then `rest`, each Status and Error line of
the replies fitting the buffer of the reader, the three calls of `Send` return no error
and leave the pending count at 3; the three calls of `Receive` that follow return the
reply `a` with no error, no reply with the error `b`, and the reply `c` with no error,
and leave the pending count at 2, 1 and 0; no call records an error, and `rest` stays
unread. -/
theorem C13_pipelined_replies_in_order (w : WriteOps) (st : Stream) (A B C : ByteStr)
    (argsA argsB argsC : List Arg) (a c : Frame) (b rest : ByteStr)
    (hopen : st.closes = 0) (hwr : st.writeErr = none)
    (hin : st.input = a.wire ++ ((Frame.Error b).wire ++ (c.wire ++ rest)))
    (ha : a.Representable) (has : a.ShortLines)
    (hb : (Frame.Error b).Representable) (hbs : (Frame.Error b).ShortLines)
    (hc : c.Representable) (hcs : c.ShortLines)
    (hna : ∀ t, a ≠ .Error t) (hnc : ∀ t, c ≠ .Error t) :
    ∃ c1 c2 c3 r1 r2 r3,
      Conn.Send w (NewConn st) A argsA = (c1, none)
      ∧ Conn.Send w c1 B argsB = (c2, none)
      ∧ Conn.Send w c2 C argsC = (c3, none)
      ∧ c3.pending = 3
      ∧ c3.Receive = some ((a.toReply, none), r1) ∧ r1.pending = 2
      ∧ r1.Receive = some ((.nil, some (.New b)), r2) ∧ r2.pending = 1
      ∧ r2.Receive = some ((c.toReply, none), r3) ∧ r3.pending = 0
      ∧ c3.err = none ∧ r1.err = none ∧ r2.err = none ∧ r3.err = none
      ∧ r3.unread = rest := by
  have h0 : (NewConn st).Writable := ⟨rfl, hopen, hwr⟩
  obtain ⟨e1, w1⟩ := Conn.Send_ok w (NewConn st) A argsA h0
  rcases hs1 : Conn.Send w (NewConn st) A argsA with ⟨c1, x1⟩
  rw [hs1] at e1 w1
  simp only at e1 w1
  subst e1
  obtain ⟨e2, w2⟩ := Conn.Send_ok w c1 B argsB w1.1
  rcases hs2 : Conn.Send w c1 B argsB with ⟨c2, x2⟩
  rw [hs2] at e2 w2
  simp only at e2 w2
  subst e2
  obtain ⟨e3, w3⟩ := Conn.Send_ok w c2 C argsC w2.1
  rcases hs3 : Conn.Send w c2 C argsC with ⟨c3, x3⟩
  rw [hs3] at e3 w3
  simp only at e3 w3
  subst e3
  have hu : c3.unread = a.wire ++ ((Frame.Error b).wire ++ (c.wire ++ rest)) := by
    rw [w3.unread.trans (w2.unread.trans w1.unread)]
    simpa [Conn.unread, NewConn] using hin
  obtain ⟨_, _, p1, g1, _, _, b1⟩ := w1
  obtain ⟨_, _, p2, g2, _, _, b2⟩ := w2
  obtain ⟨⟨_, o3, _⟩, _, p3, g3, _, _, b3⟩ := w3
  simp only at p1 p2 p3 g1 g2 g3
  have q1 : c1.pending = 1 := by
    rw [p1]
    show wrapInt64 ((0 : Int) + 1) = 1
    decide
  have q2 : c2.pending = 2 := by rw [p2, q1]; decide
  have q3 : c3.pending = 3 := by rw [p3, q2]; decide
  have k3 : c3.err = none := by rw [g3, g2, g1]; rfl
  have hb3 : c3.brBuf.length ≤ bufSize := by
    rw [b3, b2, b1]; exact Nat.zero_le _
  obtain ⟨r1, m1, t1, n1⟩ := Conn.Receive_wire c3 a _ o3 hb3 hu ha has
  rw [receiveResult_success a hna] at m1
  obtain ⟨r2, m2, t2, n2⟩ := Conn.Receive_wire r1 (.Error b) _ (t1.2.2.1.trans o3) t1.2.1 t1.1
    hb hbs
  obtain ⟨r3, m3, t3, n3⟩ := Conn.Receive_wire r2 c _ (t2.2.2.1.trans (t1.2.2.1.trans o3))
    t2.2.1 t2.1 hc hcs
  rw [receiveResult_success c hnc] at m3
  have l1 : r1.pending = 2 := by rw [n1, q3]; decide
  have l2 : r2.pending = 1 := by rw [n2, l1]; decide
  have l3 : r3.pending = 0 := by rw [n3, l2]; decide
  have j1 : r1.err = none := t1.2.2.2.2.2.2.1.trans k3
  have j2 : r2.err = none := t2.2.2.2.2.2.2.1.trans j1
  have j3 : r3.err = none := t3.2.2.2.2.2.2.1.trans j2
  exact ⟨c1, c2, c3, r1, r2, r3, rfl, hs2, hs3, q3, m1, l1, m2, l2, m3, l3, k3, j1, j2, j3,
    t3.1⟩

/-- C13 at the commands SET, GET and PING, with the replies Status OK, the error reply
`ERR x` and the Integer 5. -/
theorem C13_witness :
    ∃ c1 c2 c3 r1 r2 r3,
      Conn.Send WriteOps.blank (NewConn (Stream.fresh (str "+OK\r\n-ERR x\r\n:5\r\n")))
          (str "SET") [.string (str "k"), .string (str "v")] = (c1, none)
      ∧ Conn.Send WriteOps.blank c1 (str "GET") [.string (str "k")] = (c2, none)
      ∧ Conn.Send WriteOps.blank c2 (str "PING") [] = (c3, none)
      ∧ c3.pending = 3
      ∧ c3.Receive = some ((.string (str "OK"), none), r1) ∧ r1.pending = 2
      ∧ r1.Receive = some ((.nil, some (.New (str "ERR x"))), r2) ∧ r2.pending = 1
      ∧ r2.Receive = some ((.int64 5, none), r3) ∧ r3.pending = 0
      ∧ c3.err = none ∧ r1.err = none ∧ r2.err = none ∧ r3.err = none
      ∧ r3.unread = [] :=
  C13_pipelined_replies_in_order WriteOps.blank (Stream.fresh (str "+OK\r\n-ERR x\r\n:5\r\n"))
    (str "SET") (str "GET") (str "PING") [.string (str "k"), .string (str "v")]
    [.string (str "k")] [] (.Status (str "OK")) (.Integer 5) (str "ERR x") []
    rfl rfl (by rfl) (by simp only [Frame.Representable]; decide)
    (by simp only [Frame.ShortLines]; decide) (by simp only [Frame.Representable]; decide)
    (by simp only [Frame.ShortLines]; decide) (by simp only [Frame.Representable]; decide)
    (by simp only [Frame.ShortLines]) (by intro t h; cases h) (by intro t h; cases h)

/-- C15: on every connection, after a call of `Close` or `fatal` and any calls of them
that follow, the recorded error is the one the connection had before or, if it had
none, the one the first call records; the calls that follow the first leave the state as
it is; the stream was closed once if the connection had no recorded error and not at all
if it had one; and `Close` then returns the recorded error and leaves the state as it
is. The errors passed to `fatal` are not `nil`, as at every call of it in the source. -/
theorem C15_first_call_latches (c : Conn) (op : LatchOp) (ops : List LatchOp) :
    (Conn.run (op :: ops) c).err = some (c.err.getD op.recorded)
    ∧ Conn.run (op :: ops) c = c.step op
    ∧ (Conn.run (op :: ops) c).conn.closes = c.conn.closes + (if c.err = none then 1 else 0)
    ∧ (Conn.run (op :: ops) c).Close = (Conn.run (op :: ops) c, some (c.err.getD op.recorded)) := by
  have key : (c.step op).err = some (c.err.getD op.recorded)
      ∧ (c.step op).conn.closes = c.conn.closes + (if c.err = none then 1 else 0) := by
    cases he : c.err with
    | none => simpa using Conn.step_first c op he
    | some e => simp [Conn.step_recorded c e op he, he]
  have hrun : Conn.run (op :: ops) c = c.step op := by
    rw [Conn.run]
    exact Conn.run_recorded _ ops _ key.1
  rw [hrun]
  refine ⟨key.1, rfl, key.2, ?_⟩
  simp [Conn.Close, key.1]

/-- C16, the divergence: for the command SET with the `int` argument 5, `writeCommand`
writes the argument with a colon where `Encode` writes it with a dollar sign, as a bulk
string; the same holds for an `int64` argument. -/
theorem C16_integer_argument_is_not_a_bulk_string :
    (Conn.writeCommand WriteOps.blank (NewConn (Stream.fresh [])) (str "SET") [.int 5]).2 = none
    ∧ (Conn.writeCommand WriteOps.blank (NewConn (Stream.fresh [])) (str "SET")
        [.int 5]).1.written = str "*2\r\n$3\r\nSET\r\n:1\r\n5\r\n"
    ∧ Encode ⟨id, fun _ => []⟩ [.string (str "SET"), .int 5]
        = (some (str "*2\r\n$3\r\nSET\r\n$1\r\n5\r\n"), none)
    ∧ (Conn.writeCommand WriteOps.blank (NewConn (Stream.fresh [])) (str "SET")
        [.int64 (-12)]).1.written = str "*2\r\n$3\r\nSET\r\n:3\r\n-12\r\n"
    ∧ Encode ⟨id, fun _ => []⟩ [.string (str "SET"), .int64 (-12)]
        = (some (str "*2\r\n$3\r\nSET\r\n$3\r\n-12\r\n"), none) :=
  ⟨by decide, by decide, by decide, by decide, by decide⟩

/-- C17, as stated, fails on a Status line that ends in a line feed with no carriage
return before it, which `DecodeBufio` reads as a Status and `readReply` rejects, and on
a Bulk header with the length minus two, which `DecodeBufio` reads as an absent Bulk and
`readReply` rejects. -/
theorem C17_decoders_differ_on_malformed_input :
    DecodeBufio (str "+OK\n") =
      some (.returns (some { Message.zero with Typ := MessageStatus, Status := str "O" }) none [])
    ∧ readReply (str "+OK\n") =
      some (.nil, some (.protocolError "bad response line terminator"), [])
    ∧ DecodeBufio (str "$-2\r\n") =
      some (.returns (some { Message.zero with Typ := MessageBulk, Bulk := none }) none [])
    ∧ readReply (str "$-2\r\n") =
      some (.nil, some (.protocolError "illegal bytes in length"), []) :=
  ⟨by rfl, by rfl, by rfl, by rfl⟩

/-- C17, amended: on the wire form of a frame, nested to any depth, whose Status and
Error lines fit the buffer of the reader, followed by any bytes `s`, `DecodeBufio` and
`readReply` both succeed and leave `s` unread, and the reply corresponds to the frame:
the message of `DecodeBufio` is the message of the frame and the reply of `readReply` is
the reply of the frame. -/
theorem C17_decoders_agree_on_wire_forms (f : Frame) (s : ByteStr) (h : f.Representable)
    (hs : f.ShortLines) :
    DecodeBufio (f.wire ++ s) = some (.returns (some f.toMessage) none s)
    ∧ readReply (f.wire ++ s) = some (f.toReply, none, s) :=
  ⟨DecodeBufio_wire f s h, readReply_wire f s h hs⟩

/-- C17 at a Multi of a Status, an Error, an Integer, both Bulks and a nested Multi,
followed by the first bytes of another frame. -/
theorem C17_witness :
    (Frame.Multi (some [.Status (str "OK"), .Error (str "ERR x"), .Integer (-42), .Bulk none,
        .Bulk (some (str "a\r\nb")), .Multi (some [.Multi none])])).wire
      = str "*6\r\n+OK\r\n-ERR x\r\n:-42\r\n$-1\r\n$4\r\na\r\nb\r\n*1\r\n*-1\r\n"
    ∧ (Frame.Multi (some [.Status (str "OK"), .Error (str "ERR x"), .Integer (-42), .Bulk none,
        .Bulk (some (str "a\r\nb")), .Multi (some [.Multi none])])).toReply
      = .array [.string (str "OK"), .error (.New (str "ERR x")), .int64 (-42), .nil,
          .bytes (str "a\r\nb"), .array [.nil]]
    ∧ DecodeBufio ((Frame.Multi (some [.Status (str "OK"), .Error (str "ERR x"), .Integer (-42),
        .Bulk none, .Bulk (some (str "a\r\nb")), .Multi (some [.Multi none])])).wire
        ++ str "+PO") =
      some (.returns (some (Frame.Multi (some [.Status (str "OK"), .Error (str "ERR x"),
        .Integer (-42), .Bulk none, .Bulk (some (str "a\r\nb")),
        .Multi (some [.Multi none])])).toMessage) none (str "+PO"))
    ∧ readReply ((Frame.Multi (some [.Status (str "OK"), .Error (str "ERR x"), .Integer (-42),
        .Bulk none, .Bulk (some (str "a\r\nb")), .Multi (some [.Multi none])])).wire
        ++ str "+PO") =
      some ((Frame.Multi (some [.Status (str "OK"), .Error (str "ERR x"), .Integer (-42),
        .Bulk none, .Bulk (some (str "a\r\nb")), .Multi (some [.Multi none])])).toReply,
        none, str "+PO") :=
  ⟨by rfl, by rfl,
   C17_decoders_agree_on_wire_forms
    (.Multi (some [.Status (str "OK"), .Error (str "ERR x"), .Integer (-42), .Bulk none,
      .Bulk (some (str "a\r\nb")), .Multi (some [.Multi none])]))
    (str "+PO")
    (by simp only [Frame.Representable, Frame.AllRepresentable]; decide)
    (by simp only [Frame.ShortLines, Frame.AllShortLines]; decide)⟩

/-- C18, the failing inputs: after the header of a Multi of one element, an empty line
makes `DecodeBufio` return, with no error, a Multi whose one element is absent, and
`Strings` on that message panics; with two empty lines after the header of a Multi of two
elements both elements are absent and `StringMap` on that message panics. -/
theorem C18_blank_line_is_an_absent_element :
    DecodeBufio (str "*1\r\n\r\n") =
      some (.returns (some { Message.zero with Typ := MessageMulti, Multi := some [none] })
        none [])
    ∧ Message.Strings { Message.zero with Typ := MessageMulti, Multi := some [none] } = .panics
    ∧ DecodeBufio (str "*2\r\n\r\n\r\n") =
      some (.returns (some { Message.zero with Typ := MessageMulti, Multi := some [none, none] })
        none [])
    ∧ Message.StringMap { Message.zero with Typ := MessageMulti, Multi := some [none, none] }
      = .panics :=
  ⟨by rfl, by rfl, by rfl, by rfl⟩

/-- C19: for every signed 64-bit integer `n`, `parseInt` on the decimal text of `n`, a
minus sign for a negative `n` and then the digits, returns `n` and no error; the digits
are accumulated in 64-bit wrapping arithmetic. -/
theorem C19_parseInt_reads_every_int64 (n : Int) (h1 : minInt64 ≤ n) (h2 : n ≤ maxInt64) :
    parseInt (FormatInt n) = (.int64 n, none) :=
  parseInt_FormatInt n h1 h2

/-- C19 at the least 64-bit integer, whose magnitude is no 64-bit integer. -/
theorem C19_witness :
    FormatInt (-9223372036854775808) = str "-9223372036854775808"
    ∧ wrapInt64 9223372036854775808 = -9223372036854775808
    ∧ parseInt (FormatInt (-9223372036854775808)) = (.int64 (-9223372036854775808), none) :=
  ⟨by decide, by decide, C19_parseInt_reads_every_int64 _ (by decide) (by decide)⟩

/-- C20, the divergence: whatever the encoders of the elements are, `ToBytes` returns
`nil` for the Multi with a present, empty sequence, where the wire form is an asterisk,
the digit zero and CR LF, and for the Multi that holds one Status; for every Multi it
returns `nil` or panics, and so never returns bytes. -/
theorem C20_ToBytes_of_a_Multi_is_nil (enc : Encoders) :
    Message.ToBytes enc { Message.zero with Typ := MessageMulti, Multi := some [] }
      = some (.returns none)
    ∧ Message.ToBytes enc { Message.zero with
        Typ := MessageMulti,
        Multi := some [some { Message.zero with Typ := MessageStatus, Status := str "OK" }] }
      = some (.returns none)
    ∧ ∀ (m : Message), m.Typ = MessageMulti →
        m.ToBytes enc = some (.returns none) ∨ m.ToBytes enc = some .panics :=
  ⟨by rfl, by rfl, fun m ht => ToBytes_Multi enc m ht⟩
end Resp
